import Mathlib

/-!
# Incognito chain: committee unstake rule, shard block validation, staking metadata,
transactions

A shallow embedding of

* `blockchain/committeestate/unstake_rule_v1.go` (`processUnstakeInstruction`,
  `getSubtituteCandidates`, `getValidators`),
* `blockchain/blockchain_v2/block/shardinterfacevalidateblock.go`
  (`ShardView.ValidateBlockAndCreateNewView`),
* `metadata/staking.go` (`StakingMetadata.ValidateSanityData`, `ValidateTxWithBlockChain`),
* `transaction/tx.go` (`Tx.Hash`, `Tx.ValidateTransaction`, `CreateTx`, `SignTx`,
  `VerifySign`, `PubKeyToByteArray`),

and of the vote aggregator and propose handler described by the specification, followed by
the properties established about them.

Conventions: a Go function that can panic returns an `Outcome`; a Go `error` result is an
`Option E` (`none` is `nil`); a receiver mutated through its pointer is returned as part of the
result; a Go `map[string]V` is a partial function on strings.
-/

namespace Incognito

/-! ## Go runtime conventions -/

/-- Result of running a Go function body: it either panics or returns a value. -/
inductive Outcome (α : Type) where
  | panic : Outcome α
  | ret (a : α) : Outcome α
  deriving DecidableEq, Repr

/-- A Go `map[string]V`: a lookup yields `none` when the key has no entry. -/
abbrev GoMap (V : Type) := String → Option V

/-- The map without any entry (`make(map[string]V)`). -/
def mapEmpty {V : Type} : GoMap V := fun _ => none

/-- Go `delete(m, k)`. -/
def mapDelete {V : Type} (m : GoMap V) (k : String) : GoMap V :=
  fun x => if x = k then none else m x

/-- Go `m[k] = v`. -/
def mapSet {V : Type} (m : GoMap V) (k : String) (v : V) : GoMap V :=
  fun x => if x = k then some v else m x

/-- Go `v := m[k]` for an `int` valued map: the zero value when the key has no entry. -/
def mapGetInt (m : GoMap Nat) (k : String) : Nat :=
  match m k with
  | some i => i
  | none => 0

/-- Scan of `common.IndexOfStr` from position `k`. -/
def IndexOfStrFrom (item : String) : List String → Nat → Int
  | [], _ => -1
  | v :: vs, k => if item = v then (k : Int) else IndexOfStrFrom item vs (k + 1)

/-- Modelled from the spec: `common.IndexOfStr` is called by the unstake rule and is not among
the sources; it is the position of the first element equal to `item`, or `-1` when the list
has none (the rule only tests the result against `-1`, "is / is not in the list"). -/
def IndexOfStr (item : String) (list : List String) : Int :=
  IndexOfStrFrom item list 0

/-! ## Committee state (`unstake_rule_v1.go`) -/

/-- The methods of `incognitokey.CommitteePublicKey` used by the rule, together with
`statedb.DeleteStakerInfo`. Their bodies live outside the embedded sources, so they are
parameters: `K` is the key struct, `E` the error type, `DB` the consensus state database. -/
structure Deps (K E DB : Type) where
  /-- The method `CommitteePublicKey.ToBase58`. -/
  ToBase58 : K → Except E String
  /-- The method `CommitteePublicKey.FromBase58` on a fresh struct: the decoded key or the
  error. -/
  FromBase58 : String → Except E K
  /-- The method `CommitteePublicKey.GetIncKeyBase58`. -/
  GetIncKeyBase58 : K → String
  /-- The function `statedb.DeleteStakerInfo`: the database afterwards and the returned
  error. -/
  DeleteStakerInfo : DB → List K → DB × Option E

/-- The fields of `BeaconCommitteeStateV1` that `unstake_rule_v1.go` reads or writes.
`H` is the type of a staking transaction hash; a `map[byte][]K` is a list of entries. -/
structure BeaconCommitteeStateV1 (K H : Type) where
  beaconCommittee : List K
  beaconSubstitute : List K
  nextEpochShardCandidate : List K
  currentEpochShardCandidate : List K
  nextEpochBeaconCandidate : List K
  currentEpochBeaconCandidate : List K
  shardCommittee : List (Nat × List K)
  shardSubstitute : List (Nat × List K)
  autoStake : GoMap Bool
  rewardReceiver : GoMap String
  stakingTx : GoMap H

/-- The fields of `BeaconCommitteeStateEnvironment` used by the unstake rule. -/
structure BeaconCommitteeStateEnvironment (DB : Type) where
  ConsensusStateDB : DB
  subtituteCandidates : List String
  validators : List String

/-- The object behind a `*CommitteeChange`: the two lists the rule appends to, and `other`
for every remaining field (none of which the rule mentions). -/
structure CommitteeChange (K R : Type) where
  Unstake : List String
  NextEpochShardCandidateRemoved : List K
  other : R

/-- An `instruction.UnstakeInstruction`: the rule reads its `PublicKeys` only. -/
structure UnstakeInstruction where
  PublicKeys : List String

/-- First loop of `processUnstakeInstruction`: `indexNextEpochShardCandidate[key] = i` for
each candidate at position `i`, stopping at the first key whose `ToBase58` fails. -/
def buildIndex {K E : Type} (toBase58 : K → Except E String) :
    List K → Nat → GoMap Nat → Except E (GoMap Nat)
  | [], _, m => .ok m
  | v :: vs, i, m =>
    match toBase58 v with
    | .error e => .error e
    | .ok key => buildIndex toBase58 vs (i + 1) (mapSet m key i)

/-- Go `append(l[:i], l[i+1:]...)` on a slice `l`: the slice expression `l[i+1:]` panics
unless `i + 1 ≤ len(l)`; otherwise the element at position `i` is removed. -/
def removeAt {α : Type} (l : List α) (i : Nat) : Outcome (List α) :=
  if i < l.length then .ret (l.take i ++ l.drop (i + 1)) else .panic

/-- What the second loop carries from one target key to the next: the receiver `b`, the
object behind `committeeChange` (`newCommitteeChange` is the same pointer) and the local
`nextEpochShardCandidateUnstakeKey`. -/
structure LoopState (K H R : Type) where
  b : BeaconCommitteeStateV1 K H
  committeeChange : CommitteeChange K R
  unstakeKey : List K

/-- One iteration of a loop whose body may panic, return an error, or fall through. -/
inductive Step (σ E : Type) where
  | panic : Step σ E
  | fail (s : σ) (e : E) : Step σ E
  | next (s : σ) : Step σ E

/-- Body of the loop over `unstakeInstruction.PublicKeys` (lines 31-77). -/
def unstakeOne {K H R E DB : Type} (d : Deps K E DB) (env : BeaconCommitteeStateEnvironment DB)
    (index : GoMap Nat) (committeePublicKey : String) (s : LoopState K H R) :
    Step (LoopState K H R) E :=
  if IndexOfStr committeePublicKey env.subtituteCandidates = -1 then
    if IndexOfStr committeePublicKey env.validators = -1 then
      -- if not found then delete auto staking data for this public key if present
      if (s.b.autoStake committeePublicKey).isSome then
        .next { s with b := { s.b with autoStake := mapDelete s.b.autoStake committeePublicKey } }
      else .next s
    else
      -- if found in committee list then turn off auto staking
      if (s.b.autoStake committeePublicKey).isSome then
        .next { s with
          b := { s.b with autoStake := mapSet s.b.autoStake committeePublicKey false }
          committeeChange := { s.committeeChange with
            Unstake := s.committeeChange.Unstake ++ [committeePublicKey] } }
      else .next s
  else
    let autoStake1 :=
      if (s.b.autoStake committeePublicKey).isSome then
        mapDelete s.b.autoStake committeePublicKey else s.b.autoStake
    let stakingTx1 :=
      if (s.b.stakingTx committeePublicKey).isSome then
        mapDelete s.b.stakingTx committeePublicKey else s.b.stakingTx
    let b1 := { s.b with autoStake := autoStake1, stakingTx := stakingTx1 }
    match d.FromBase58 committeePublicKey with
    | .error e => .fail { s with b := b1 } e
    | .ok committeePublicKeyStruct =>
      let rewardReceiverKey := d.GetIncKeyBase58 committeePublicKeyStruct
      let rewardReceiver1 :=
        if (b1.rewardReceiver rewardReceiverKey).isSome then
          mapDelete b1.rewardReceiver rewardReceiverKey else b1.rewardReceiver
      let cc1 := { s.committeeChange with
        NextEpochShardCandidateRemoved :=
          s.committeeChange.NextEpochShardCandidateRemoved ++ [committeePublicKeyStruct] }
      let indexCandidate := mapGetInt index committeePublicKey
      match removeAt b1.nextEpochShardCandidate indexCandidate with
      | .panic => .panic
      | .ret candidates =>
        .next {
          b := { b1 with rewardReceiver := rewardReceiver1, nextEpochShardCandidate := candidates }
          committeeChange := cc1
          unstakeKey := s.unstakeKey ++ [committeePublicKeyStruct] }

/-- The loop over `unstakeInstruction.PublicKeys` (lines 30-78). -/
def unstakeLoop {K H R E DB : Type} (d : Deps K E DB) (env : BeaconCommitteeStateEnvironment DB)
    (index : GoMap Nat) : List String → LoopState K H R → Step (LoopState K H R) E
  | [], s => .next s
  | key :: rest, s =>
    match unstakeOne d env index key s with
    | .panic => .panic
    | .fail s1 e => .fail s1 e
    | .next s1 => unstakeLoop d env index rest s1

/-- What a caller observes when `processUnstakeInstruction` returns: the receiver `b` as the
call left it, the object behind the returned `*CommitteeChange`, the returned error, the
consensus state database, and the key lists handed to `statedb.DeleteStakerInfo` (one per
invocation, in order). -/
structure UnstakeReturn (K H R E DB : Type) where
  b : BeaconCommitteeStateV1 K H
  committeeChange : CommitteeChange K R
  err : Option E
  db : DB
  deleteCalls : List (List K)

/-- The method `BeaconCommitteeStateV1.processUnstakeInstruction` (lines 12-82). -/
def processUnstakeInstruction {K H R E DB : Type} (d : Deps K E DB)
    (b : BeaconCommitteeStateV1 K H) (unstakeInstruction : UnstakeInstruction)
    (env : BeaconCommitteeStateEnvironment DB) (committeeChange : CommitteeChange K R) :
    Outcome (UnstakeReturn K H R E DB) :=
  match buildIndex d.ToBase58 b.nextEpochShardCandidate 0 mapEmpty with
  | .error e => .ret ⟨b, committeeChange, some e, env.ConsensusStateDB, []⟩
  | .ok index =>
    match unstakeLoop d env index unstakeInstruction.PublicKeys ⟨b, committeeChange, []⟩ with
    | .panic => .panic
    | .fail s e => .ret ⟨s.b, s.committeeChange, some e, env.ConsensusStateDB, []⟩
    | .next s =>
      let r := d.DeleteStakerInfo env.ConsensusStateDB s.unstakeKey
      .ret ⟨s.b, s.committeeChange, r.2, r.1, [s.unstakeKey]⟩

/-! ### Concrete instances used to evaluate the rule -/

/-- A key codec for concrete runs: a key is its own base58 text, the empty text does not
decode, a key with empty text does not encode, the incognito key is the text prefixed by
`inc:`, and `DeleteStakerInfo` succeeds. -/
def textDeps : Deps String String Unit where
  ToBase58 := fun k => if k = "" then .error "ToBase58" else .ok k
  FromBase58 := fun s => if s = "" then .error "FromBase58" else .ok s
  GetIncKeyBase58 := fun k => "inc:" ++ k
  DeleteStakerInfo := fun db _ => (db, none)

/-- A state whose only non-empty parts are the next-epoch shard candidates and `autoStake`. -/
def stateOf (candidates : List String) (autoStake : GoMap Bool) :
    BeaconCommitteeStateV1 String Nat where
  beaconCommittee := []
  beaconSubstitute := []
  nextEpochShardCandidate := candidates
  currentEpochShardCandidate := []
  nextEpochBeaconCandidate := []
  currentEpochBeaconCandidate := []
  shardCommittee := []
  shardSubstitute := []
  autoStake := autoStake
  rewardReceiver := mapEmpty
  stakingTx := mapEmpty

/-- The `CommitteeChange` with empty lists. -/
def emptyChange : CommitteeChange String Unit := ⟨[], [], ()⟩

/-- An environment over unit databases listing the given strings. -/
def envOf (subtituteCandidates validators : List String) :
    BeaconCommitteeStateEnvironment Unit :=
  ⟨(), subtituteCandidates, validators⟩

/-- The codec of `textDeps` with a `DeleteStakerInfo` that fails. -/
def failingDbDeps : Deps String String Unit :=
  { textDeps with DeleteStakerInfo := fun db _ => (db, some "DeleteStakerInfo") }

/-- The map with the single entry `k ↦ v`. -/
def mapSingle {V : Type} (k : String) (v : V) : GoMap V := mapSet mapEmpty k v

/-- The returned value of an outcome, `dflt` when it is a panic. -/
def Outcome.getD {α : Type} (o : Outcome α) (dflt : α) : α :=
  match o with
  | .ret a => a
  | .panic => dflt

/-- A return value over the empty state, used as the default of `Outcome.getD`. -/
def emptyReturn : UnstakeReturn String Nat Unit String Unit :=
  ⟨stateOf [] mapEmpty, emptyChange, none, (), []⟩

/-- Candidates `A`, `B`; `A` has an auto-stake flag, a staking transaction and a reward
receiver. -/
def purgeState : BeaconCommitteeStateV1 String Nat :=
  { stateOf ["A", "B"] (mapSingle "A" true) with
    stakingTx := mapSingle "A" 7, rewardReceiver := mapSingle "inc:A" "rr" }

/-- Unstaking candidate `A` in `purgeState`. -/
def purgeRun : UnstakeReturn String Nat Unit String Unit :=
  (processUnstakeInstruction textDeps purgeState ⟨["A"]⟩ (envOf ["A", "B"] [])
    emptyChange).getD emptyReturn

/-- Unstaking `A` then `B` from the candidates `A`, `B`, `C`. -/
def staleRun : UnstakeReturn String Nat Unit String Unit :=
  (processUnstakeInstruction textDeps (stateOf ["A", "B", "C"] mapEmpty) ⟨["A", "B"]⟩
    (envOf ["A", "B", "C"] []) emptyChange).getD emptyReturn

/-- Unstaking the validator `V`, which has an auto-stake flag. -/
def activeRun : UnstakeReturn String Nat Unit String Unit :=
  (processUnstakeInstruction textDeps (stateOf ["A"] (mapSingle "V" true)) ⟨["V"]⟩
    (envOf ["A"] ["V"]) emptyChange).getD emptyReturn

/-- Unstaking the validator `V`, which has no auto-stake entry. -/
def noEntryRun : UnstakeReturn String Nat Unit String Unit :=
  (processUnstakeInstruction textDeps (stateOf ["A"] mapEmpty) ⟨["V"]⟩
    (envOf ["A"] ["V"]) emptyChange).getD emptyReturn

/-- Unstaking the undecodable text listed as a candidate, then the validator `V`. -/
def abortedRun : UnstakeReturn String Nat Unit String Unit :=
  (processUnstakeInstruction textDeps (stateOf ["A"] (mapSingle "V" true)) ⟨["", "V"]⟩
    (envOf ["A", ""] ["V"]) emptyChange).getD emptyReturn

/-- Unstaking candidate `A` while `DeleteStakerInfo` fails. -/
def dbErrorRun : UnstakeReturn String Nat Unit String Unit :=
  (processUnstakeInstruction failingDbDeps (stateOf ["A"] (mapSingle "A" true)) ⟨["A"]⟩
    (envOf ["A"] []) emptyChange).getD emptyReturn

/-- Unstaking the unknown key `X` while the candidate list holds a key that does not
encode. -/
def badCandidateRun : UnstakeReturn String Nat Unit String Unit :=
  (processUnstakeInstruction textDeps (stateOf ["A", ""] (mapSingle "X" true)) ⟨["X"]⟩
    (envOf ["A"] []) emptyChange).getD emptyReturn

/-- Unstaking the validator `V` and the candidate `A` in one instruction. -/
def mixedRun : UnstakeReturn String Nat Unit String Unit :=
  (processUnstakeInstruction textDeps (stateOf ["A"] (mapSingle "V" true)) ⟨["V", "A"]⟩
    (envOf ["A"] ["V"]) emptyChange).getD emptyReturn

/-! ## Shard block validation (`shardinterfacevalidateblock.go`) -/

/-- The struct `ValidateShardBlockState` (lines 10-25): `tmp` stands for the fields
`beaconBlocks`, `crossShardBlocks`, `txsToAdd` and `isOldBeaconHeight`, which the function
under study never mentions; `ctx`, `bc` and `app` are passed separately. -/
structure ValidateShardBlockState (V Tv : Type) where
  curView : V
  isPreSign : Bool
  newView : V
  tmp : Tv

/-- The fields of the create state that `ValidateBlockAndCreateNewView` assigns (`newView`,
`newBlock`); `tmp` stands for the rest. -/
structure CreateShardBlockState (V B Tc : Type) where
  newView : V
  newBlock : Option B
  tmp : Tc

/-- Everything the pluggable apps can reach through their pointers. -/
structure World (V B Tv Tc : Type) where
  validateState : ValidateShardBlockState V Tv
  createState : CreateShardBlockState V B Tc

/-- The `ShardApp` stages called by the function: each may fail with an error or update the
states it points to. -/
structure ShardApp (V B Tv Tc E : Type) where
  preValidate : World V B Tv Tc → Except E (World V B Tv Tc)
  buildTxFromCrossShard : World V B Tv Tc → Except E (World V B Tv Tc)
  buildResponseTxFromTxWithMetadata : World V B Tv Tc → Except E (World V B Tv Tc)
  processBeaconInstruction : World V B Tv Tc → Except E (World V B Tv Tc)
  generateInstruction : World V B Tv Tc → Except E (World V B Tv Tc)
  updateNewViewFromBlock : B → World V B Tv Tc → Except E (World V B Tv Tc)
  buildHeader : World V B Tv Tc → Except E (World V B Tv Tc)

/-- Operations on views, blocks and signatures whose bodies are outside the embedded sources:
`V` is `*ShardView`, `B` is `*ShardBlock`, `C` a committee (`[]CommitteePublicKey`). -/
structure ViewOps (V B C Tv Tc E : Type) where
  /-- The call `s.CloneNewView().(*ShardView)`. -/
  CloneNewView : V → V
  /-- The call `s.GetCommittee()`. -/
  GetCommittee : V → C
  /-- The view after the assignment `view.Block = block`. -/
  withBlock : V → B → V
  /-- A new `ShardBlock` whose only set field is `Body`, taken from `block`. -/
  bodyOnly : B → B
  /-- Zero values of the `tmp` fields of a fresh validate state. -/
  tmpZero : Tv
  /-- The call `s.NewCreateState(ctx)`. -/
  NewCreateState : V → CreateShardBlockState V B Tc
  /-- The call `ValidateProducerSig(block)` of `blsbftv2.BLSBFT`: the error, if any. -/
  ValidateProducerSig : B → Option E
  /-- The call `ValidateCommitteeSig(block, committee)` of `blsbftv2.BLSBFT`: the error, if
  any. -/
  ValidateCommitteeSig : B → C → Option E

/-- One entry per stage invocation, in execution order. -/
inductive Event (C : Type) where
  | preValidate
  | buildTxFromCrossShard
  | buildResponseTxFromTxWithMetadata
  | processBeaconInstruction
  | generateInstruction
  | updateNewViewFromBlock
  | buildHeader
  | ValidateProducerSig
  | ValidateCommitteeSig (committee : C)
  deriving DecidableEq, Repr

/-- Control flow of the function body after a stage: it has returned `nil, err`, it has
panicked, or it goes on with the current world. Each case carries the events so far. -/
inductive Flow (W C E : Type) where
  | stop (trace : List (Event C)) (e : E) : Flow W C E
  | crash (trace : List (Event C)) : Flow W C E
  | go (w : W) (trace : List (Event C)) : Flow W C E

/-- Sequencing: run `g` only when the flow goes on. -/
def Flow.andThen {W C E : Type} (f : Flow W C E) (g : W → List (Event C) → Flow W C E) :
    Flow W C E :=
  match f with
  | .stop t e => .stop t e
  | .crash t => .crash t
  | .go w t => g w t

/-- A loop `for _, app := range apps` whose body calls one stage of `app` and returns
`nil, err` on the first error. -/
def forApps {V B Tv Tc C E : Type}
    (stage : ShardApp V B Tv Tc E → World V B Tv Tc → Except E (World V B Tv Tc))
    (ev : Event C) :
    List (ShardApp V B Tv Tc E) → World V B Tv Tc → List (Event C) →
      Flow (World V B Tv Tc) C E
  | [], w, t => .go w t
  | app :: rest, w, t =>
    match stage app w with
    | .error e => .stop (t ++ [ev]) e
    | .ok w1 => forApps stage ev rest w1 (t ++ [ev])

/-- The method `ShardView.NewValidateState` (lines 27-39), without the app list. -/
def NewValidateState {V B C Tv Tc E : Type} (ops : ViewOps V B C Tv Tc E) (s : V) :
    ValidateShardBlockState V Tv :=
  { curView := s, isPreSign := false, newView := ops.CloneNewView s, tmp := ops.tmpZero }

/-- What a caller of `ValidateBlockAndCreateNewView` observes: the stage invocations made and
either a panic or the returned pair (view, error), `none` standing for `nil`. -/
structure ValidateResult (V C E : Type) where
  trace : List (Event C)
  out : Outcome (Option V × Option E)

/-- The pre-sign branch (lines 57-103). -/
def preSignBranch {V B C Tv Tc E : Type} (ops : ViewOps V B C Tv Tc E)
    (createApp : List (ShardApp V B Tv Tc E)) (block : B)
    (w : World V B Tv Tc) (t : List (Event C)) : Flow (World V B Tv Tc) C E :=
  (forApps (fun a => a.buildTxFromCrossShard) .buildTxFromCrossShard createApp w t).andThen
  fun w t =>
  (forApps (fun a => a.buildResponseTxFromTxWithMetadata) .buildResponseTxFromTxWithMetadata
    createApp w t).andThen
  fun w t =>
  (forApps (fun a => a.processBeaconInstruction) .processBeaconInstruction
    createApp w t).andThen
  fun w t =>
  (forApps (fun a => a.generateInstruction) .generateInstruction createApp w t).andThen
  fun w t =>
  let w := { w with createState := { w.createState with newBlock := some (ops.bodyOnly block) } }
  (forApps (fun a => a.updateNewViewFromBlock block) .updateNewViewFromBlock
    createApp w t).andThen
  fun w t =>
  (forApps (fun a => a.buildHeader) .buildHeader createApp w t).andThen
  fun w t =>
  .go { w with validateState := { w.validateState with newView := w.createState.newView } } t

/-- The branch taken when `isPreSign` is false (lines 105-122). -/
def signedBranch {V B C Tv Tc E : Type} (ops : ViewOps V B C Tv Tc E)
    (createApp : List (ShardApp V B Tv Tc E)) (s : V) (block : B)
    (w : World V B Tv Tc) (t : List (Event C)) : Flow (World V B Tv Tc) C E :=
  -- validate producer signature
  match ops.ValidateProducerSig block with
  | some err => .stop (t ++ [.ValidateProducerSig]) err
  | none =>
    let t := t ++ [.ValidateProducerSig]
    -- validate committee signature
    match ops.ValidateCommitteeSig block (ops.GetCommittee s) with
    | some _ => .crash (t ++ [.ValidateCommitteeSig (ops.GetCommittee s)])
    | none =>
      let t := t ++ [.ValidateCommitteeSig (ops.GetCommittee s)]
      let w := { w with createState := { w.createState with newView := ops.CloneNewView s } }
      (forApps (fun a => a.updateNewViewFromBlock block) .updateNewViewFromBlock
        createApp w t).andThen
      fun w t =>
      .go { w with validateState := { w.validateState with newView := w.createState.newView } } t

/-- The method `ShardView.ValidateBlockAndCreateNewView` (lines 41-126); `validateApp` and
`createApp` are the app lists of the validate state and of the create state. -/
def ValidateBlockAndCreateNewView {V B C Tv Tc E : Type} (ops : ViewOps V B C Tv Tc E)
    (validateApp createApp : List (ShardApp V B Tv Tc E))
    (s : V) (block : B) (isPreSign : Bool) : ValidateResult V C E :=
  let validateState0 := NewValidateState ops s
  let validateState : ValidateShardBlockState V Tv :=
    { validateState0 with
      newView := ops.withBlock validateState0.newView block, isPreSign := isPreSign }
  let createState := ops.NewCreateState s
  let flow :=
    (forApps (fun a => a.preValidate) .preValidate validateApp
      ⟨validateState, createState⟩ []).andThen
    fun w t =>
    if isPreSign then preSignBranch ops createApp block w t
    else signedBranch ops createApp s block w t
  match flow with
  | .stop t e => ⟨t, .ret (none, some e)⟩
  | .crash t => ⟨t, .panic⟩
  | .go w t => ⟨t, .ret (some w.validateState.newView, none)⟩

/-! ### Concrete instances used to evaluate the validation -/

/-- An app all of whose stages succeed; `updateNewViewFromBlock` stores the block number as
the new view of the create state. -/
def okApp : ShardApp Nat Nat Unit Unit String where
  preValidate := fun w => .ok w
  buildTxFromCrossShard := fun w => .ok w
  buildResponseTxFromTxWithMetadata := fun w => .ok w
  processBeaconInstruction := fun w => .ok w
  generateInstruction := fun w => .ok w
  updateNewViewFromBlock := fun b w =>
    .ok { w with createState := { w.createState with newView := b } }
  buildHeader := fun w => .ok w

/-- Views, blocks and committees are numbers; the two signature checks answer as given. -/
def numOps (producerSig committeeSig : Option String) :
    ViewOps Nat Nat Nat Unit Unit String where
  CloneNewView := fun v => v
  GetCommittee := fun v => v
  withBlock := fun v _ => v
  bodyOnly := fun b => b
  tmpZero := ()
  NewCreateState := fun v => ⟨v, none, ()⟩
  ValidateProducerSig := fun _ => producerSig
  ValidateCommitteeSig := fun _ _ => committeeSig

/-- Views, blocks and committees are numbers: the committee of a view is its number, putting
a block into a view gives the view of the block number, the producer signature is valid and
the committee signature verifies against the committee `valid` only. -/
def committeeOps (valid : Nat) : ViewOps Nat Nat Nat Unit Unit String where
  CloneNewView := fun v => v
  GetCommittee := fun v => v
  withBlock := fun _ b => b
  bodyOnly := fun b => b
  tmpZero := ()
  NewCreateState := fun v => ⟨v, none, ()⟩
  ValidateProducerSig := fun _ => none
  ValidateCommitteeSig := fun _ committee =>
    if committee = valid then none else some "invalid committee signature"

/-- The events recorded by a flow. -/
def Flow.trace {W C E : Type} : Flow W C E → List (Event C)
  | .stop t _ => t
  | .crash t => t
  | .go _ t => t

/-- An app whose create pipeline derives the content number 7 (kept in the `tmp` part of the
create state by `generateInstruction`) whatever block is proposed; no stage fails. -/
def rebuildApp : ShardApp Nat Nat Unit Nat String where
  preValidate := fun w => .ok w
  buildTxFromCrossShard := fun w => .ok w
  buildResponseTxFromTxWithMetadata := fun w => .ok w
  processBeaconInstruction := fun w => .ok w
  generateInstruction := fun w => .ok { w with createState := { w.createState with tmp := 7 } }
  updateNewViewFromBlock := fun b w =>
    .ok { w with createState := { w.createState with newView := b } }
  buildHeader := fun w => .ok w

/-- Views and committees are numbers, a block is its content number, the create state starts
with derived content 0, both signature checks pass. -/
def contentOps : ViewOps Nat Nat Nat Unit Nat String where
  CloneNewView := fun v => v
  GetCommittee := fun v => v
  withBlock := fun v _ => v
  bodyOnly := fun b => b
  tmpZero := ()
  NewCreateState := fun v => ⟨v, none, 0⟩
  ValidateProducerSig := fun _ => none
  ValidateCommitteeSig := fun _ _ => none

/-! ## Staking metadata (`metadata/staking.go`) -/

/-- Go `uint64`: values are natural numbers below `2 ^ 64`, arithmetic wraps. -/
def uint64Mod : Nat := 2 ^ 64

/-- Go `a * b` on `uint64`. -/
def mulU64 (a b : Nat) : Nat := (a * b) % uint64Mod

/-- Go `a - b` on `uint64`. -/
def subU64 (a b : Nat) : Nat := (a + uint64Mod - b % uint64Mod) % uint64Mod

/-- The struct `StakingMetadata` (lines 12-18); `MetaType` is the field `Type` of the embedded
`MetadataBase`. -/
structure StakingMetadata where
  MetaType : Int
  FunderPaymentAddress : String
  CandidatePaymentAddress : String
  StakingAmountShard : Nat
  IsRewardFunder : Bool

/-- The part of a `wallet.KeyWallet` that is read: `KeySet.PaymentAddress.Pk`, as bytes. -/
structure KeyWallet where
  Pk : List Nat

/-- The two `Transaction` methods used by `ValidateSanityData`: `IsPrivacy()` and
`GetUniqueReceiver()`, the latter giving (only one receiver, its public key, the amount). -/
structure Transaction where
  IsPrivacy : Bool
  GetUniqueReceiver : Bool × List Nat × Nat

/-- The `BlockchainRetriever` method used by `ValidateSanityData`. -/
structure BlockchainRetriever where
  GetStakingAmountShard : Nat

/-- Constants and the wallet decoder that `staking.go` imports: the two metadata type codes,
`common.BurningAddress`, and `wallet.Base58CheckDeserialize`, which returns a pointer
(`none` for `nil`) and an error. -/
structure StakingConsts where
  ShardStakingMeta : Int
  BeaconStakingMeta : Int
  BurningAddress : String
  Base58CheckDeserialize : String → Option KeyWallet × Option String

/-- The method `StakingMetadata.ValidateSanityData` (lines 74-102). Dereferencing the
burning-address wallet panics when the decoder gave a nil pointer. -/
def ValidateSanityData (c : StakingConsts) (stakingMetadata : StakingMetadata)
    (bcr : BlockchainRetriever) (txr : Transaction) : Outcome (Bool × Bool × Option String) :=
  if txr.IsPrivacy then
    .ret (false, false, some "staking Transaction Is No Privacy Transaction")
  else
    let onlyOne := txr.GetUniqueReceiver.1
    let pubkey := txr.GetUniqueReceiver.2.1
    let amount := txr.GetUniqueReceiver.2.2
    if !onlyOne then
      .ret (false, false, some
        "staking Transaction Should Have 1 Output Amount crossponding to 1 Receiver")
    else
      match (c.Base58CheckDeserialize c.BurningAddress).1 with
      | none => .panic
      | some keyWalletBurningAdd =>
        if pubkey ≠ keyWalletBurningAdd.Pk then
          .ret (false, false, some "receiver Should be Burning Address")
        else if stakingMetadata.MetaType = c.ShardStakingMeta ∧
            amount ≠ bcr.GetStakingAmountShard then
          .ret (false, false, some "invalid Stake Shard Amount")
        else if stakingMetadata.MetaType = c.BeaconStakingMeta ∧
            amount ≠ mulU64 bcr.GetStakingAmountShard 3 then
          .ret (false, false, some "invalid Stake Beacon Amount")
        else
          match c.Base58CheckDeserialize stakingMetadata.CandidatePaymentAddress with
          | (some candidateWallet, none) =>
            if candidateWallet.Pk.length ≠ 33 then
              .ret (false, false, some "Invalid Public Key of Candidate Payment Address")
            else .ret (true, true, none)
          | _ =>
            .ret (false, false, some
              "Invalid Candidate Payment Address, Failed to Deserialized Into Key Wallet")

/-- The method `StakingMetadata.GetBeaconStakeAmount` (lines 111-113). -/
def GetBeaconStakeAmount (stakingMetadata : StakingMetadata) : Nat :=
  mulU64 stakingMetadata.StakingAmountShard 3

/-- The method `StakingMetadata.GetShardStateAmount` (lines 115-117). -/
def GetShardStateAmount (stakingMetadata : StakingMetadata) : Nat :=
  stakingMetadata.StakingAmountShard

/-! ### Concrete instances used to evaluate the sanity check -/

/-- Type codes 63 and 64; the address `burn` decodes to the one-byte key `[0]`, the address
`cand` to a key of 33 zero bytes, nothing else decodes. -/
def sampleConsts : StakingConsts where
  ShardStakingMeta := 63
  BeaconStakingMeta := 64
  BurningAddress := "burn"
  Base58CheckDeserialize := fun a =>
    if a = "burn" then (some ⟨[0]⟩, none)
    else if a = "cand" then (some ⟨List.replicate 33 0⟩, none)
    else (none, some "decode")

/-- A non-private transaction paying `amount` to the single receiver `pubkey`. -/
def txTo (pubkey : List Nat) (amount : Nat) : Transaction :=
  ⟨false, (true, pubkey, amount)⟩

/-- A staking metadata of the given type for the candidate address `cand`. -/
def sampleMeta (type : Int) : StakingMetadata :=
  ⟨type, "funder", "cand", 0, true⟩

/-- Modelled from the spec: `common.GetValidStaker` is called by `ValidateTxWithBlockChain`
and its body is not part of `staking.go`; it returns the stakers that are not in the given
list, in their order. -/
def GetValidStaker (committees stakers : List String) : List String :=
  stakers.filter (fun staker => decide (staker ∉ committees))

/-- The eight results of `bcr.GetAllCommitteeValidatorCandidate()`, under the names given to
them at line 41; a `map[byte][]string` is a list of entries. -/
structure AllCommitteeValidatorCandidate where
  SC : List (Nat × List String)
  SPV : List (Nat × List String)
  BC : List String
  BPV : List String
  CBWFCR : List String
  CBWFNR : List String
  CSWFCR : List String
  CSWFNR : List String

/-- The method `StakingMetadata.ValidateTxWithBlockChain` (lines 40-66). `Encode` is
`base58.Base58Check.Encode` with the version byte `common.ZeroByte`; `all` is what
`bcr.GetAllCommitteeValidatorCandidate()` returns. -/
def ValidateTxWithBlockChain (c : StakingConsts) (Encode : List Nat → String)
    (stakingMetadata : StakingMetadata) (all : AllCommitteeValidatorCandidate) :
    Bool × Option String :=
  match c.Base58CheckDeserialize stakingMetadata.CandidatePaymentAddress with
  | (some candidateWallet, none) =>
    let pk := candidateWallet.Pk
    let pkb58 := Encode pk
    let tempStaker := [pkb58]
    let tempStaker :=
      all.SC.foldl (fun acc committees => GetValidStaker committees.2 acc) tempStaker
    let tempStaker :=
      all.SPV.foldl (fun acc validators => GetValidStaker validators.2 acc) tempStaker
    let tempStaker := GetValidStaker all.BC tempStaker
    let tempStaker := GetValidStaker all.BPV tempStaker
    let tempStaker := GetValidStaker all.CBWFCR tempStaker
    let tempStaker := GetValidStaker all.CBWFNR tempStaker
    let tempStaker := GetValidStaker all.CSWFCR tempStaker
    let tempStaker := GetValidStaker all.CSWFNR tempStaker
    if tempStaker.length = 0 then
      (false, some "invalid Staker, This pubkey may staked already")
    else (true, none)
  | _ => (false, some "Can create wallet key from payment address")

/-- The candidate key of `sampleConsts` rendered as text, whatever its bytes. -/
def sampleEncode : List Nat → String := fun _ => "candKey"

/-- Committee lists in which the text `candKey` occurs nowhere. -/
def freshLists : AllCommitteeValidatorCandidate :=
  ⟨[(0, ["a", "b"])], [(0, ["c"])], ["d"], [], ["e"], [], ["f"], []⟩

/-! ## Vote aggregation and proposal handling

The sources hold no file for the vote aggregator nor for `actorV2.handleProposeMsg` (only the
test `Test_actorV2_handleProposeMsg`); the definitions of this section follow the
specification, sections 3, 4.1, 4.3 and 4.4. -/

/-- Modelled from the spec: the `VoteAggregator` of section 4.3, which has no source file. For
one block it holds the committee with the weight of each member, the signature shares
received so far (voter key, share), one per voter key, and the cached aggregate. -/
structure VoteAggregator where
  committee : List (String × Nat)
  shares : List (String × String)
  aggregate : Option (List String)

/-- Modelled from the spec: the total committee weight of section 4.3. -/
def VoteAggregator.totalWeight (a : VoteAggregator) : Nat :=
  (a.committee.map (fun m => m.2)).sum

/-- Modelled from the spec: the weight of the vote set of section 4.3, the weights of the
committee members whose key has a share. -/
def VoteAggregator.voteWeight (a : VoteAggregator) : Nat :=
  ((a.committee.filter
    (fun m => decide (m.1 ∈ a.shares.map (fun s => s.1)))).map (fun m => m.2)).sum

/-- Modelled from the spec: `HasQuorum()` of section 4.3, "strict majority of weighted
committee, more than 2/3 of total committee weight". -/
def VoteAggregator.HasQuorum (a : VoteAggregator) : Bool :=
  decide (2 * a.totalWeight < 3 * a.voteWeight)

/-- Modelled from the spec: reception of a share by the `VoteAggregator` of section 4.3:
shares are deduplicated by voter key, and on the first transition to quorum the held shares
are combined and cached; later shares are kept without recomputing the aggregate. -/
def VoteAggregator.addShare (a : VoteAggregator) (voter share : String) : VoteAggregator :=
  if voter ∈ a.shares.map (fun s => s.1) then a
  else
    let a1 := { a with shares := a.shares ++ [(voter, share)] }
    if a1.HasQuorum = true ∧ a.aggregate = none then
      { a1 with aggregate := some (a1.shares.map (fun s => s.2)) }
    else a1

/-- Modelled from the spec: the `ProposeBlockInfo` of section 3, which has no source file: the
block (its hash), the shares received, the flags "passed validation" and "already voted", and
the terminal state `Finalized` of section 4.1. -/
structure ProposeBlockInfo where
  blockHash : String
  votes : VoteAggregator
  isValid : Bool
  isVoted : Bool
  finalized : Bool

/-- Modelled from the spec: `handleVoteMsg` of section 4.1, ignored if the voter is not in
the committee of the block or already has a share, otherwise handed to the aggregator. -/
def handleVoteMsg (info : ProposeBlockInfo) (voter share : String) : ProposeBlockInfo :=
  if voter ∈ info.votes.committee.map (fun m => m.1) then
    { info with votes := info.votes.addShare voter share }
  else info

/-- Modelled from the spec: `processIfBlockGetEnoughVote` of section 4.1, which queries the
aggregator and marks the block `Finalized` on quorum. -/
def processIfBlockGetEnoughVote (info : ProposeBlockInfo) : ProposeBlockInfo :=
  if info.votes.HasQuorum = true then { info with finalized := true } else info

/-- What the serial actor queue delivers for one block: a vote, or a quorum check. -/
inductive VoteEvent where
  | vote (voter share : String) : VoteEvent
  | check : VoteEvent

/-- Modelled from the spec: the serial processing of section 5, one event after the other. -/
def runVoteEvents (info : ProposeBlockInfo) : List VoteEvent → ProposeBlockInfo
  | [] => info
  | .vote voter share :: rest => runVoteEvents (handleVoteMsg info voter share) rest
  | .check :: rest => runVoteEvents (processIfBlockGetEnoughVote info) rest

/-- Modelled from the spec: the part of a block that `handlePropose` of section 4.1 reads:
hash, height and claimed producer key (section 3). -/
structure ProposedBlock where
  hash : String
  height : Nat
  producer : String

/-- Modelled from the spec: the message `Propose{peerID, block, timeSlot}` of section 6, as
built in `Test_actorV2_handleProposeMsg`; `Block` is `none` for a nil block. -/
structure BFTPropose where
  PeerID : String
  Block : Option ProposedBlock
  TimeSlot : Int

/-- Modelled from the spec: `leaderFor` of section 4.4, the committee member at index
`(height + timeSlot) mod len(committee)`; there is none in an empty committee. -/
def leaderFor (committee : List String) (height : Nat) (timeSlot : Int) : Option String :=
  committee[(((height : Int) + timeSlot) % (committee.length : Int)).toNat]?

/-- Modelled from the spec: what the actor asks of its chain in `handlePropose`: the
committee and the best finalized slot. -/
structure Chain where
  committee : List String
  bestFinalizedSlot : Int

/-- Modelled from the spec: the fields of `actorV2` (named in the test) that `handlePropose`
of section 4.1 uses; `committeeChain` is `none` for a nil interface, as in the zero-valued
actor of the test. -/
structure actorV2 where
  committeeChain : Option Chain
  currentTimeSlot : Int
  receiveBlockByHash : List (String × ProposeBlockInfo)

/-- The zero-valued actor built by `Test_actorV2_handleProposeMsg` (`fields{}`). -/
def zeroActor : actorV2 := ⟨none, 0, []⟩

/-- Modelled from the spec: `actorV2.handleProposeMsg`, which has no source file, only its
test. A message without a block is malformed and is dropped with an error, before the actor
touches its chain (the test runs it on a zero-valued actor and wants an error, section 4.1
"never fatal"). Otherwise the message is rejected when its time slot is not ahead of the best
finalized slot or its producer is not the leader of section 4.4; on success the
`ProposeBlockInfo` of the block hash is created. Calling the nil chain panics. -/
def handleProposeMsg (a : actorV2) (proposeMsg : BFTPropose) :
    Outcome (actorV2 × Option String) :=
  match proposeMsg.Block with
  | none => .ret (a, some "malformed propose message: no block")
  | some block =>
    match a.committeeChain with
    | none => .panic
    | some chain =>
      if proposeMsg.TimeSlot ≤ chain.bestFinalizedSlot then
        .ret (a, some "propose message for a time slot that is not ahead")
      else if leaderFor chain.committee block.height proposeMsg.TimeSlot ≠
          some block.producer then
        .ret (a, some "producer is not the leader of the time slot")
      else
        let info : ProposeBlockInfo :=
          ⟨block.hash, ⟨chain.committee.map (fun k => (k, 1)), [], none⟩, false, false, false⟩
        .ret ({ a with receiveBlockByHash :=
          (block.hash, info) :: a.receiveBlockByHash.filter (fun p => p.1 ≠ block.hash) },
          none)

/-- A committee of four members of weight 1 with no share yet. -/
def fourVoters : ProposeBlockInfo :=
  ⟨"h", ⟨[("a", 1), ("b", 1), ("c", 1), ("d", 1)], [], none⟩, true, false, false⟩

/-! ## Committee lists as strings (`unstake_rule_v1.go`, lines 84-148) -/

/-- Modelled from the spec: `incognitokey.CommitteeKeyListToString` is called by
`getValidators` and `getSubtituteCandidates` and its body is not part of the file; it converts
every key of the list with `ToBase58`, in order, and returns the first error. -/
def CommitteeKeyListToString {K E : Type} (toBase58 : K → Except E String) :
    List K → Except E (List String)
  | [] => .ok []
  | k :: ks =>
    match toBase58 k with
    | .error e => .error e
    | .ok s =>
      match CommitteeKeyListToString toBase58 ks with
      | .error e => .error e
      | .ok ss => .ok (s :: ss)

/-- The method `BeaconCommitteeStateV1.getSubtituteCandidates` (lines 84-101). -/
def getSubtituteCandidates {K H E DB : Type} (d : Deps K E DB)
    (b : BeaconCommitteeStateV1 K H) : Except E (List String) :=
  match CommitteeKeyListToString d.ToBase58 b.nextEpochBeaconCandidate with
  | .error e => .error e
  | .ok candidateBeaconWaitingForNextRandomStr =>
    match CommitteeKeyListToString d.ToBase58 b.nextEpochShardCandidate with
    | .error e => .error e
    | .ok candidateShardWaitingForNextRandomStr =>
      .ok (([] ++ candidateBeaconWaitingForNextRandomStr) ++
        candidateShardWaitingForNextRandomStr)

/-- A loop `for _, committee := range m` of `getValidators` over the entries of a
`map[byte][]K`, appending the strings of each entry to `validators`. -/
def appendCommittees {K E : Type} (toBase58 : K → Except E String) :
    List (Nat × List K) → List String → Except E (List String)
  | [], validators => .ok validators
  | committee :: rest, validators =>
    match CommitteeKeyListToString toBase58 committee.2 with
    | .error e => .error e
    | .ok committeeStr => appendCommittees toBase58 rest (validators ++ committeeStr)

/-- The method `BeaconCommitteeStateV1.getValidators` (lines 103-148). -/
def getValidators {K H E DB : Type} (d : Deps K E DB) (b : BeaconCommitteeStateV1 K H) :
    Except E (List String) :=
  match appendCommittees d.ToBase58 b.shardCommittee [] with
  | .error e => .error e
  | .ok validators =>
    match appendCommittees d.ToBase58 b.shardSubstitute validators with
    | .error e => .error e
    | .ok validators =>
      match CommitteeKeyListToString d.ToBase58 b.beaconCommittee with
      | .error e => .error e
      | .ok beaconCommitteeStr =>
        match CommitteeKeyListToString d.ToBase58 b.beaconSubstitute with
        | .error e => .error e
        | .ok beaconSubstituteStr =>
          match CommitteeKeyListToString d.ToBase58 b.currentEpochBeaconCandidate with
          | .error e => .error e
          | .ok candidateBeaconWaitingForCurrentRandomStr =>
            match CommitteeKeyListToString d.ToBase58 b.currentEpochShardCandidate with
            | .error e => .error e
            | .ok candidateShardWaitingForCurrentRandomStr =>
              .ok ((((validators ++ beaconCommitteeStr) ++ beaconSubstituteStr) ++
                candidateBeaconWaitingForCurrentRandomStr) ++
                candidateShardWaitingForCurrentRandomStr)

/-- Unstaking the beacon candidate `B`, listed in `env.subtituteCandidates`, while the shard
candidates are `A`, `C`. -/
def beaconCandidateRun : UnstakeReturn String Nat Unit String Unit :=
  (processUnstakeInstruction textDeps
    { stateOf ["A", "C"] mapEmpty with nextEpochBeaconCandidate := ["B"] } ⟨["B"]⟩
    (envOf ["B", "A", "C"] []) emptyChange).getD emptyReturn

/-! ## Transactions (`transaction/tx.go`)

A Go `string` and a `[]byte` are both lists of bytes; a nil slice or pointer is `none` where
the code tests for nil. -/

/-- Go `big.Int.Bytes()`: the big-endian bytes of the absolute value, without leading zero
bytes (none at all for zero). -/
def BigIntBytes (n : Nat) : List Nat := (Nat.digits 256 n).reverse

/-- Go `new(big.Int).SetBytes(b)`: the number with the big-endian bytes `b`. -/
def BigIntSetBytes (b : List Nat) : Nat := Nat.ofDigits 256 b.reverse

/-- The decimal digits of a natural number as ASCII bytes. -/
def natAscii (n : Nat) : List Nat :=
  if n = 0 then [48] else (Nat.digits 10 n).reverse.map (fun d => d + 48)

/-- Go `strconv.Itoa`: decimal text, with a leading minus sign (byte 45) when negative. -/
def Itoa (i : Int) : List Nat :=
  if i < 0 then 45 :: natAscii i.natAbs else natAscii i.natAbs

/-- Go `a + b` on `uint64`. -/
def addU64 (a b : Nat) : Nat := (a + b) % uint64Mod

/-- The fields of `client.Note` that `tx.go` reads or writes. -/
structure Note where
  Value : Nat
  Apk : List Nat
  Rho : List Nat
  R : List Nat
  Nf : List Nat
  Cm : List Nat
  deriving DecidableEq, Repr

/-- The struct `JoinSplitDesc` as `tx.go` uses it: the fields set at lines 377-388, `DescType`
for its field `Type`, and `note`, read at line 139. -/
structure JoinSplitDesc where
  Anchor : Option (List Nat)
  Nullifiers : List (List Nat)
  Commitments : List (List Nat)
  Proof : List Nat
  EncryptedData : List (List Nat)
  EphemeralPubKey : List Nat
  HSigSeed : List Nat
  DescType : List Nat
  Reward : Nat
  Vmacs : List (List Nat)
  note : List Note
  deriving DecidableEq, Repr

/-- The struct `client.PublicKey`: a point with big-integer coordinates. -/
structure PublicKey where
  X : Nat
  Y : Nat
  deriving DecidableEq, Repr

/-- The struct `client.PrivateKey`: the public key and the secret scalar. -/
structure PrivateKey where
  PublicKey : PublicKey
  D : Nat
  deriving DecidableEq, Repr

/-- The struct `client.EcdsaSignature`. -/
structure EcdsaSignature where
  R : Nat
  S : Nat
  deriving DecidableEq, Repr

/-- The struct `Tx` (lines 25-37); `TxType` is its field `Type`. -/
structure Tx where
  Version : Int
  TxType : List Nat
  LockTime : Int
  Fee : Nat
  Descs : List JoinSplitDesc
  JSPubKey : Option (List Nat)
  JSSig : Option (List Nat)
  txId : Option (List Nat)
  sigPrivKey : Option PrivateKey
  deriving DecidableEq, Repr

/-- The struct `client.PaymentAddress`. -/
structure PaymentAddress where
  Apk : List Nat
  Pkenc : List Nat
  deriving DecidableEq, Repr

/-- The struct `client.PaymentInfo`. -/
structure PaymentInfo where
  PaymentAddress : PaymentAddress
  Amount : Nat
  deriving DecidableEq, Repr

/-- The struct `client.JSInput`. -/
structure JSInput where
  WitnessPath : List Nat
  Key : List Nat
  InputNote : Note
  deriving DecidableEq, Repr

/-- The struct `client.JSOutput`. -/
structure JSOutput where
  EncKey : List Nat
  OutputNote : Note
  deriving DecidableEq, Repr

/-- What `client.Prove` hands back on success: the proof data, and for every output note the
`Rho`, `R` and `Cm` it wrote into the note (line 272). -/
structure ProveResult where
  proof : List Nat
  hSig : List Nat
  seed : List Nat
  phi : List Nat
  notes : List (List Nat × List Nat × List Nat)

/-- Constants and functions that `tx.go` imports from other files and packages (`client`,
`cashec`, `common`, `time`, `crypto/rand`); random sources are fixed values. -/
structure TxDeps where
  NumDescInputs : Nat
  NumDescOutputs : Nat
  TxVersion : Int
  TxNormalType : List Nat
  TxOutCoinType : List Nat
  /-- The method `JoinSplitDesc.toString`. -/
  descToString : JoinSplitDesc → List Nat
  /-- The function `common.DoubleHashH`. -/
  DoubleHashH : List Nat → List Nat
  /-- The call `client.GenerateKey(rand.Reader)`. -/
  GenerateKey : Except String PrivateKey
  /-- The call `time.Now().Unix()`. -/
  now : Int
  /-- The function `client.Sign` with `rand.Reader`. -/
  Sign : Option PrivateKey → List Nat → Except String EcdsaSignature
  /-- The function `client.VerifySign`. -/
  VerifySign : PublicKey → List Nat → Nat → Nat → Bool
  /-- The function `client.GetCommitment`. -/
  GetCommitment : Note → List Nat
  /-- The function `client.BuildWitnessPath`: the witness path it writes into each input, and
  the root it returns (`none` for a nil slice). -/
  BuildWitnessPath : List JSInput → List (List Nat) →
    Except String (List (List Nat) × Option (List Nat))
  /-- The function `client.Prove`, with nil `seed`, `phi` and `outputR`. -/
  Prove : List JSInput → List JSOutput → Option (List Nat) → Option (List Nat) → Nat →
    Except String ProveResult
  /-- The call `client.GenEphemeralKey()`: public and private ephemeral key. -/
  GenEphemeralKey : List Nat × List Nat
  /-- The function `client.EncryptNote`. -/
  EncryptNote : List Note → List (List Nat) → List Nat → List Nat → List Nat →
    List (List Nat)
  /-- The function `client.PRF_pk`. -/
  PRF_pk : Nat → List Nat → List Nat → List Nat
  /-- The call `client.RandSpendingKey()`. -/
  RandSpendingKey : List Nat
  /-- The function `client.GenSpendingAddress`. -/
  GenSpendingAddress : List Nat → List Nat
  /-- The function `client.RandBits`. -/
  RandBits : Nat → List Nat
  /-- The function `client.GetNullifier`. -/
  GetNullifier : List Nat → List Nat → List Nat
  /-- The function `client.GenPaymentAddress`. -/
  GenPaymentAddress : List Nat → PaymentAddress
  /-- The call `CreateDummyPath()` on an empty `client.MerklePath`. -/
  CreateDummyPath : List Nat
  /-- The public key of the `cashec.KeySet` imported from the sender key (lines 155-156). -/
  senderPublicKey : List Nat → PaymentAddress
  /-- The call `sort.Slice` of line 164: the input notes in some ascending order of value
  (the library sort is not stable, so the order among equal values is its choice). -/
  sortSliceNotes : List Note → List Note
  /-- The call `sort.Slice` of line 167: the payment infos in some ascending order of
  amount. -/
  sortSlicePayments : List PaymentInfo → List PaymentInfo

/-- The bytes of a slice that may be nil. -/
def bytesOf (b : Option (List Nat)) : List Nat := b.getD []

/-- An appended byte slice: nil when nothing was appended to a nil slice. -/
def sliceOf (b : List Nat) : Option (List Nat) := if b = [] then none else some b

/-- The string `record` built by `Tx.Hash` (lines 49-57). -/
def Tx.record (deps : TxDeps) (tx : Tx) : List Nat :=
  (((((Itoa tx.Version ++ tx.TxType) ++ Itoa tx.LockTime) ++ Itoa tx.Descs.length) ++
    (tx.Descs.map deps.descToString).flatten) ++ bytesOf tx.JSPubKey) ++ bytesOf tx.JSSig

/-- The method `Tx.Hash` (lines 47-60). -/
def Tx.Hash (deps : TxDeps) (tx : Tx) : List Nat :=
  deps.DoubleHashH (tx.record deps)

/-- The method `Tx.ValidateTransaction` (lines 62-75). -/
def ValidateTransaction (tx : Tx) : Bool :=
  if tx.Descs.any (fun desc => decide (desc.Reward ≠ 0)) then false else true

/-- The function `PubKeyToByteArray` (lines 520-527). -/
def PubKeyToByteArray (pubKey : PublicKey) : List Nat :=
  ([] ++ BigIntBytes pubKey.X) ++ BigIntBytes pubKey.Y

/-- The function `JSSigToByteArray` (lines 529-536). -/
def JSSigToByteArray (jsSig : EcdsaSignature) : List Nat :=
  ([] ++ BigIntBytes jsSig.R) ++ BigIntBytes jsSig.S

/-- Go `b[lo:hi]` on a slice with the bytes `b`, whose backing array holds the bytes `spare`
between `len(b)` and `cap(b)`: a panic unless `hi ≤ cap(b)`, else the bytes of the array from
`lo` to `hi`. -/
def sliceRange (b spare : List Nat) (lo hi : Nat) : Outcome (List Nat) :=
  if hi ≤ b.length + spare.length then .ret (((b ++ spare).take hi).drop lo) else .panic

/-- The decoding of the public key at lines 474-476: bytes 0..32 give `X`, bytes 32..64 give
`Y`; `spare` holds the bytes of the backing array beyond the length of the slice. -/
def decodePubKey (b spare : List Nat) : Outcome PublicKey :=
  match sliceRange b spare 0 32, sliceRange b spare 32 64 with
  | .ret x, .ret y => .ret ⟨BigIntSetBytes x, BigIntSetBytes y⟩
  | _, _ => .panic

/-- The function `VerifySign` (lines 467-490); slicing the nil `txId` panics. The lists
`keySpare` and `sigSpare` hold the bytes of the backing arrays of `tx.JSPubKey` and `tx.JSSig`
between length and capacity, which the slice expressions can reach. -/
def VerifySign (deps : TxDeps) (tx : Tx) (keySpare sigSpare : List Nat) :
    Outcome (Bool × Option String) :=
  match tx.JSSig, tx.JSPubKey with
  | some jsSig, some jsPubKey =>
    match decodePubKey jsPubKey keySpare with
    | .panic => .panic
    | .ret pubKey =>
      match sliceRange jsSig sigSpare 0 32, sliceRange jsSig sigSpare 32 64 with
      | .ret r, .ret s =>
        match tx.txId with
        | none => .panic
        | some hash =>
          .ret (deps.VerifySign pubKey hash (BigIntSetBytes r) (BigIntSetBytes s), none)
      | _, _ => .panic
  | _, _ => .ret (false, some "Input transaction must be an signed one!")

/-- The function `NewTxTemplate` (lines 87-111). -/
def NewTxTemplate (deps : TxDeps) : Outcome Tx :=
  match deps.GenerateKey with
  | .error _ => .panic
  | .ok sigPrivKey =>
    .ret {
      Version := deps.TxVersion
      TxType := deps.TxNormalType
      LockTime := deps.now
      Fee := 0
      Descs := []
      JSPubKey := sliceOf (PubKeyToByteArray sigPrivKey.PublicKey)
      JSSig := none
      txId := none
      sigPrivKey := some sigPrivKey }

/-- The function `SignTx` (lines 441-465). -/
def SignTx (deps : TxDeps) (tx : Tx) : Option Tx × Option String :=
  match tx.JSSig with
  | some _ => (none, some "Input transaction must be an unsigned one")
  | none =>
    let hash := tx.Hash deps
    let tx := { tx with txId := some hash }
    match deps.Sign tx.sigPrivKey hash with
    | .error err => (none, some err)
    | .ok ecdsaSignature =>
      (some { tx with JSSig := sliceOf (JSSigToByteArray ecdsaSignature) }, none)

/-- Go `copy(a[:], b)` into a zeroed `[32]byte` array `a`. -/
def copy32 (b : List Nat) : List Nat := b.take 32 ++ List.replicate (32 - b.length) 0

/-- The function `createDummyNote` (lines 425-439). -/
def createDummyNote (deps : TxDeps) (spendingKey : List Nat) : Note :=
  let rho := copy32 (deps.RandBits (32 * 8))
  let r := copy32 (deps.RandBits (32 * 8))
  { Value := 0
    Apk := deps.GenSpendingAddress spendingKey
    Rho := rho
    R := r
    Nf := deps.GetNullifier spendingKey rho
    Cm := [] }

/-- The function `CreateRandomJSOutput` (lines 415-423). -/
def CreateRandomJSOutput (deps : TxDeps) : JSOutput :=
  let randomKey := deps.RandSpendingKey
  { OutputNote := createDummyNote deps randomKey
    EncKey := (deps.GenPaymentAddress randomKey).Pkenc }

/-- The method `Tx.buildJSDescAndEncrypt` (lines 332-403) with a nil `ephemeralPrivKey`.
Indexing `inputs[1]`, `outputs[1]` or `vmacs[2]` out of range panics. -/
def buildJSDescAndEncrypt (deps : TxDeps) (tx : Tx) (inputs : List JSInput)
    (outputs : List JSOutput) (proof : List Nat) (rt : Option (List Nat)) (reward : Nat)
    (hSig seed : List Nat) : Outcome Tx :=
  match inputs, outputs with
  | [i0, i1], o0 :: o1 :: _ =>
    let nullifiers := [i0.InputNote.Nf, i1.InputNote.Nf]
    let commitments := [o0.OutputNote.Cm, o1.OutputNote.Cm]
    let notes := [o0.OutputNote, o1.OutputNote]
    let keys := [o0.EncKey, o1.EncKey]
    let ephemeralPubKey := deps.GenEphemeralKey.1
    let ephemeralPrivKey := deps.GenEphemeralKey.2
    let noteciphers := deps.EncryptNote notes keys ephemeralPrivKey ephemeralPubKey hSig
    let vmacs := [deps.PRF_pk 0 (i0.Key.take 32) hSig, deps.PRF_pk 1 (i1.Key.take 32) hSig]
    let desc : JoinSplitDesc :=
      { Anchor := rt
        Nullifiers := nullifiers
        Commitments := commitments
        Proof := proof
        EncryptedData := noteciphers
        EphemeralPubKey := ephemeralPubKey
        HSigSeed := seed
        DescType := deps.TxOutCoinType
        Reward := reward
        Vmacs := vmacs
        note := [] }
    .ret { tx with Descs := tx.Descs ++ [desc] }
  | _, _ => .panic

/-- Writing what `client.Prove` computed into the output notes, position by position. -/
def writeProved : List JSOutput → List (List Nat × List Nat × List Nat) → List JSOutput
  | o :: os, (rho, r, cm) :: ns =>
    { o with OutputNote := { o.OutputNote with Rho := rho, R := r, Cm := cm } } ::
      writeProved os ns
  | os, _ => os

/-- The method `Tx.BuildNewJSDesc` (lines 315-330): the transaction with the new description
and the outputs as `client.Prove` left them, or the error. -/
def BuildNewJSDesc (deps : TxDeps) (tx : Tx) (inputs : List JSInput)
    (outputs : List JSOutput) (rt : Option (List Nat)) (reward : Nat) :
    Outcome (Except String (Tx × List JSOutput)) :=
  match deps.Prove inputs outputs tx.JSPubKey rt reward with
  | .error err => .ret (.error err)
  | .ok pr =>
    let outputs := writeProved outputs pr.notes
    match buildJSDescAndEncrypt deps tx inputs outputs pr.proof rt reward pr.hSig pr.seed with
    | .panic => .panic
    | .ret tx => .ret (.ok (tx, outputs))

/-- Insertion sort of the input notes, ascending by value and keeping the order of equal
values: what `sort.Slice` does with the comparison of line 165 on a short slice. -/
def sortNotes (inputNotes : List Note) : List Note :=
  inputNotes.insertionSort (fun a b => a.Value ≤ b.Value)

/-- Insertion sort of the payment infos, ascending by amount and keeping the order of equal
amounts: what `sort.Slice` does with the comparison of line 168 on a short slice. -/
def sortPayments (paymentInfo : List PaymentInfo) : List PaymentInfo :=
  paymentInfo.insertionSort (fun a b => a.Amount ≤ b.Amount)

/-- The loop choosing inputs (lines 174-184), `slots` being `NumDescInputs - len(inputs)`:
the remaining notes, the inputs and the `uint64` sum `inputValue`. -/
def chooseInputs (senderKey : List Nat) :
    Nat → List Note → List JSInput → Nat → List Note × List JSInput × Nat
  | 0, inputNotes, inputs, inputValue => (inputNotes, inputs, inputValue)
  | slots + 1, inputNotes, inputs, inputValue =>
    match inputNotes.getLast? with
    | none => (inputNotes, inputs, inputValue)
    | some note =>
      chooseInputs senderKey slots inputNotes.dropLast
        (inputs ++ [{ WitnessPath := [], Key := senderKey, InputNote := note }])
        (addU64 inputValue note.Value)

/-- The dummy inputs added at lines 187-194. -/
def dummyInputs (deps : TxDeps) (senderKey : List Nat) (inputs : List JSInput) :
    List JSInput :=
  List.replicate (deps.NumDescInputs - inputs.length)
    { WitnessPath := deps.CreateDummyPath, Key := senderKey
      InputNote := createDummyNote deps senderKey }

/-- The check that the commitment of every chosen input note is in the commitments list
(lines 197-209): the inputs with their `Cm` set, or the error. -/
def checkCommitments (deps : TxDeps) (commitments : List (List Nat)) :
    List JSInput → Except String (List JSInput)
  | [] => .ok []
  | input :: rest =>
    let cm := deps.GetCommitment input.InputNote
    if cm ∈ commitments then
      match checkCommitments deps commitments rest with
      | .error e => .error e
      | .ok rest1 => .ok ({ input with InputNote := { input.InputNote with Cm := cm } } :: rest1)
    else .error "Commitment of input note isn't in commitments list"

/-- Writing the witness paths built by `client.BuildWitnessPath` into the inputs. -/
def writePaths : List JSInput → List (List Nat) → List JSInput
  | i :: is, p :: ps => { i with WitnessPath := p } :: writePaths is ps
  | is, _ => is

/-- A note with the fields `Value` and `Apk` set, as in the literals of lines 232-265. -/
def noteOf (value : Nat) (apk : List Nat) : Note :=
  { Value := value, Apk := apk, Rho := [], R := [], Nf := [], Cm := [] }

/-- The loop choosing outputs (lines 227-247), `slots` being
`NumDescOutputs - 1 - len(outputs)`: the remaining payments, the outputs and what is left of
`inputValue`. -/
def chooseOutputs :
    Nat → List PaymentInfo → List JSOutput → Nat → List PaymentInfo × List JSOutput × Nat
  | 0, paymentInfo, outputs, inputValue => (paymentInfo, outputs, inputValue)
  | slots + 1, paymentInfo, outputs, inputValue =>
    match paymentInfo.getLast? with
    | none => (paymentInfo, outputs, inputValue)
    | some p =>
      if inputValue = 0 then (paymentInfo, outputs, inputValue)
      else if p.Amount ≤ inputValue then
        chooseOutputs slots paymentInfo.dropLast
          (outputs ++ [{ EncKey := p.PaymentAddress.Pkenc
                         OutputNote := noteOf p.Amount p.PaymentAddress.Apk }])
          (inputValue - p.Amount)
      else
        chooseOutputs slots
          (paymentInfo.dropLast ++ [{ p with Amount := p.Amount - inputValue }])
          (outputs ++ [{ EncKey := p.PaymentAddress.Pkenc
                         OutputNote := noteOf inputValue p.PaymentAddress.Apk }])
          0

/-- What the block at lines 249-278 leaves: the payments, the outputs, and the position in
`outputs` of a change note that was also appended to `inputNotes` (line 273). -/
structure LastOutput where
  paymentInfo : List PaymentInfo
  outputs : List JSOutput
  reused : Option Nat

/-- The block at lines 249-278: one more payment when it takes exactly what is left, a change
note for the sender otherwise. -/
def lastOutput (sender : PaymentAddress) (paymentInfo : List PaymentInfo)
    (outputs : List JSOutput) (inputValue : Nat) : LastOutput :=
  if inputValue = 0 then ⟨paymentInfo, outputs, none⟩
  else
    match paymentInfo.getLast? with
    | some p =>
      if p.Amount = inputValue then
        ⟨paymentInfo.dropLast,
          outputs ++ [{ EncKey := p.PaymentAddress.Pkenc
                        OutputNote := noteOf p.Amount p.PaymentAddress.Apk }], none⟩
      else
        ⟨paymentInfo,
          outputs ++ [{ EncKey := sender.Pkenc, OutputNote := noteOf inputValue sender.Apk }],
          some outputs.length⟩
    | none =>
      ⟨paymentInfo,
        outputs ++ [{ EncKey := sender.Pkenc, OutputNote := noteOf inputValue sender.Apk }],
        none⟩

/-- The dummy outputs added at lines 281-284. -/
def dummyOutputs (deps : TxDeps) (outputs : List JSOutput) : List JSOutput :=
  List.replicate (deps.NumDescOutputs - outputs.length) (CreateRandomJSOutput deps)

/-- What one pass of the loop body selects, before the proof is built: the notes and payments
left, the inputs chosen from notes, all inputs and outputs handed to `BuildNewJSDesc`, and
the position of a reused change note. -/
structure Selection where
  inputNotes : List Note
  paymentInfo : List PaymentInfo
  inputsToBuildWitness : List JSInput
  inputs : List JSInput
  outputs : List JSOutput
  reused : Option Nat

/-- The variables of the loop at line 162 that live across iterations. -/
structure CreateState where
  inputNotes : List Note
  paymentInfo : List PaymentInfo
  commitments : List (List Nat)
  latestAnchor : Option (List Nat)
  tx : Tx

/-- The selection made by one pass of the loop body (lines 187-194 and 225-284), given the
inputs as the commitment check and `BuildWitnessPath` left them. -/
def selectOutputs (deps : TxDeps) (senderKey : List Nat) (inputNotes : List Note)
    (paymentInfo : List PaymentInfo) (inputsToBuildWitness : List JSInput)
    (dummies : List JSInput) (inputValue : Nat) : Selection :=
  let chosen := chooseOutputs (deps.NumDescOutputs - 1) paymentInfo [] inputValue
  let last := lastOutput (deps.senderPublicKey senderKey) chosen.1 chosen.2.1 chosen.2.2
  { inputNotes := inputNotes
    paymentInfo := last.paymentInfo
    inputsToBuildWitness := inputsToBuildWitness
    inputs := inputsToBuildWitness ++ dummies
    outputs := last.outputs ++ dummyOutputs deps last.outputs
    reused := last.reused }

/-- The first part of one pass of the loop body (lines 163-284), up to the inputs and outputs
handed to `BuildNewJSDesc`: a panic, the returned error, or the selection together with the
new `latestAnchor`. -/
def passSelection (deps : TxDeps) (senderKey : List Nat) (rt : Option (List Nat))
    (st : CreateState) : Outcome (Except String (Selection × Option (List Nat))) :=
  let inputNotes := deps.sortSliceNotes st.inputNotes
  let paymentInfo := deps.sortSlicePayments st.paymentInfo
  let chosen := chooseInputs senderKey deps.NumDescInputs inputNotes [] 0
  let inputNotes := chosen.1
  let inputValue := chosen.2.2
  let dummies := dummyInputs deps senderKey chosen.2.1
  match checkCommitments deps st.commitments chosen.2.1 with
  | .error e => .ret (.error e)
  | .ok inputsToBuildWitness =>
    match deps.BuildWitnessPath inputsToBuildWitness st.commitments with
    | .error err => .ret (.error err)
    | .ok (paths, newRt) =>
      let inputsToBuildWitness := writePaths inputsToBuildWitness paths
      let anchorCheck : Outcome (Option String) :=
        match st.latestAnchor with
        | some _ => .ret none
        | none =>
          match rt with
          | none => .panic
          | some r =>
            if bytesOf newRt ≠ r then
              .ret (some "Provided anchor doesn't match commitments list")
            else .ret none
      match anchorCheck with
      | .panic => .panic
      | .ret (some e) => .ret (.error e)
      | .ret none =>
        .ret (.ok (selectOutputs deps senderKey inputNotes paymentInfo inputsToBuildWitness
          dummies inputValue, newRt))

/-- One pass of the body of the loop at line 162: a panic, the returned error, or the state
for the next test of the loop condition. -/
def createTxStep (deps : TxDeps) (senderKey : List Nat) (rt : Option (List Nat))
    (st : CreateState) : Outcome (Except String CreateState) :=
  match passSelection deps senderKey rt st with
  | .panic => .panic
  | .ret (.error e) => .ret (.error e)
  | .ret (.ok (sel, latestAnchor)) =>
    match BuildNewJSDesc deps st.tx sel.inputs sel.outputs latestAnchor 0 with
    | .panic => .panic
    | .ret (.error err) => .ret (.error err)
    | .ret (.ok (tx, outputs)) =>
      let inputNotes :=
        match sel.reused with
        | none => sel.inputNotes
        | some i =>
          match outputs.get? i with
          | some output => sel.inputNotes ++ [output.OutputNote]
          | none => sel.inputNotes
      .ret (.ok {
        inputNotes := inputNotes
        paymentInfo := sel.paymentInfo
        commitments := st.commitments ++ outputs.map (fun o => o.OutputNote.Cm)
        latestAnchor := latestAnchor
        tx := tx })

/-- The loop `for len(inputNotes) > 0 || len(paymentInfo) > 0` (lines 162-302), run for at
most `fuel` passes: `none` when the loop is still running after `fuel` passes. -/
def createTxLoop (deps : TxDeps) (senderKey : List Nat) (rt : Option (List Nat)) :
    Nat → CreateState → Option (Outcome (Except String CreateState))
  | 0, st =>
    if st.inputNotes.length > 0 ∨ st.paymentInfo.length > 0 then none
    else some (.ret (.ok st))
  | fuel + 1, st =>
    if st.inputNotes.length > 0 ∨ st.paymentInfo.length > 0 then
      match createTxStep deps senderKey rt st with
      | .panic => some .panic
      | .ret (.error e) => some (.ret (.error e))
      | .ret (.ok st1) => createTxLoop deps senderKey rt fuel st1
    else some (.ret (.ok st))

/-- The function `CreateTx` (lines 113-313), its loop run for at most `fuel` passes: `none`
when the loop is still running after `fuel` passes, else a panic or the returned pair
(transaction, error). The parameter `nullifiers` is never read and is left out. -/
def CreateTx (deps : TxDeps) (fuel : Nat) (senderKey : List Nat)
    (paymentInfo : List PaymentInfo) (rt : Option (List Nat)) (usableTx : List Tx)
    (commitments : List (List Nat)) : Option (Outcome (Option Tx × Option String)) :=
  let value := paymentInfo.foldl (fun value p => addU64 value p.Amount) 0
  let inputNotes :=
    (usableTx.map (fun tx => (tx.Descs.map (fun desc => desc.note)).flatten)).flatten
  let sumInputValue := inputNotes.foldl (fun sum note => addU64 sum note.Value) 0
  if sumInputValue < value then
    some (.ret (none, some "Input value less than output value"))
  else
    match NewTxTemplate deps with
    | .panic => some .panic
    | .ret tx =>
      match createTxLoop deps senderKey rt fuel
          ⟨inputNotes, paymentInfo, commitments, some [], tx⟩ with
      | none => none
      | some .panic => some .panic
      | some (.ret (.error e)) => some (.ret (none, some e))
      | some (.ret (.ok st)) => some (.ret (SignTx deps st.tx))

/-! ### Concrete instances used to evaluate the transaction code -/

/-- Two inputs and two outputs per description; every external function succeeds with fixed
data: `GetCommitment` reads the `Cm` field, `BuildWitnessPath` returns the root `[9]`,
`Prove` writes the commitment `[Value, 7]` into each output note, and a description renders
as the byte 100. -/
def sampleTxDeps : TxDeps where
  NumDescInputs := 2
  NumDescOutputs := 2
  TxVersion := 1
  TxNormalType := [110]
  TxOutCoinType := [111]
  descToString := fun _ => [100]
  DoubleHashH := fun record => record.take 32
  GenerateKey := .ok ⟨⟨1, 2⟩, 3⟩
  now := 1500000000
  Sign := fun _ _ => .ok ⟨4, 5⟩
  VerifySign := fun _ _ _ _ => true
  GetCommitment := fun note => note.Cm
  BuildWitnessPath := fun inputs _ => .ok (inputs.map (fun _ => [1]), some [9])
  Prove := fun _ outputs _ _ _ =>
    .ok ⟨[], [], [], [], outputs.map (fun o => ([1], [2], [o.OutputNote.Value, 7]))⟩
  GenEphemeralKey := ([], [])
  EncryptNote := fun _ _ _ _ _ => []
  PRF_pk := fun _ _ _ => []
  RandSpendingKey := [0]
  GenSpendingAddress := fun _ => [0]
  RandBits := fun _ => []
  GetNullifier := fun _ _ => []
  GenPaymentAddress := fun _ => ⟨[], []⟩
  CreateDummyPath := []
  senderPublicKey := fun _ => ⟨[8], [8]⟩
  sortSliceNotes := sortNotes
  sortSlicePayments := sortPayments

/-- A usable transaction whose single description holds one note of the given value, with
commitment `[value, 7]`. -/
def usableOf (value : Nat) : Tx :=
  { Version := 1, TxType := [110], LockTime := 0, Fee := 0
    Descs := [{ Anchor := none, Nullifiers := [], Commitments := [], Proof := []
                EncryptedData := [], EphemeralPubKey := [], HSigSeed := [], DescType := []
                Reward := 0, Vmacs := []
                note := [{ Value := value, Apk := [8], Rho := [], R := [], Nf := []
                           Cm := [value, 7] }] }]
    JSPubKey := none, JSSig := none, txId := none, sigPrivKey := none }

/-- A payment of the given amount to the address `[6]`. -/
def payOf (amount : Nat) : PaymentInfo := ⟨⟨[6], [6]⟩, amount⟩

/-- An unsigned transaction without descriptions. -/
def emptyTx : Tx :=
  { Version := 1, TxType := [110], LockTime := 0, Fee := 0, Descs := []
    JSPubKey := none, JSSig := none, txId := none, sigPrivKey := none }

/-- A sender spending key of 32 bytes. -/
def sampleSenderKey : List Nat := List.replicate 32 1

/-- The anchor of 32 zero bytes. -/
def zeroAnchor : List Nat := List.replicate 32 0

/-- A state of the loop of `CreateTx`: one note of value 5 whose commitment is listed, one
payment of 3, and the variables as they are before the first pass. -/
def samplePassState : CreateState :=
  { inputNotes := [{ Value := 5, Apk := [8], Rho := [], R := [], Nf := [], Cm := [5, 7] }]
    paymentInfo := [payOf 3]
    commitments := [[5, 7]]
    latestAnchor := some []
    tx := emptyTx }

/-- The selection that the first pass makes from `samplePassState`. -/
def samplePassSelection : Selection :=
  match passSelection sampleTxDeps sampleSenderKey (some zeroAnchor) samplePassState with
  | .ret (.ok (sel, _)) => sel
  | _ => ⟨[], [], [], [], [], none⟩

/-- The state of the loop after the first pass from `samplePassState`. -/
def samplePassNext : CreateState :=
  match createTxStep sampleTxDeps sampleSenderKey (some zeroAnchor) samplePassState with
  | .ret (.ok st1) => st1
  | _ => samplePassState

/-! ## Properties of the unstake rule -/

theorem IndexOfStrFrom_eq_neg_one_iff (item : String) (l : List String) (k : Nat) :
    IndexOfStrFrom item l k = -1 ↔ item ∉ l := by
  induction l generalizing k with
  | nil => simp [IndexOfStrFrom]
  | cons v vs ih =>
    unfold IndexOfStrFrom
    by_cases h : item = v
    · simp only [h, if_true, List.mem_cons, true_or, not_true_eq_false, iff_false]
      omega
    · simp [h, ih]

theorem IndexOfStr_eq_neg_one_iff (item : String) (l : List String) :
    IndexOfStr item l = -1 ↔ item ∉ l :=
  IndexOfStrFrom_eq_neg_one_iff item l 0

theorem guardedDelete_eq {V : Type} (m : GoMap V) (k : String) :
    (if (m k).isSome then mapDelete m k else m) = mapDelete m k := by
  by_cases h : (m k).isSome
  · simp [h]
  · simp only [h, Bool.false_eq_true, if_false]
    funext x
    unfold mapDelete
    by_cases hx : x = k
    · subst hx
      simpa using h
    · simp [hx]

theorem unstakeOne_next_cases {K H R E DB : Type} {d : Deps K E DB}
    {env : BeaconCommitteeStateEnvironment DB} {index : GoMap Nat} {key : String}
    {s s1 : LoopState K H R} (h : unstakeOne d env index key s = .next s1) :
    (key ∉ env.subtituteCandidates ∧ key ∉ env.validators ∧
      s1 = { s with b := { s.b with autoStake := mapDelete s.b.autoStake key } }) ∨
    (key ∉ env.subtituteCandidates ∧ key ∈ env.validators ∧
      s.b.autoStake key = none ∧ s1 = s) ∨
    (key ∉ env.subtituteCandidates ∧ key ∈ env.validators ∧
      (s.b.autoStake key).isSome = true ∧
      s1 = { s with
        b := { s.b with autoStake := mapSet s.b.autoStake key false }
        committeeChange := { s.committeeChange with
          Unstake := s.committeeChange.Unstake ++ [key] } }) ∨
    (key ∈ env.subtituteCandidates ∧ ∃ k cands,
      d.FromBase58 key = .ok k ∧
      removeAt s.b.nextEpochShardCandidate (mapGetInt index key) = .ret cands ∧
      s1 = {
        b := { s.b with
          autoStake := mapDelete s.b.autoStake key
          stakingTx := mapDelete s.b.stakingTx key
          rewardReceiver := mapDelete s.b.rewardReceiver (d.GetIncKeyBase58 k)
          nextEpochShardCandidate := cands }
        committeeChange := { s.committeeChange with
          NextEpochShardCandidateRemoved :=
            s.committeeChange.NextEpochShardCandidateRemoved ++ [k] }
        unstakeKey := s.unstakeKey ++ [k] }) := by
  unfold unstakeOne at h
  by_cases hs : IndexOfStr key env.subtituteCandidates = -1
  · have hs1 := (IndexOfStr_eq_neg_one_iff _ _).1 hs
    rw [if_pos hs] at h
    by_cases hv : IndexOfStr key env.validators = -1
    · have hv1 := (IndexOfStr_eq_neg_one_iff _ _).1 hv
      rw [if_pos hv] at h
      left
      refine ⟨hs1, hv1, ?_⟩
      by_cases ha : (s.b.autoStake key).isSome = true
      · rw [if_pos ha] at h
        injection h with h
        exact h.symm
      · rw [if_neg ha] at h
        injection h with h
        have : mapDelete s.b.autoStake key = s.b.autoStake := by
          rw [← guardedDelete_eq, if_neg ha]
        rw [this, ← h]
    · have hv1 : key ∈ env.validators := by
        by_contra hc
        exact hv ((IndexOfStr_eq_neg_one_iff _ _).2 hc)
      rw [if_neg hv] at h
      by_cases ha : (s.b.autoStake key).isSome = true
      · rw [if_pos ha] at h
        injection h with h
        right; right; left
        exact ⟨hs1, hv1, ha, h.symm⟩
      · rw [if_neg ha] at h
        injection h with h
        right; left
        refine ⟨hs1, hv1, ?_, h.symm⟩
        simpa using ha
  · have hs1 : key ∈ env.subtituteCandidates := by
      by_contra hc
      exact hs ((IndexOfStr_eq_neg_one_iff _ _).2 hc)
    rw [if_neg hs] at h
    right; right; right
    refine ⟨hs1, ?_⟩
    simp only [guardedDelete_eq] at h
    split at h
    · exact absurd h (by simp)
    · rename_i k hk
      split at h
      · exact absurd h (by simp)
      · rename_i cands hc
        injection h with h
        exact ⟨k, cands, hk, hc, h.symm⟩

/-! ### The loop over the target keys -/

theorem unstakeLoop_append {K H R E DB : Type} (d : Deps K E DB)
    (env : BeaconCommitteeStateEnvironment DB) (index : GoMap Nat)
    (l1 l2 : List String) (s : LoopState K H R) :
    unstakeLoop d env index (l1 ++ l2) s =
      match unstakeLoop d env index l1 s with
      | .next s1 => unstakeLoop d env index l2 s1
      | .panic => .panic
      | .fail s1 e => .fail s1 e := by
  induction l1 generalizing s with
  | nil => simp [unstakeLoop]
  | cons key rest ih =>
    simp only [List.cons_append, unstakeLoop]
    cases hstep : unstakeOne d env index key s with
    | panic => rfl
    | fail s1 e => rfl
    | next s1 => simpa using ih s1

/-- A property kept by every iteration is kept by the whole loop. -/
theorem unstakeLoop_invariant {K H R E DB : Type} {d : Deps K E DB}
    {env : BeaconCommitteeStateEnvironment DB} {index : GoMap Nat}
    (P : LoopState K H R → Prop) (keys : List String)
    (hstep : ∀ key ∈ keys, ∀ s s1, unstakeOne d env index key s = .next s1 → P s → P s1)
    {s s1 : LoopState K H R} (h : unstakeLoop d env index keys s = .next s1) (hs : P s) :
    P s1 := by
  induction keys generalizing s with
  | nil =>
    simp only [unstakeLoop] at h
    injection h with h
    exact h ▸ hs
  | cons key rest ih =>
    simp only [unstakeLoop] at h
    cases hone : unstakeOne d env index key s with
    | panic => rw [hone] at h; exact absurd h (by simp)
    | fail s2 e => rw [hone] at h; exact absurd h (by simp)
    | next s2 =>
      rw [hone] at h
      exact ih (fun k hk => hstep k (List.mem_cons_of_mem _ hk)) h
        (hstep key (List.mem_cons_self _ _) s s2 hone hs)

/-- A loop that completes has run the iteration of each of its keys. -/
theorem unstakeLoop_reaches {K H R E DB : Type} {d : Deps K E DB}
    {env : BeaconCommitteeStateEnvironment DB} {index : GoMap Nat}
    {keys : List String} {key : String} (hkey : key ∈ keys)
    {s s1 : LoopState K H R} (h : unstakeLoop d env index keys s = .next s1) :
    ∃ pre post sa sb, keys = pre ++ key :: post ∧
      unstakeLoop d env index pre s = .next sa ∧
      unstakeOne d env index key sa = .next sb ∧
      unstakeLoop d env index post sb = .next s1 := by
  obtain ⟨pre, post, hsplit⟩ := List.append_of_mem hkey
  subst hsplit
  rw [unstakeLoop_append] at h
  cases hpre : unstakeLoop d env index pre s with
  | panic => rw [hpre] at h; exact absurd h (by simp)
  | fail s2 e => rw [hpre] at h; exact absurd h (by simp)
  | next sa =>
    rw [hpre] at h
    simp only [unstakeLoop] at h
    cases hone : unstakeOne d env index key sa with
    | panic => rw [hone] at h; exact absurd h (by simp)
    | fail s2 e => rw [hone] at h; exact absurd h (by simp)
    | next sb =>
      rw [hone] at h
      exact ⟨pre, post, sa, sb, rfl, hpre, hone, h⟩

/-- The ways `processUnstakeInstruction` returns. -/
theorem processUnstakeInstruction_ret_cases {K H R E DB : Type} {d : Deps K E DB}
    {b : BeaconCommitteeStateV1 K H} {ins : UnstakeInstruction}
    {env : BeaconCommitteeStateEnvironment DB} {cc : CommitteeChange K R}
    {r : UnstakeReturn K H R E DB} (h : processUnstakeInstruction d b ins env cc = .ret r) :
    (∃ e, buildIndex d.ToBase58 b.nextEpochShardCandidate 0 mapEmpty = .error e ∧
      r = ⟨b, cc, some e, env.ConsensusStateDB, []⟩) ∨
    (∃ index s e, buildIndex d.ToBase58 b.nextEpochShardCandidate 0 mapEmpty = .ok index ∧
      unstakeLoop d env index ins.PublicKeys ⟨b, cc, []⟩ = .fail s e ∧
      r = ⟨s.b, s.committeeChange, some e, env.ConsensusStateDB, []⟩) ∨
    (∃ index s, buildIndex d.ToBase58 b.nextEpochShardCandidate 0 mapEmpty = .ok index ∧
      unstakeLoop d env index ins.PublicKeys ⟨b, cc, []⟩ = .next s ∧
      r = ⟨s.b, s.committeeChange, (d.DeleteStakerInfo env.ConsensusStateDB s.unstakeKey).2,
        (d.DeleteStakerInfo env.ConsensusStateDB s.unstakeKey).1, [s.unstakeKey]⟩) := by
  unfold processUnstakeInstruction at h
  cases hidx : buildIndex d.ToBase58 b.nextEpochShardCandidate 0 mapEmpty with
  | error e =>
    rw [hidx] at h
    injection h with h
    exact Or.inl ⟨e, rfl, h.symm⟩
  | ok index =>
    rw [hidx] at h
    simp only at h
    cases hloop : unstakeLoop d env index ins.PublicKeys ⟨b, cc, []⟩ with
    | panic => rw [hloop] at h; exact absurd h (by simp)
    | fail s e =>
      rw [hloop] at h
      injection h with h
      exact Or.inr (Or.inl ⟨index, s, e, rfl, hloop, h.symm⟩)
    | next s =>
      rw [hloop] at h
      injection h with h
      exact Or.inr (Or.inr ⟨index, s, rfl, hloop, h.symm⟩)

/-- A call that returns no error, or that invoked `DeleteStakerInfo`, ran its loop to the end. -/
theorem processUnstakeInstruction_completed {K H R E DB : Type} {d : Deps K E DB}
    {b : BeaconCommitteeStateV1 K H} {ins : UnstakeInstruction}
    {env : BeaconCommitteeStateEnvironment DB} {cc : CommitteeChange K R}
    {r : UnstakeReturn K H R E DB} (h : processUnstakeInstruction d b ins env cc = .ret r)
    (hdone : r.err = none ∨ r.deleteCalls ≠ []) :
    ∃ index s, buildIndex d.ToBase58 b.nextEpochShardCandidate 0 mapEmpty = .ok index ∧
      unstakeLoop d env index ins.PublicKeys ⟨b, cc, []⟩ = .next s ∧
      r.b = s.b ∧ r.committeeChange = s.committeeChange ∧
      r.deleteCalls = [s.unstakeKey] ∧
      r.err = (d.DeleteStakerInfo env.ConsensusStateDB s.unstakeKey).2 := by
  rcases processUnstakeInstruction_ret_cases h with ⟨e, _, hr⟩ | ⟨index, s, e, _, _, hr⟩ |
    ⟨index, s, hidx, hloop, hr⟩
  · subst hr
    rcases hdone with h1 | h1
    · exact absurd h1 (by simp)
    · exact absurd rfl h1
  · subst hr
    rcases hdone with h1 | h1
    · exact absurd h1 (by simp)
    · exact absurd rfl h1
  · subst hr
    exact ⟨index, s, hidx, hloop, rfl, rfl, rfl, rfl⟩

/-- No iteration creates a map entry or drops a recorded change. -/
theorem unstakeOne_monotone {K H R E DB : Type} {d : Deps K E DB}
    {env : BeaconCommitteeStateEnvironment DB} {index : GoMap Nat} {key : String}
    {s s1 : LoopState K H R} (h : unstakeOne d env index key s = .next s1) :
    (∀ x, s.b.autoStake x = none → s1.b.autoStake x = none) ∧
    (∀ x, s.b.stakingTx x = none → s1.b.stakingTx x = none) ∧
    (∀ x, s.b.rewardReceiver x = none → s1.b.rewardReceiver x = none) ∧
    (∀ k, k ∈ s.committeeChange.NextEpochShardCandidateRemoved →
      k ∈ s1.committeeChange.NextEpochShardCandidateRemoved) ∧
    (∀ k, k ∈ s.committeeChange.Unstake → k ∈ s1.committeeChange.Unstake) := by
  rcases unstakeOne_next_cases h with ⟨_, _, hs1⟩ | ⟨_, _, _, hs1⟩ | ⟨_, _, ha, hs1⟩ |
    ⟨_, k, cands, _, _, hs1⟩
  · subst hs1
    refine ⟨?_, fun _ hx => hx, fun _ hx => hx, fun _ hk => hk, fun _ hk => hk⟩
    intro x hx
    simp only [mapDelete]
    split <;> simp [hx]
  · subst hs1
    exact ⟨fun _ hx => hx, fun _ hx => hx, fun _ hx => hx, fun _ hk => hk, fun _ hk => hk⟩
  · subst hs1
    refine ⟨?_, fun _ hx => hx, fun _ hx => hx, fun _ hk => hk, ?_⟩
    · intro x hx
      simp only [mapSet]
      by_cases hxk : x = key
      · subst hxk
        rw [hx] at ha
        exact absurd ha (by simp)
      · simp [hxk, hx]
    · intro k hk
      simp [hk]
  · subst hs1
    refine ⟨?_, ?_, ?_, ?_, fun _ hk => hk⟩
    · intro x hx
      simp only [mapDelete]
      split <;> simp [hx]
    · intro x hx
      simp only [mapDelete]
      split <;> simp [hx]
    · intro x hx
      simp only [mapDelete]
      split <;> simp [hx]
    · intro k1 hk
      simp [hk]

/-- The loop creates no map entry and drops no recorded change. -/
theorem unstakeLoop_monotone {K H R E DB : Type} {d : Deps K E DB}
    {env : BeaconCommitteeStateEnvironment DB} {index : GoMap Nat} {keys : List String}
    {s s1 : LoopState K H R} (h : unstakeLoop d env index keys s = .next s1) :
    (∀ x, s.b.autoStake x = none → s1.b.autoStake x = none) ∧
    (∀ x, s.b.stakingTx x = none → s1.b.stakingTx x = none) ∧
    (∀ x, s.b.rewardReceiver x = none → s1.b.rewardReceiver x = none) ∧
    (∀ k, k ∈ s.committeeChange.NextEpochShardCandidateRemoved →
      k ∈ s1.committeeChange.NextEpochShardCandidateRemoved) ∧
    (∀ k, k ∈ s.committeeChange.Unstake → k ∈ s1.committeeChange.Unstake) := by
  refine unstakeLoop_invariant
    (fun t => (∀ x, s.b.autoStake x = none → t.b.autoStake x = none) ∧
      (∀ x, s.b.stakingTx x = none → t.b.stakingTx x = none) ∧
      (∀ x, s.b.rewardReceiver x = none → t.b.rewardReceiver x = none) ∧
      (∀ k, k ∈ s.committeeChange.NextEpochShardCandidateRemoved →
        k ∈ t.committeeChange.NextEpochShardCandidateRemoved) ∧
      (∀ k, k ∈ s.committeeChange.Unstake → k ∈ t.committeeChange.Unstake))
    keys ?_ h ⟨fun _ hx => hx, fun _ hx => hx, fun _ hx => hx, fun _ hk => hk, fun _ hk => hk⟩
  intro key _ t t1 hone ⟨h1, h2, h3, h4, h5⟩
  obtain ⟨m1, m2, m3, m4, m5⟩ := unstakeOne_monotone hone
  exact ⟨fun x hx => m1 x (h1 x hx), fun x hx => m2 x (h2 x hx), fun x hx => m3 x (h3 x hx),
    fun k hk => m4 k (h4 k hk), fun k hk => m5 k (h5 k hk)⟩

/-- The iteration of a key listed in `env.subtituteCandidates` purges its three records and
records the decoded key as removed. -/
theorem unstakeOne_candidate {K H R E DB : Type} {d : Deps K E DB}
    {env : BeaconCommitteeStateEnvironment DB} {index : GoMap Nat} {key : String}
    {s s1 : LoopState K H R} (h : unstakeOne d env index key s = .next s1)
    (hsub : key ∈ env.subtituteCandidates) :
    s1.b.autoStake key = none ∧ s1.b.stakingTx key = none ∧
    ∃ k, d.FromBase58 key = .ok k ∧ s1.b.rewardReceiver (d.GetIncKeyBase58 k) = none ∧
      k ∈ s1.committeeChange.NextEpochShardCandidateRemoved := by
  rcases unstakeOne_next_cases h with ⟨hn, _⟩ | ⟨hn, _⟩ | ⟨hn, _⟩ |
    ⟨_, k, cands, hk, _, hs1⟩
  · exact absurd hsub hn
  · exact absurd hsub hn
  · exact absurd hsub hn
  · subst hs1
    exact ⟨by simp [mapDelete], by simp [mapDelete], k, hk, by simp [mapDelete], by simp⟩

/-- Claim C8. After a call of `processUnstakeInstruction` that returns no error, every target
key listed in `env.subtituteCandidates` has no `autoStake` entry and no `stakingTx` entry, it
decodes (`FromBase58`), `rewardReceiver` has no entry for `GetIncKeyBase58` of the decoded
key, and the decoded key is in `NextEpochShardCandidateRemoved` of the returned change. -/
theorem unstake_candidate_purged {K H R E DB : Type} (d : Deps K E DB)
    (b : BeaconCommitteeStateV1 K H) (ins : UnstakeInstruction)
    (env : BeaconCommitteeStateEnvironment DB) (cc : CommitteeChange K R)
    (r : UnstakeReturn K H R E DB) (key : String)
    (hret : processUnstakeInstruction d b ins env cc = .ret r) (herr : r.err = none)
    (hkey : key ∈ ins.PublicKeys) (hsub : key ∈ env.subtituteCandidates) :
    r.b.autoStake key = none ∧ r.b.stakingTx key = none ∧
    ∃ k, d.FromBase58 key = .ok k ∧ r.b.rewardReceiver (d.GetIncKeyBase58 k) = none ∧
      k ∈ r.committeeChange.NextEpochShardCandidateRemoved := by
  obtain ⟨index, s, _, hloop, hb, hc, _, _⟩ :=
    processUnstakeInstruction_completed hret (Or.inl herr)
  obtain ⟨pre, post, sa, sb, _, _, hone, hpost⟩ := unstakeLoop_reaches hkey hloop
  obtain ⟨h1, h2, k, hk, h3, h4⟩ := unstakeOne_candidate hone hsub
  obtain ⟨m1, m2, m3, m4, _⟩ := unstakeLoop_monotone hpost
  rw [hb, hc]
  exact ⟨m1 _ h1, m2 _ h2, k, hk, m3 _ h3, m4 _ h4⟩

/-- Claim C8, a run: candidate `A` with all three records is unstaked. -/
theorem unstake_candidate_purged_witness :
    processUnstakeInstruction textDeps purgeState ⟨["A"]⟩ (envOf ["A", "B"] []) emptyChange
        = .ret purgeRun ∧
      purgeRun.err = none ∧ "A" ∈ ["A"] ∧
      "A" ∈ (envOf ["A", "B"] []).subtituteCandidates ∧
      purgeState.autoStake "A" = some true ∧
      purgeRun.b.autoStake "A" = none ∧ purgeRun.b.stakingTx "A" = none ∧
      ∃ k, textDeps.FromBase58 "A" = .ok k ∧
        purgeRun.b.rewardReceiver (textDeps.GetIncKeyBase58 k) = none ∧
        k ∈ purgeRun.committeeChange.NextEpochShardCandidateRemoved :=
  ⟨rfl, rfl, by decide, by decide, rfl,
    unstake_candidate_purged textDeps purgeState ⟨["A"]⟩ (envOf ["A", "B"] []) emptyChange
      purgeRun "A" rfl rfl (by decide) (by decide)⟩

/-- The only iteration that returns an error is the one whose key fails `FromBase58`, after
the `autoStake` and `stakingTx` entries of the key are deleted. -/
theorem unstakeOne_fail_cases {K H R E DB : Type} {d : Deps K E DB}
    {env : BeaconCommitteeStateEnvironment DB} {index : GoMap Nat} {key : String}
    {s s1 : LoopState K H R} {e : E} (h : unstakeOne d env index key s = .fail s1 e) :
    key ∈ env.subtituteCandidates ∧ d.FromBase58 key = .error e ∧
    s1 = { s with b := { s.b with
      autoStake := mapDelete s.b.autoStake key
      stakingTx := mapDelete s.b.stakingTx key } } := by
  unfold unstakeOne at h
  by_cases hs : IndexOfStr key env.subtituteCandidates = -1
  · rw [if_pos hs] at h
    split_ifs at h
  · have hs1 : key ∈ env.subtituteCandidates := by
      by_contra hc
      exact hs ((IndexOfStr_eq_neg_one_iff _ _).2 hc)
    rw [if_neg hs] at h
    simp only [guardedDelete_eq] at h
    split at h
    · rename_i e1 he
      injection h with h1 h2
      subst h2
      exact ⟨hs1, he, h1.symm⟩
    · split at h <;> exact absurd h (by simp)

/-- A loop that returns an error completed a prefix of the keys and failed on the next one. -/
theorem unstakeLoop_fail_cases {K H R E DB : Type} {d : Deps K E DB}
    {env : BeaconCommitteeStateEnvironment DB} {index : GoMap Nat}
    {keys : List String} {s s1 : LoopState K H R} {e : E}
    (h : unstakeLoop d env index keys s = .fail s1 e) :
    ∃ pre key post sa, keys = pre ++ key :: post ∧
      unstakeLoop d env index pre s = .next sa ∧
      unstakeOne d env index key sa = .fail s1 e := by
  induction keys generalizing s with
  | nil => simp [unstakeLoop] at h
  | cons key rest ih =>
    simp only [unstakeLoop] at h
    cases hone : unstakeOne d env index key s with
    | panic => rw [hone] at h; exact absurd h (by simp)
    | fail s2 e2 =>
      rw [hone] at h
      injection h with h1 h2
      subst h1 h2
      exact ⟨[], key, rest, s, rfl, rfl, hone⟩
    | next s2 =>
      rw [hone] at h
      obtain ⟨pre, k, post, sa, hsplit, hpre, hk⟩ := ih h
      refine ⟨key :: pre, k, post, sa, by simp [hsplit], ?_, hk⟩
      simp only [unstakeLoop, hone]
      exact hpre

/-- An iteration leaves the committee, substitute and current-epoch candidate lists alone. -/
theorem unstakeOne_roles {K H R E DB : Type} {d : Deps K E DB}
    {env : BeaconCommitteeStateEnvironment DB} {index : GoMap Nat} {key : String}
    {s s1 : LoopState K H R} (h : unstakeOne d env index key s = .next s1) :
    s1.b.shardCommittee = s.b.shardCommittee ∧ s1.b.beaconCommittee = s.b.beaconCommittee ∧
    s1.b.shardSubstitute = s.b.shardSubstitute ∧
    s1.b.beaconSubstitute = s.b.beaconSubstitute ∧
    s1.b.currentEpochShardCandidate = s.b.currentEpochShardCandidate ∧
    s1.b.currentEpochBeaconCandidate = s.b.currentEpochBeaconCandidate := by
  rcases unstakeOne_next_cases h with ⟨_, _, hs1⟩ | ⟨_, _, _, hs1⟩ | ⟨_, _, _, hs1⟩ |
    ⟨_, k, cands, _, _, hs1⟩ <;> subst hs1 <;> exact ⟨rfl, rfl, rfl, rfl, rfl, rfl⟩

/-- The loop leaves the committee, substitute and current-epoch candidate lists alone. -/
theorem unstakeLoop_roles {K H R E DB : Type} {d : Deps K E DB}
    {env : BeaconCommitteeStateEnvironment DB} {index : GoMap Nat} {keys : List String}
    {s s1 : LoopState K H R} (h : unstakeLoop d env index keys s = .next s1) :
    s1.b.shardCommittee = s.b.shardCommittee ∧ s1.b.beaconCommittee = s.b.beaconCommittee ∧
    s1.b.shardSubstitute = s.b.shardSubstitute ∧
    s1.b.beaconSubstitute = s.b.beaconSubstitute ∧
    s1.b.currentEpochShardCandidate = s.b.currentEpochShardCandidate ∧
    s1.b.currentEpochBeaconCandidate = s.b.currentEpochBeaconCandidate := by
  refine unstakeLoop_invariant
    (fun t => t.b.shardCommittee = s.b.shardCommittee ∧
      t.b.beaconCommittee = s.b.beaconCommittee ∧
      t.b.shardSubstitute = s.b.shardSubstitute ∧
      t.b.beaconSubstitute = s.b.beaconSubstitute ∧
      t.b.currentEpochShardCandidate = s.b.currentEpochShardCandidate ∧
      t.b.currentEpochBeaconCandidate = s.b.currentEpochBeaconCandidate)
    keys ?_ h ⟨rfl, rfl, rfl, rfl, rfl, rfl⟩
  intro key _ t t1 hone ⟨h1, h2, h3, h4, h5, h6⟩
  obtain ⟨m1, m2, m3, m4, m5, m6⟩ := unstakeOne_roles hone
  exact ⟨m1.trans h1, m2.trans h2, m3.trans h3, m4.trans h4, m5.trans h5, m6.trans h6⟩

/-- Every returning call leaves the committee, substitute and current-epoch candidate lists
alone. -/
theorem processUnstakeInstruction_roles {K H R E DB : Type} {d : Deps K E DB}
    {b : BeaconCommitteeStateV1 K H} {ins : UnstakeInstruction}
    {env : BeaconCommitteeStateEnvironment DB} {cc : CommitteeChange K R}
    {r : UnstakeReturn K H R E DB} (h : processUnstakeInstruction d b ins env cc = .ret r) :
    r.b.shardCommittee = b.shardCommittee ∧ r.b.beaconCommittee = b.beaconCommittee ∧
    r.b.shardSubstitute = b.shardSubstitute ∧ r.b.beaconSubstitute = b.beaconSubstitute ∧
    r.b.currentEpochShardCandidate = b.currentEpochShardCandidate ∧
    r.b.currentEpochBeaconCandidate = b.currentEpochBeaconCandidate := by
  rcases processUnstakeInstruction_ret_cases h with ⟨e, _, hr⟩ |
    ⟨index, s, e, _, hloop, hr⟩ | ⟨index, s, _, hloop, hr⟩
  · subst hr
    exact ⟨rfl, rfl, rfl, rfl, rfl, rfl⟩
  · subst hr
    obtain ⟨pre, key, post, sa, _, hpre, hone⟩ := unstakeLoop_fail_cases hloop
    obtain ⟨_, _, hs⟩ := unstakeOne_fail_cases hone
    have hr := unstakeLoop_roles hpre
    subst hs
    exact hr
  · subst hr
    exact unstakeLoop_roles hloop

/-- For an active validator `key0` (listed in `env.validators`, not in
`env.subtituteCandidates`) an iteration keeps an existing `autoStake` entry, keeps the value
`false`, and the iteration of `key0` itself turns an existing entry to `false` and records
the key in `Unstake`. -/
theorem unstakeOne_active {K H R E DB : Type} {d : Deps K E DB}
    {env : BeaconCommitteeStateEnvironment DB} {index : GoMap Nat} {key key0 : String}
    {s s1 : LoopState K H R} (h : unstakeOne d env index key s = .next s1)
    (hval : key0 ∈ env.validators) (hsub : key0 ∉ env.subtituteCandidates) :
    ((s.b.autoStake key0).isSome = true → (s1.b.autoStake key0).isSome = true) ∧
    (s.b.autoStake key0 = some false → s1.b.autoStake key0 = some false) ∧
    (key = key0 → (s.b.autoStake key0).isSome = true →
      s1.b.autoStake key0 = some false ∧ key0 ∈ s1.committeeChange.Unstake) := by
  rcases unstakeOne_next_cases h with ⟨_, hv, hs1⟩ | ⟨_, _, hn, hs1⟩ | ⟨_, _, _, hs1⟩ |
    ⟨hs, k, cands, _, _, hs1⟩
  · have hne : key0 ≠ key := fun hc => hv (hc ▸ hval)
    subst hs1
    simp only [mapDelete, if_neg hne]
    exact ⟨fun hx => hx, fun hx => hx, fun hc => absurd hc.symm hne⟩
  · subst hs1
    refine ⟨fun hx => hx, fun hx => hx, fun hc hx => ?_⟩
    subst hc
    rw [hn] at hx
    exact absurd hx (by simp)
  · subst hs1
    simp only [mapSet]
    refine ⟨?_, ?_, ?_⟩
    · intro hx
      split <;> simp [hx]
    · intro hx
      split <;> simp [hx]
    · intro hc _
      simp [hc]
  · have hne : key0 ≠ key := fun hc => hsub (hc ▸ hs)
    subst hs1
    simp only [mapDelete, if_neg hne]
    exact ⟨fun hx => hx, fun hx => hx, fun hc => absurd hc.symm hne⟩

/-- After a completed loop an active validator among the keys that had an `autoStake` entry
has the entry `false` and is recorded in `Unstake`. -/
theorem unstakeLoop_active {K H R E DB : Type} {d : Deps K E DB}
    {env : BeaconCommitteeStateEnvironment DB} {index : GoMap Nat} {keys : List String}
    {key0 : String} {s s1 : LoopState K H R}
    (h : unstakeLoop d env index keys s = .next s1) (hkey : key0 ∈ keys)
    (hval : key0 ∈ env.validators) (hsub : key0 ∉ env.subtituteCandidates)
    (hentry : (s.b.autoStake key0).isSome = true) :
    s1.b.autoStake key0 = some false ∧ key0 ∈ s1.committeeChange.Unstake := by
  obtain ⟨pre, post, sa, sb, _, hpre, hone, hpost⟩ := unstakeLoop_reaches hkey h
  have h1 : (sa.b.autoStake key0).isSome = true :=
    unstakeLoop_invariant (fun t => (t.b.autoStake key0).isSome = true) pre
      (fun k _ t t1 hk ht => (unstakeOne_active hk hval hsub).1 ht) hpre hentry
  obtain ⟨h2, h3⟩ := (unstakeOne_active hone hval hsub).2.2 rfl h1
  have h4 : sb.b.autoStake key0 = some false → s1.b.autoStake key0 = some false :=
    unstakeLoop_invariant (fun t => t.b.autoStake key0 = some false) post
      (fun k _ t t1 hk ht => (unstakeOne_active hk hval hsub).2.1 ht) hpost
  exact ⟨h4 h2, (unstakeLoop_monotone hpost).2.2.2.2 _ h3⟩

/-- Claim C2 (amended). For a target key listed in `env.validators`, not listed in
`env.subtituteCandidates`, that has an `autoStake` entry: after every call that returns no
error, or that got as far as `DeleteStakerInfo`, `autoStake[key]` is present and false; and
after every call that returns, the shard and beacon committee lists, substitute lists and
current-epoch candidate lists are what they were before. -/
theorem unstake_active_keeps_role {K H R E DB : Type} (d : Deps K E DB)
    (b : BeaconCommitteeStateV1 K H) (ins : UnstakeInstruction)
    (env : BeaconCommitteeStateEnvironment DB) (cc : CommitteeChange K R)
    (r : UnstakeReturn K H R E DB) (key : String)
    (hret : processUnstakeInstruction d b ins env cc = .ret r)
    (hkey : key ∈ ins.PublicKeys) (hval : key ∈ env.validators)
    (hsub : key ∉ env.subtituteCandidates) (hentry : (b.autoStake key).isSome = true) :
    ((r.err = none ∨ r.deleteCalls ≠ []) → r.b.autoStake key = some false) ∧
    r.b.shardCommittee = b.shardCommittee ∧ r.b.beaconCommittee = b.beaconCommittee ∧
    r.b.shardSubstitute = b.shardSubstitute ∧ r.b.beaconSubstitute = b.beaconSubstitute ∧
    r.b.currentEpochShardCandidate = b.currentEpochShardCandidate ∧
    r.b.currentEpochBeaconCandidate = b.currentEpochBeaconCandidate := by
  refine ⟨fun hdone => ?_, processUnstakeInstruction_roles hret⟩
  obtain ⟨index, s, _, hloop, hb, _, _, _⟩ := processUnstakeInstruction_completed hret hdone
  rw [hb]
  exact (unstakeLoop_active hloop hkey hval hsub hentry).1

/-- Claim C2, a run: validator `V` with auto-stake `true` is unstaked. -/
theorem unstake_active_keeps_role_witness :
    processUnstakeInstruction textDeps (stateOf ["A"] (mapSingle "V" true)) ⟨["V"]⟩
        (envOf ["A"] ["V"]) emptyChange = .ret activeRun ∧
      activeRun.err = none ∧ activeRun.b.autoStake "V" = some false ∧
      activeRun.b.beaconCommittee = [] :=
  have h := unstake_active_keeps_role textDeps (stateOf ["A"] (mapSingle "V" true)) ⟨["V"]⟩
    (envOf ["A"] ["V"]) emptyChange activeRun "V" rfl (by decide) (by decide) (by decide) rfl
  ⟨rfl, rfl, h.1 (Or.inl rfl), h.2.2.1⟩

/-- Claim C2, as stated, fails: the target `V` is a validator with auto-stake `true`, but an
earlier target is listed as a candidate and does not decode, so the call returns that error
and `autoStake[V]` is still `true`. The call does not even return when the earlier target is
listed as a candidate while the shard candidate list is empty (the beacon candidate `B`):
the slice expression at line 75 panics before `V` is looked at. -/
theorem unstake_active_not_reached :
    (processUnstakeInstruction textDeps (stateOf ["A"] (mapSingle "V" true)) ⟨["", "V"]⟩
        (envOf ["A", ""] ["V"]) emptyChange = .ret abortedRun ∧
      "V" ∈ ["", "V"] ∧ "V" ∈ (envOf ["A", ""] ["V"]).validators ∧
      "V" ∉ (envOf ["A", ""] ["V"]).subtituteCandidates ∧
      (stateOf ["A"] (mapSingle "V" true)).autoStake "V" = some true ∧
      abortedRun.err = some "FromBase58" ∧ abortedRun.b.autoStake "V" = some true) ∧
    processUnstakeInstruction textDeps (stateOf [] (mapSingle "V" true)) ⟨["B", "V"]⟩
      (envOf ["B"] ["V"]) emptyChange = .panic :=
  ⟨⟨rfl, by decide, by decide, by decide, rfl, rfl, rfl⟩, rfl⟩

/-- Claim C9 (amended). For a target key listed in `env.validators`, not listed in
`env.subtituteCandidates`, that has an `autoStake` entry: after every call that returns no
error, or that got as far as `DeleteStakerInfo`, the key is an element of
`CommitteeChange.Unstake`. -/
theorem unstake_active_recorded {K H R E DB : Type} (d : Deps K E DB)
    (b : BeaconCommitteeStateV1 K H) (ins : UnstakeInstruction)
    (env : BeaconCommitteeStateEnvironment DB) (cc : CommitteeChange K R)
    (r : UnstakeReturn K H R E DB) (key : String)
    (hret : processUnstakeInstruction d b ins env cc = .ret r)
    (hdone : r.err = none ∨ r.deleteCalls ≠ [])
    (hkey : key ∈ ins.PublicKeys) (hval : key ∈ env.validators)
    (hsub : key ∉ env.subtituteCandidates) (hentry : (b.autoStake key).isSome = true) :
    key ∈ r.committeeChange.Unstake := by
  obtain ⟨index, s, _, hloop, _, hc, _, _⟩ := processUnstakeInstruction_completed hret hdone
  rw [hc]
  exact (unstakeLoop_active hloop hkey hval hsub hentry).2

/-- Claim C9, a run: validator `V` with an auto-stake entry is recorded in `Unstake`. -/
theorem unstake_active_recorded_witness :
    processUnstakeInstruction textDeps (stateOf ["A"] (mapSingle "V" true)) ⟨["V"]⟩
        (envOf ["A"] ["V"]) emptyChange = .ret activeRun ∧
      activeRun.err = none ∧ "V" ∈ activeRun.committeeChange.Unstake :=
  ⟨rfl, rfl,
    unstake_active_recorded textDeps (stateOf ["A"] (mapSingle "V" true)) ⟨["V"]⟩
      (envOf ["A"] ["V"]) emptyChange activeRun "V" rfl (Or.inl rfl) (by decide) (by decide)
      (by decide) rfl⟩

/-- Claim C9, as stated, fails: the validator `V` has no `autoStake` entry, the call returns
no error and `Unstake` stays empty; and when an earlier target aborts the call, a validator
with an entry is not recorded either. -/
theorem unstake_active_not_recorded :
    (processUnstakeInstruction textDeps (stateOf ["A"] mapEmpty) ⟨["V"]⟩
        (envOf ["A"] ["V"]) emptyChange = .ret noEntryRun ∧
      "V" ∈ (envOf ["A"] ["V"]).validators ∧ "V" ∉ (envOf ["A"] ["V"]).subtituteCandidates ∧
      noEntryRun.err = none ∧ noEntryRun.committeeChange.Unstake = []) ∧
    (processUnstakeInstruction textDeps (stateOf ["A"] (mapSingle "V" true)) ⟨["", "V"]⟩
        (envOf ["A", ""] ["V"]) emptyChange = .ret abortedRun ∧
      abortedRun.committeeChange.Unstake = []) :=
  ⟨⟨rfl, by decide, by decide, rfl, rfl⟩, rfl, rfl⟩

/-- The index map is built when every candidate key encodes. -/
theorem buildIndex_ok {K E : Type} (toBase58 : K → Except E String) (l : List K)
    (hall : ∀ v ∈ l, ∃ t, toBase58 v = .ok t) (i : Nat) (m : GoMap Nat) :
    ∃ index, buildIndex toBase58 l i m = .ok index := by
  induction l generalizing i m with
  | nil => exact ⟨m, rfl⟩
  | cons v vs ih =>
    obtain ⟨t, ht⟩ := hall v (List.mem_cons_self _ _)
    simp only [buildIndex, ht]
    exact ih (fun w hw => hall w (List.mem_cons_of_mem _ hw)) _ _

/-- The index map is not built when some candidate key fails to encode. -/
theorem buildIndex_error {K E : Type} (toBase58 : K → Except E String) (l : List K)
    (v : K) (e : E) (hv : v ∈ l) (he : toBase58 v = .error e) (i : Nat) (m : GoMap Nat) :
    ∃ e1, buildIndex toBase58 l i m = .error e1 := by
  induction l generalizing i m with
  | nil => exact absurd hv (by simp)
  | cons w ws ih =>
    simp only [buildIndex]
    cases hw : toBase58 w with
    | error e2 => exact ⟨e2, rfl⟩
    | ok t =>
      rcases List.mem_cons.1 hv with h1 | h1
      · subst h1
        rw [he] at hw
        exact absurd hw (by simp)
      · exact ih h1 _ _

/-- The iteration of a key that is in neither list deletes its `autoStake` entry. -/
theorem unstakeOne_unknown {K H R E DB : Type} (d : Deps K E DB)
    (env : BeaconCommitteeStateEnvironment DB) (index : GoMap Nat) (key : String)
    (s : LoopState K H R) (hval : key ∉ env.validators)
    (hsub : key ∉ env.subtituteCandidates) :
    unstakeOne d env index key s =
      .next { s with b := { s.b with autoStake := mapDelete s.b.autoStake key } } := by
  unfold unstakeOne
  rw [if_pos ((IndexOfStr_eq_neg_one_iff _ _).2 hsub),
    if_pos ((IndexOfStr_eq_neg_one_iff _ _).2 hval)]
  by_cases ha : (s.b.autoStake key).isSome = true
  · rw [if_pos ha]
  · rw [if_neg ha]
    have : mapDelete s.b.autoStake key = s.b.autoStake := by
      rw [← guardedDelete_eq, if_neg ha]
    rw [this]

/-- The loop over keys that are in neither list completes, deletes their `autoStake`
entries and changes nothing else. -/
theorem unstakeLoop_unknown {K H R E DB : Type} (d : Deps K E DB)
    (env : BeaconCommitteeStateEnvironment DB) (index : GoMap Nat) (keys : List String)
    (hnone : ∀ key ∈ keys, key ∉ env.validators ∧ key ∉ env.subtituteCandidates)
    (s : LoopState K H R) :
    ∃ a : GoMap Bool,
      unstakeLoop d env index keys s = .next { s with b := { s.b with autoStake := a } } ∧
      (∀ x, x ∉ keys → a x = s.b.autoStake x) ∧ (∀ x, x ∈ keys → a x = none) := by
  induction keys generalizing s with
  | nil => exact ⟨s.b.autoStake, rfl, fun _ _ => rfl, fun x hx => absurd hx (by simp)⟩
  | cons key rest ih =>
    obtain ⟨hv, hs⟩ := hnone key (List.mem_cons_self _ _)
    obtain ⟨a, ha, hout, hin⟩ := ih (fun k hk => hnone k (List.mem_cons_of_mem _ hk))
      { s with b := { s.b with autoStake := mapDelete s.b.autoStake key } }
    refine ⟨a, ?_, ?_, ?_⟩
    · simp only [unstakeLoop, unstakeOne_unknown d env index key s hv hs]
      exact ha
    · intro x hx
      have h1 : x ∉ rest := fun hc => hx (List.mem_cons_of_mem _ hc)
      have h2 : x ≠ key := fun hc => hx (hc ▸ List.mem_cons_self _ _)
      rw [hout x h1]
      simp [mapDelete, h2]
    · intro x hx
      by_cases h1 : x ∈ rest
      · exact hin x h1
      · have h2 : x = key := by
          rcases List.mem_cons.1 hx with h | h
          · exact h
          · exact absurd h h1
        rw [hout x h1]
        simp [mapDelete, h2]

/-- Claim C10 (amended). For an instruction all of whose target keys are in neither
`env.validators` nor `env.subtituteCandidates`, the call returns, `stakingTx`,
`rewardReceiver`, `nextEpochShardCandidate` and the `CommitteeChange` are unchanged and so
are the `autoStake` entries of all keys that are not targets; when moreover every key of
`nextEpochShardCandidate` encodes (`ToBase58` succeeds), no target has an `autoStake` entry
afterwards, `DeleteStakerInfo` is invoked once, with the empty key list, and its error is
the one returned. -/
theorem unstake_unknown_keys {K H R E DB : Type} (d : Deps K E DB)
    (b : BeaconCommitteeStateV1 K H) (ins : UnstakeInstruction)
    (env : BeaconCommitteeStateEnvironment DB) (cc : CommitteeChange K R)
    (hnone : ∀ key ∈ ins.PublicKeys,
      key ∉ env.validators ∧ key ∉ env.subtituteCandidates) :
    ∃ r, processUnstakeInstruction d b ins env cc = .ret r ∧
      r.b.stakingTx = b.stakingTx ∧ r.b.rewardReceiver = b.rewardReceiver ∧
      r.b.nextEpochShardCandidate = b.nextEpochShardCandidate ∧ r.committeeChange = cc ∧
      (∀ x, x ∉ ins.PublicKeys → r.b.autoStake x = b.autoStake x) ∧
      ((∀ v ∈ b.nextEpochShardCandidate, ∃ t, d.ToBase58 v = .ok t) →
        (∀ key ∈ ins.PublicKeys, r.b.autoStake key = none) ∧ r.deleteCalls = [[]] ∧
        r.err = (d.DeleteStakerInfo env.ConsensusStateDB []).2) := by
  unfold processUnstakeInstruction
  cases hidx : buildIndex d.ToBase58 b.nextEpochShardCandidate 0 mapEmpty with
  | error e =>
    refine ⟨_, rfl, rfl, rfl, rfl, rfl, fun _ _ => rfl, fun hall => ?_⟩
    obtain ⟨index, hok⟩ := buildIndex_ok d.ToBase58 _ hall 0 mapEmpty
    rw [hok] at hidx
    exact absurd hidx (by simp)
  | ok index =>
    obtain ⟨a, ha, hout, hin⟩ := unstakeLoop_unknown d env index ins.PublicKeys hnone
      (⟨b, cc, []⟩ : LoopState K H R)
    simp only [ha]
    exact ⟨_, rfl, rfl, rfl, rfl, rfl, hout, fun _ => ⟨hin, rfl, rfl⟩⟩

/-- Claim C10, a run: the unknown key `X` loses its auto-stake entry, nothing is handed to
`DeleteStakerInfo`. -/
theorem unstake_unknown_keys_witness :
    (∀ key ∈ ["X"], key ∉ (envOf ["A"] []).validators ∧
        key ∉ (envOf ["A"] []).subtituteCandidates) ∧
      (∀ v ∈ ["A"], ∃ t, textDeps.ToBase58 v = .ok t) ∧
      ∃ r, processUnstakeInstruction textDeps (stateOf ["A"] (mapSingle "X" true)) ⟨["X"]⟩
          (envOf ["A"] []) emptyChange = .ret r ∧
        r.committeeChange = emptyChange ∧ r.b.autoStake "X" = none ∧ r.deleteCalls = [[]] := by
  have hnone : ∀ key ∈ ["X"], key ∉ (envOf ["A"] []).validators ∧
      key ∉ (envOf ["A"] []).subtituteCandidates := by decide
  have hall : ∀ v ∈ ["A"], ∃ t, textDeps.ToBase58 v = .ok t := by
    intro v hv
    rw [List.mem_singleton.1 hv]
    exact ⟨"A", rfl⟩
  obtain ⟨r, hr, _, _, _, hcc, _, h2⟩ :=
    unstake_unknown_keys textDeps (stateOf ["A"] (mapSingle "X" true)) ⟨["X"]⟩
      (envOf ["A"] []) emptyChange hnone
  obtain ⟨h3, h4, _⟩ := h2 hall
  exact ⟨hnone, hall, r, hr, hcc, h3 "X" (List.mem_singleton.2 rfl), h4⟩

/-- Claim C10, as stated, fails: a candidate key does not encode, the call returns that
error before its second loop, the target `X` keeps its `autoStake` entry and
`DeleteStakerInfo` is not invoked. -/
theorem unstake_unknown_keys_index_error :
    processUnstakeInstruction textDeps (stateOf ["A", ""] (mapSingle "X" true)) ⟨["X"]⟩
        (envOf ["A"] []) emptyChange = .ret badCandidateRun ∧
      "X" ∉ (envOf ["A"] []).validators ∧ "X" ∉ (envOf ["A"] []).subtituteCandidates ∧
      badCandidateRun.err = some "ToBase58" ∧
      badCandidateRun.b.autoStake "X" = some true ∧ badCandidateRun.deleteCalls = [] :=
  ⟨rfl, by decide, by decide, rfl, rfl, rfl⟩

/-- Claim C3 (amended). When a key of `nextEpochShardCandidate` fails `ToBase58`, the call
returns an error and the receiver (so `autoStake`, `stakingTx`, `rewardReceiver`,
`nextEpochShardCandidate`) and the `CommitteeChange` are equal to their values before the
call; `DeleteStakerInfo` is not invoked. -/
theorem unstake_index_error_atomic {K H R E DB : Type} (d : Deps K E DB)
    (b : BeaconCommitteeStateV1 K H) (ins : UnstakeInstruction)
    (env : BeaconCommitteeStateEnvironment DB) (cc : CommitteeChange K R)
    (v : K) (e : E) (hv : v ∈ b.nextEpochShardCandidate) (he : d.ToBase58 v = .error e) :
    ∃ e1, processUnstakeInstruction d b ins env cc =
      .ret ⟨b, cc, some e1, env.ConsensusStateDB, []⟩ := by
  obtain ⟨e1, h1⟩ := buildIndex_error d.ToBase58 _ v e hv he 0 mapEmpty
  exact ⟨e1, by simp only [processUnstakeInstruction, h1]⟩

/-- Claim C3, a run: the second candidate key does not encode. -/
theorem unstake_index_error_atomic_witness :
    "" ∈ (stateOf ["A", ""] (mapSingle "X" true)).nextEpochShardCandidate ∧
      textDeps.ToBase58 "" = .error "ToBase58" ∧
      ∃ e1, processUnstakeInstruction textDeps (stateOf ["A", ""] (mapSingle "X" true))
        ⟨["X"]⟩ (envOf ["A"] []) emptyChange =
        .ret ⟨stateOf ["A", ""] (mapSingle "X" true), emptyChange, some e1, (), []⟩ :=
  ⟨by decide, rfl,
    unstake_index_error_atomic textDeps (stateOf ["A", ""] (mapSingle "X" true)) ⟨["X"]⟩
      (envOf ["A"] []) emptyChange "" "ToBase58" (by decide) rfl⟩

/-- Claim C3, as stated, fails: `DeleteStakerInfo` fails, the call returns its error, and
the `autoStake` entry of the candidate is gone, the candidate list is shorter and the change
records the removal. -/
theorem unstake_error_after_mutation :
    processUnstakeInstruction failingDbDeps (stateOf ["A"] (mapSingle "A" true)) ⟨["A"]⟩
        (envOf ["A"] []) emptyChange = .ret dbErrorRun ∧
      dbErrorRun.err = some "DeleteStakerInfo" ∧
      (stateOf ["A"] (mapSingle "A" true)).autoStake "A" = some true ∧
      dbErrorRun.b.autoStake "A" = none ∧
      (stateOf ["A"] (mapSingle "A" true)).nextEpochShardCandidate = ["A"] ∧
      dbErrorRun.b.nextEpochShardCandidate = [] ∧
      emptyChange.NextEpochShardCandidateRemoved = [] ∧
      dbErrorRun.committeeChange.NextEpochShardCandidateRemoved = ["A"] :=
  ⟨rfl, rfl, rfl, rfl, rfl, rfl, rfl, rfl⟩

/-- Claim C1, the failing run: candidates `A`, `B`, `C`, targets `A` then `B`, all three
listed in `env.subtituteCandidates`. The call returns no error; `B` was a candidate and a
target and is still in the list, and `C`, which is no target, is gone: the position of `B`
was looked up in the index map built before `A` was removed. -/
theorem unstake_stale_index_run :
    processUnstakeInstruction textDeps (stateOf ["A", "B", "C"] mapEmpty) ⟨["A", "B"]⟩
        (envOf ["A", "B", "C"] []) emptyChange = .ret staleRun ∧
      staleRun.err = none ∧ staleRun.b.nextEpochShardCandidate = ["B"] :=
  ⟨rfl, rfl, rfl⟩

/-! ### Shard block validation -/

/-- A loop over apps returns an error or goes on; it does not panic. -/
theorem forApps_no_crash {V B Tv Tc C E : Type}
    (stage : ShardApp V B Tv Tc E → World V B Tv Tc → Except E (World V B Tv Tc))
    (ev : Event C) (apps : List (ShardApp V B Tv Tc E)) (w : World V B Tv Tc)
    (t t1 : List (Event C)) : forApps stage ev apps w t ≠ .crash t1 := by
  induction apps generalizing w t with
  | nil => simp [forApps]
  | cons app rest ih =>
    simp only [forApps]
    cases stage app w with
    | error e => simp
    | ok w1 => exact ih w1 _

/-- With an invalid producer signature the branch for `isPreSign = false` returns that
error. -/
theorem signedBranch_invalid_producer {V B C Tv Tc E : Type} (ops : ViewOps V B C Tv Tc E)
    (createApp : List (ShardApp V B Tv Tc E)) (s : V) (block : B) (w : World V B Tv Tc)
    (t : List (Event C)) (e : E) (hsig : ops.ValidateProducerSig block = some e) :
    signedBranch ops createApp s block w t = .stop (t ++ [.ValidateProducerSig]) e := by
  simp only [signedBranch, hsig]

/-- With a valid producer signature and an invalid committee signature the branch for
`isPreSign = false` panics. -/
theorem signedBranch_invalid_committee {V B C Tv Tc E : Type} (ops : ViewOps V B C Tv Tc E)
    (createApp : List (ShardApp V B Tv Tc E)) (s : V) (block : B) (w : World V B Tv Tc)
    (t : List (Event C)) (e : E) (hprod : ops.ValidateProducerSig block = none)
    (hsig : ops.ValidateCommitteeSig block (ops.GetCommittee s) = some e) :
    signedBranch ops createApp s block w t =
      .crash (t ++ [.ValidateProducerSig] ++ [.ValidateCommitteeSig (ops.GetCommittee s)]) := by
  simp only [signedBranch, hprod, hsig]

/-- Claim C4, the failing run: `isPreSign = false`, `preValidate` passes, the producer
signature is valid and `ValidateCommitteeSig` returns an error. The function panics after
the committee-signature check instead of returning `(nil, err)`. -/
theorem validate_invalid_committee_sig_panics :
    (ValidateBlockAndCreateNewView (numOps none (some "invalid committee signature"))
        [okApp] [okApp] 1 2 false).out = .panic ∧
      (ValidateBlockAndCreateNewView (numOps none (some "invalid committee signature"))
        [okApp] [okApp] 1 2 false).trace =
        [.preValidate, .ValidateProducerSig, .ValidateCommitteeSig 1] :=
  ⟨rfl, rfl⟩

/-- Claim C5 (amended). When `isPreSign` is false, a block whose producer signature is
invalid makes `ValidateBlockAndCreateNewView` return a nil view and an error. When
`isPreSign` is true no signature check is run: the result is the same whatever
`ValidateProducerSig` and `ValidateCommitteeSig` answer. -/
theorem validate_producer_sig_when_signed {V B C Tv Tc E : Type}
    (ops : ViewOps V B C Tv Tc E) (validateApp createApp : List (ShardApp V B Tv Tc E))
    (s : V) (block : B) (e : E) (hsig : ops.ValidateProducerSig block = some e)
    (producerSig : B → Option E) (committeeSig : B → C → Option E) :
    (∃ e1, (ValidateBlockAndCreateNewView ops validateApp createApp s block false).out =
      .ret (none, some e1)) ∧
    ValidateBlockAndCreateNewView
      { ops with ValidateProducerSig := producerSig, ValidateCommitteeSig := committeeSig }
      validateApp createApp s block true =
    ValidateBlockAndCreateNewView ops validateApp createApp s block true := by
  refine ⟨?_, rfl⟩
  simp only [ValidateBlockAndCreateNewView]
  cases hpre : forApps (fun a => a.preValidate) (Event.preValidate : Event C) validateApp
      ⟨{ NewValidateState ops s with
          newView := ops.withBlock (NewValidateState ops s).newView block
          isPreSign := false }, ops.NewCreateState s⟩ [] with
  | stop t e1 => exact ⟨e1, rfl⟩
  | crash t => exact absurd hpre (forApps_no_crash _ _ _ _ _ _)
  | go w t =>
    refine ⟨e, ?_⟩
    simp only [Flow.andThen, Bool.false_eq_true, if_false,
      signedBranch_invalid_producer ops createApp s block w t e hsig]

/-- Claim C5, a run: an invalid producer signature is rejected when `isPreSign` is false. -/
theorem validate_producer_sig_when_signed_witness :
    (numOps (some "invalid producer signature") none).ValidateProducerSig 2 =
        some "invalid producer signature" ∧
      ∃ e1, (ValidateBlockAndCreateNewView (numOps (some "invalid producer signature") none)
        [okApp] [okApp] 1 2 false).out = .ret (none, some e1) :=
  ⟨rfl, (validate_producer_sig_when_signed (numOps (some "invalid producer signature") none)
    [okApp] [okApp] 1 2 "invalid producer signature" rfl (fun _ => none)
    (fun _ _ => none)).1⟩

/-- Claim C5, as stated, fails: with `isPreSign = true` a block whose producer signature is
invalid is accepted, a new view is returned with a nil error, and `ValidateProducerSig` is
not among the stages run. -/
theorem validate_presign_skips_producer_sig :
    (numOps (some "invalid producer signature") none).ValidateProducerSig 2 =
        some "invalid producer signature" ∧
      (ValidateBlockAndCreateNewView (numOps (some "invalid producer signature") none)
        [okApp] [okApp] 1 2 true).out = .ret (some 2, none) ∧
      (ValidateBlockAndCreateNewView (numOps (some "invalid producer signature") none)
        [okApp] [okApp] 1 2 true).trace =
        [.preValidate, .buildTxFromCrossShard, .buildResponseTxFromTxWithMetadata,
          .processBeaconInstruction, .generateInstruction, .updateNewViewFromBlock,
          .buildHeader] :=
  ⟨rfl, rfl, rfl⟩

/-! ### Staking metadata -/

/-- The sanity check on a non-private transaction whose unique receiver is the burning
address, for a candidate address that decodes to a 33-byte key: only the amount tests are
left. -/
theorem ValidateSanityData_amount_tests (c : StakingConsts) (m : StakingMetadata)
    (bcr : BlockchainRetriever) (w cw : KeyWallet) (amount : Nat)
    (hburn : (c.Base58CheckDeserialize c.BurningAddress).1 = some w)
    (hcand : c.Base58CheckDeserialize m.CandidatePaymentAddress = (some cw, none))
    (hlen : cw.Pk.length = 33) :
    ValidateSanityData c m bcr (txTo w.Pk amount) =
      if m.MetaType = c.ShardStakingMeta ∧ amount ≠ bcr.GetStakingAmountShard then
        .ret (false, false, some "invalid Stake Shard Amount")
      else if m.MetaType = c.BeaconStakingMeta ∧
          amount ≠ mulU64 bcr.GetStakingAmountShard 3 then
        .ret (false, false, some "invalid Stake Beacon Amount")
      else .ret (true, true, none) := by
  simp [ValidateSanityData, txTo, hburn, hcand, hlen]

/-- Claim C6. For a shard staking metadata (the two type codes being distinct) and a
non-private transaction whose unique receiver is the burning address, with a candidate
payment address that decodes to a 33-byte public key: `ValidateSanityData` returns
`(true, true, nil)` exactly when the amount equals `GetStakingAmountShard()`, every other
amount gives `(false, false, err)`; in particular the amount `GetStakingAmountShard()`
succeeds and the `uint64` amount `GetStakingAmountShard() - 1` fails with an error. -/
theorem shard_stake_amount_exact (c : StakingConsts) (m : StakingMetadata)
    (bcr : BlockchainRetriever) (w cw : KeyWallet)
    (hType : m.MetaType = c.ShardStakingMeta)
    (hne : c.ShardStakingMeta ≠ c.BeaconStakingMeta)
    (hburn : (c.Base58CheckDeserialize c.BurningAddress).1 = some w)
    (hcand : c.Base58CheckDeserialize m.CandidatePaymentAddress = (some cw, none))
    (hlen : cw.Pk.length = 33) (hS : bcr.GetStakingAmountShard < uint64Mod) :
    (∀ amount, ValidateSanityData c m bcr (txTo w.Pk amount) = .ret (true, true, none) ↔
      amount = bcr.GetStakingAmountShard) ∧
    (∀ amount, amount ≠ bcr.GetStakingAmountShard →
      ∃ e, ValidateSanityData c m bcr (txTo w.Pk amount) = .ret (false, false, some e)) ∧
    ValidateSanityData c m bcr (txTo w.Pk bcr.GetStakingAmountShard) =
      .ret (true, true, none) ∧
    ∃ e, ValidateSanityData c m bcr (txTo w.Pk (subU64 bcr.GetStakingAmountShard 1)) =
      .ret (false, false, some e) := by
  have hnb : m.MetaType ≠ c.BeaconStakingMeta := fun h => hne (hType ▸ h)
  have key : ∀ amount, ValidateSanityData c m bcr (txTo w.Pk amount) =
      if amount ≠ bcr.GetStakingAmountShard then
        .ret (false, false, some "invalid Stake Shard Amount")
      else .ret (true, true, none) := by
    intro amount
    rw [ValidateSanityData_amount_tests c m bcr w cw amount hburn hcand hlen]
    simp [hType, hnb, hne]
  have hsub : subU64 bcr.GetStakingAmountShard 1 ≠ bcr.GetStakingAmountShard := by
    unfold subU64 uint64Mod at *
    omega
  refine ⟨fun amount => ?_, fun amount ha => ?_, ?_, ?_⟩
  · rw [key]
    by_cases ha : amount = bcr.GetStakingAmountShard <;> simp [ha]
  · exact ⟨_, by rw [key, if_pos ha]⟩
  · rw [key]
    simp
  · exact ⟨_, by rw [key, if_pos hsub]⟩

/-- Claim C6, a run: shard minimum 1750, type code 63. -/
theorem shard_stake_amount_exact_witness :
    (sampleMeta 63).MetaType = sampleConsts.ShardStakingMeta ∧
      sampleConsts.ShardStakingMeta ≠ sampleConsts.BeaconStakingMeta ∧
      ValidateSanityData sampleConsts (sampleMeta 63) ⟨1750⟩ (txTo [0] 1750) =
        .ret (true, true, none) ∧
      ∃ e, ValidateSanityData sampleConsts (sampleMeta 63) ⟨1750⟩
        (txTo [0] (subU64 1750 1)) = .ret (false, false, some e) :=
  have h := shard_stake_amount_exact sampleConsts (sampleMeta 63) ⟨1750⟩ ⟨[0]⟩
    ⟨List.replicate 33 0⟩ rfl (by decide) rfl rfl rfl (by decide)
  ⟨rfl, by decide, h.2.2.1, h.2.2.2⟩

/-- Claim C7 (amended). For a beacon staking metadata (the two type codes being distinct)
and a transaction that passes every other sanity check, `ValidateSanityData` accepts exactly
the amount `GetStakingAmountShard() * 3` computed on `uint64`, that is the product modulo
`2 ^ 64`, and rejects every other amount with an error; when three times the shard minimum
is below `2 ^ 64` the accepted amount is the integer product. -/
theorem beacon_stake_amount_uint64 (c : StakingConsts) (m : StakingMetadata)
    (bcr : BlockchainRetriever) (w cw : KeyWallet)
    (hType : m.MetaType = c.BeaconStakingMeta)
    (hne : c.ShardStakingMeta ≠ c.BeaconStakingMeta)
    (hburn : (c.Base58CheckDeserialize c.BurningAddress).1 = some w)
    (hcand : c.Base58CheckDeserialize m.CandidatePaymentAddress = (some cw, none))
    (hlen : cw.Pk.length = 33) :
    (∀ amount, ValidateSanityData c m bcr (txTo w.Pk amount) = .ret (true, true, none) ↔
      amount = (3 * bcr.GetStakingAmountShard) % 2 ^ 64) ∧
    (∀ amount, amount ≠ (3 * bcr.GetStakingAmountShard) % 2 ^ 64 →
      ∃ e, ValidateSanityData c m bcr (txTo w.Pk amount) = .ret (false, false, some e)) ∧
    (3 * bcr.GetStakingAmountShard < 2 ^ 64 →
      ∀ amount, ValidateSanityData c m bcr (txTo w.Pk amount) = .ret (true, true, none) ↔
        amount = 3 * bcr.GetStakingAmountShard) := by
  have hns : m.MetaType ≠ c.ShardStakingMeta := fun h => hne (h ▸ hType)
  have hmul : mulU64 bcr.GetStakingAmountShard 3 = (3 * bcr.GetStakingAmountShard) % 2 ^ 64 := by
    unfold mulU64 uint64Mod
    rw [Nat.mul_comm]
  have key : ∀ amount, ValidateSanityData c m bcr (txTo w.Pk amount) =
      if amount ≠ (3 * bcr.GetStakingAmountShard) % 2 ^ 64 then
        .ret (false, false, some "invalid Stake Beacon Amount")
      else .ret (true, true, none) := by
    intro amount
    rw [ValidateSanityData_amount_tests c m bcr w cw amount hburn hcand hlen, hmul]
    simp [hType, hns, Ne.symm hne]
  have hiff : ∀ amount, ValidateSanityData c m bcr (txTo w.Pk amount) =
      .ret (true, true, none) ↔ amount = (3 * bcr.GetStakingAmountShard) % 2 ^ 64 := by
    intro amount
    rw [key]
    by_cases ha : amount = (3 * bcr.GetStakingAmountShard) % 2 ^ 64 <;> simp [ha]
  refine ⟨hiff, fun amount ha => ⟨_, by rw [key, if_pos ha]⟩, fun hlt amount => ?_⟩
  rw [hiff, Nat.mod_eq_of_lt hlt]

/-- Claim C7, a run: shard minimum 1750, type code 64, the amount 5250 is accepted. -/
theorem beacon_stake_amount_uint64_witness :
    (sampleMeta 64).MetaType = sampleConsts.BeaconStakingMeta ∧
      sampleConsts.ShardStakingMeta ≠ sampleConsts.BeaconStakingMeta ∧
      (3 * 1750 < 2 ^ 64) ∧
      (ValidateSanityData sampleConsts (sampleMeta 64) ⟨1750⟩ (txTo [0] 5250) =
        .ret (true, true, none) ↔ 5250 = 3 * 1750) :=
  have h := beacon_stake_amount_uint64 sampleConsts (sampleMeta 64) ⟨1750⟩ ⟨[0]⟩
    ⟨List.replicate 33 0⟩ rfl (by decide) rfl rfl rfl
  ⟨rfl, by decide, by decide, h.2.2 (by decide) 5250⟩

/-- Claim C7, as stated, fails: with the `uint64` shard minimum `2 ^ 63` the product
`GetStakingAmountShard() * 3` wraps to `2 ^ 63`; the amount `2 ^ 63` is accepted although it
is not three times the shard minimum. -/
theorem beacon_stake_amount_overflow :
    (sampleMeta 64).MetaType = sampleConsts.BeaconStakingMeta ∧
      (2 ^ 63 < uint64Mod) ∧
      ValidateSanityData sampleConsts (sampleMeta 64) ⟨2 ^ 63⟩ (txTo [0] (2 ^ 63)) =
        .ret (true, true, none) ∧
      2 ^ 63 ≠ 3 * 2 ^ 63 :=
  ⟨rfl, by decide, by decide, by decide⟩

/-! ### The batch handed to `DeleteStakerInfo`, and the change lists -/

/-- A completed loop has appended, to the local key list and to
`NextEpochShardCandidateRemoved` alike, the decoded targets listed in
`env.subtituteCandidates`, in instruction order. -/
theorem unstakeLoop_delete_keys {K H R E DB : Type} {d : Deps K E DB}
    {env : BeaconCommitteeStateEnvironment DB} {index : GoMap Nat} {keys : List String}
    {s s1 : LoopState K H R} (h : unstakeLoop d env index keys s = .next s1) :
    ∃ ks, List.Forall₂ (fun key k => d.FromBase58 key = .ok k)
        (keys.filter (fun key => decide (key ∈ env.subtituteCandidates))) ks ∧
      s1.unstakeKey = s.unstakeKey ++ ks ∧
      s1.committeeChange.NextEpochShardCandidateRemoved =
        s.committeeChange.NextEpochShardCandidateRemoved ++ ks := by
  induction keys generalizing s with
  | nil =>
    simp only [unstakeLoop] at h
    injection h with h
    subst h
    exact ⟨[], by simp, by simp, by simp⟩
  | cons key rest ih =>
    simp only [unstakeLoop] at h
    cases hone : unstakeOne d env index key s with
    | panic => rw [hone] at h; exact absurd h (by simp)
    | fail s2 e => rw [hone] at h; exact absurd h (by simp)
    | next s2 =>
      rw [hone] at h
      obtain ⟨ks, hks, hu, hr⟩ := ih h
      rcases unstakeOne_next_cases hone with ⟨hn, _, hs2⟩ | ⟨hn, _, _, hs2⟩ |
        ⟨hn, _, _, hs2⟩ | ⟨hin, k, cands, hk, _, hs2⟩
      · subst hs2
        exact ⟨ks, by simpa [hn] using hks, hu, hr⟩
      · subst hs2
        exact ⟨ks, by simpa [hn] using hks, hu, hr⟩
      · subst hs2
        exact ⟨ks, by simpa [hn] using hks, hu, hr⟩
      · subst hs2
        refine ⟨k :: ks, ?_, ?_, ?_⟩
        · simp only [hin, decide_True, List.filter_cons_of_pos]
          exact List.Forall₂.cons hk hks
        · simpa using hu
        · simpa using hr

/-- A call that returns no error, or that invoked `DeleteStakerInfo`, invoked it once, on
the decoded targets listed in `env.subtituteCandidates` in instruction order; these are the
keys it appended to `NextEpochShardCandidateRemoved`, and the error returned is the one of
`DeleteStakerInfo`. -/
theorem processUnstakeInstruction_delete_call {K H R E DB : Type} {d : Deps K E DB}
    {b : BeaconCommitteeStateV1 K H} {ins : UnstakeInstruction}
    {env : BeaconCommitteeStateEnvironment DB} {cc : CommitteeChange K R}
    {r : UnstakeReturn K H R E DB} (h : processUnstakeInstruction d b ins env cc = .ret r)
    (hdone : r.err = none ∨ r.deleteCalls ≠ []) :
    ∃ ks, List.Forall₂ (fun key k => d.FromBase58 key = .ok k)
        (ins.PublicKeys.filter (fun key => decide (key ∈ env.subtituteCandidates))) ks ∧
      r.deleteCalls = [ks] ∧
      r.committeeChange.NextEpochShardCandidateRemoved =
        cc.NextEpochShardCandidateRemoved ++ ks ∧
      r.err = (d.DeleteStakerInfo env.ConsensusStateDB ks).2 := by
  obtain ⟨index, s, _, hloop, _, hc, hcalls, herr⟩ := processUnstakeInstruction_completed h hdone
  obtain ⟨ks, hks, hu, hr⟩ := unstakeLoop_delete_keys hloop
  have hu1 : s.unstakeKey = ks := by simpa using hu
  exact ⟨ks, hks, by rw [hcalls, hu1], by rw [hc, hr], by rw [herr, hu1]⟩

/-- Claim C11, the failing run: candidates `A`, `B`, both listed in
`env.subtituteCandidates`, targets `A` then `B`; every key encodes and decodes. The call
panics at the slice expression of line 75 (position 1 in a list of length 1), so
`DeleteStakerInfo` is not invoked and nothing is returned. -/
theorem unstake_last_two_candidates_panics :
    textDeps.ToBase58 "A" = .ok "A" ∧ textDeps.ToBase58 "B" = .ok "B" ∧
      textDeps.FromBase58 "A" = .ok "A" ∧ textDeps.FromBase58 "B" = .ok "B" ∧
      processUnstakeInstruction textDeps (stateOf ["A", "B"] mapEmpty) ⟨["A", "B"]⟩
        (envOf ["A", "B"] []) emptyChange = .panic :=
  ⟨rfl, rfl, rfl, rfl, rfl⟩

/-- An iteration records in `Unstake` only keys not listed in `env.subtituteCandidates`, and
in `NextEpochShardCandidateRemoved` only decodings of keys listed there. -/
theorem unstakeOne_change_lists {K H R E DB : Type} {d : Deps K E DB}
    {env : BeaconCommitteeStateEnvironment DB} {index : GoMap Nat} {key : String}
    {s s1 : LoopState K H R} (h : unstakeOne d env index key s = .next s1)
    (hs : (∀ u ∈ s.committeeChange.Unstake, u ∉ env.subtituteCandidates) ∧
      (∀ k ∈ s.committeeChange.NextEpochShardCandidateRemoved,
        ∃ t ∈ env.subtituteCandidates, d.FromBase58 t = .ok k)) :
    (∀ u ∈ s1.committeeChange.Unstake, u ∉ env.subtituteCandidates) ∧
    (∀ k ∈ s1.committeeChange.NextEpochShardCandidateRemoved,
      ∃ t ∈ env.subtituteCandidates, d.FromBase58 t = .ok k) := by
  obtain ⟨hU, hR⟩ := hs
  rcases unstakeOne_next_cases h with ⟨_, _, hs1⟩ | ⟨_, _, _, hs1⟩ | ⟨hn, _, _, hs1⟩ |
    ⟨hin, k, cands, hk, _, hs1⟩
  · subst hs1
    exact ⟨hU, hR⟩
  · subst hs1
    exact ⟨hU, hR⟩
  · subst hs1
    refine ⟨fun u hu => ?_, hR⟩
    rcases List.mem_append.1 hu with h1 | h1
    · exact hU u h1
    · rw [List.mem_singleton.1 h1]
      exact hn
  · subst hs1
    refine ⟨hU, fun k1 hk1 => ?_⟩
    rcases List.mem_append.1 hk1 with h1 | h1
    · exact hR k1 h1
    · rw [List.mem_singleton.1 h1]
      exact ⟨key, hin, hk⟩

/-- Claim C12. Starting from a `CommitteeChange` whose `Unstake` and
`NextEpochShardCandidateRemoved` lists are empty, after every returning call (with or without
an error) each string in `Unstake` is not listed in `env.subtituteCandidates`, each key in
`NextEpochShardCandidateRemoved` is the decoding of a string listed there, and so, decoding
being one-to-one, the decoding of a string recorded in `Unstake` is never in
`NextEpochShardCandidateRemoved`. -/
theorem unstake_change_lists_disjoint {K H R E DB : Type} (d : Deps K E DB)
    (b : BeaconCommitteeStateV1 K H) (ins : UnstakeInstruction)
    (env : BeaconCommitteeStateEnvironment DB) (cc : CommitteeChange K R)
    (r : UnstakeReturn K H R E DB)
    (hret : processUnstakeInstruction d b ins env cc = .ret r)
    (hU : cc.Unstake = []) (hR : cc.NextEpochShardCandidateRemoved = [])
    (hinj : ∀ s t k, d.FromBase58 s = .ok k → d.FromBase58 t = .ok k → s = t) :
    (∀ u ∈ r.committeeChange.Unstake, u ∉ env.subtituteCandidates) ∧
    (∀ k ∈ r.committeeChange.NextEpochShardCandidateRemoved,
      ∃ t ∈ env.subtituteCandidates, d.FromBase58 t = .ok k) ∧
    (∀ u ∈ r.committeeChange.Unstake, ∀ k, d.FromBase58 u = .ok k →
      k ∉ r.committeeChange.NextEpochShardCandidateRemoved) := by
  have hinit : (∀ u ∈ cc.Unstake, u ∉ env.subtituteCandidates) ∧
      (∀ k ∈ cc.NextEpochShardCandidateRemoved,
        ∃ t ∈ env.subtituteCandidates, d.FromBase58 t = .ok k) := by
    rw [hU, hR]
    exact ⟨fun u hu => absurd hu (by simp), fun k hk => absurd hk (by simp)⟩
  have hloop : ∀ (index : GoMap Nat) (keys : List String) (s1 : LoopState K H R),
      unstakeLoop d env index keys ⟨b, cc, []⟩ = .next s1 →
      (∀ u ∈ s1.committeeChange.Unstake, u ∉ env.subtituteCandidates) ∧
      (∀ k ∈ s1.committeeChange.NextEpochShardCandidateRemoved,
        ∃ t ∈ env.subtituteCandidates, d.FromBase58 t = .ok k) := by
    intro index keys s1 h1
    exact unstakeLoop_invariant
      (fun t => (∀ u ∈ t.committeeChange.Unstake, u ∉ env.subtituteCandidates) ∧
        (∀ k ∈ t.committeeChange.NextEpochShardCandidateRemoved,
          ∃ t1 ∈ env.subtituteCandidates, d.FromBase58 t1 = .ok k))
      keys (fun key _ t t1 hone ht => unstakeOne_change_lists hone ht) h1 hinit
  have hboth : (∀ u ∈ r.committeeChange.Unstake, u ∉ env.subtituteCandidates) ∧
      (∀ k ∈ r.committeeChange.NextEpochShardCandidateRemoved,
        ∃ t ∈ env.subtituteCandidates, d.FromBase58 t = .ok k) := by
    rcases processUnstakeInstruction_ret_cases hret with ⟨e, _, hr⟩ |
      ⟨index, s, e, _, hfail, hr⟩ | ⟨index, s, _, hnext, hr⟩
    · subst hr
      exact hinit
    · subst hr
      obtain ⟨pre, key, post, sa, _, hpre, hone⟩ := unstakeLoop_fail_cases hfail
      obtain ⟨_, _, hs⟩ := unstakeOne_fail_cases hone
      have hsa := hloop index pre sa hpre
      subst hs
      exact hsa
    · subst hr
      exact hloop index ins.PublicKeys s hnext
  refine ⟨hboth.1, hboth.2, fun u hu k hk hmem => ?_⟩
  obtain ⟨t, ht, htk⟩ := hboth.2 k hmem
  have : u = t := hinj u t k hk htk
  exact hboth.1 u hu (this ▸ ht)

/-- Claim C12, a run: validator `V` and candidate `A` unstaked together. -/
theorem unstake_change_lists_disjoint_witness :
    processUnstakeInstruction textDeps (stateOf ["A"] (mapSingle "V" true)) ⟨["V", "A"]⟩
        (envOf ["A"] ["V"]) emptyChange = .ret mixedRun ∧
      mixedRun.committeeChange.Unstake = ["V"] ∧
      mixedRun.committeeChange.NextEpochShardCandidateRemoved = ["A"] ∧
      (∀ u ∈ mixedRun.committeeChange.Unstake, ∀ k, textDeps.FromBase58 u = .ok k →
        k ∉ mixedRun.committeeChange.NextEpochShardCandidateRemoved) :=
  have hinj : ∀ s t k, textDeps.FromBase58 s = .ok k → textDeps.FromBase58 t = .ok k →
      s = t := by
    intro s t k hs ht
    simp only [textDeps] at hs ht
    split_ifs at hs ht
    injection hs with hs
    injection ht with ht
    rw [hs, ht]
  ⟨rfl, rfl, rfl,
    (unstake_change_lists_disjoint textDeps (stateOf ["A"] (mapSingle "V" true))
      ⟨["V", "A"]⟩ (envOf ["A"] ["V"]) emptyChange mixedRun rfl rfl rfl hinj).2.2⟩

/-- Removing one position yields a sub-list. -/
theorem removeAt_sublist {α : Type} {l cands : List α} {i : Nat}
    (h : removeAt l i = .ret cands) : cands.Sublist l := by
  unfold removeAt at h
  split_ifs at h
  injection h with h
  subst h
  have h1 : (l.take i ++ l.drop (i + 1)).Sublist (l.take i ++ l.drop i) :=
    List.Sublist.append (List.Sublist.refl _) (List.drop_sublist_drop_left l (Nat.le_succ i))
  rwa [List.take_append_drop] at h1

/-- An iteration that does not panic leaves a sub-list of the candidate list. -/
theorem unstakeOne_sublist {K H R E DB : Type} {d : Deps K E DB}
    {env : BeaconCommitteeStateEnvironment DB} {index : GoMap Nat} {key : String}
    {s s1 : LoopState K H R} (h : unstakeOne d env index key s = .next s1) :
    s1.b.nextEpochShardCandidate.Sublist s.b.nextEpochShardCandidate := by
  rcases unstakeOne_next_cases h with ⟨_, _, hs1⟩ | ⟨_, _, _, hs1⟩ | ⟨_, _, _, hs1⟩ |
    ⟨_, k, cands, _, hc, hs1⟩
  · subst hs1; exact List.Sublist.refl _
  · subst hs1; exact List.Sublist.refl _
  · subst hs1; exact List.Sublist.refl _
  · subst hs1; exact removeAt_sublist hc

/-- Claim C13. Whenever `processUnstakeInstruction` returns (with or without an error) the
resulting `nextEpochShardCandidate` is an order-preserving sub-list of the list before the
call; hence a list without duplicate keys stays without duplicate keys, also when keys are
compared through any rendering `f` such as their base58 text. -/
theorem unstake_candidates_sublist {K H R E DB : Type} (d : Deps K E DB)
    (b : BeaconCommitteeStateV1 K H) (ins : UnstakeInstruction)
    (env : BeaconCommitteeStateEnvironment DB) (cc : CommitteeChange K R)
    (r : UnstakeReturn K H R E DB)
    (hret : processUnstakeInstruction d b ins env cc = .ret r) :
    r.b.nextEpochShardCandidate.Sublist b.nextEpochShardCandidate ∧
    (b.nextEpochShardCandidate.Nodup → r.b.nextEpochShardCandidate.Nodup) ∧
    (∀ f : K → String, (b.nextEpochShardCandidate.map f).Nodup →
      (r.b.nextEpochShardCandidate.map f).Nodup) := by
  have hloop : ∀ (index : GoMap Nat) (keys : List String) (s1 : LoopState K H R),
      unstakeLoop d env index keys ⟨b, cc, []⟩ = .next s1 →
      s1.b.nextEpochShardCandidate.Sublist b.nextEpochShardCandidate := by
    intro index keys s1 h1
    exact unstakeLoop_invariant
      (fun t => t.b.nextEpochShardCandidate.Sublist b.nextEpochShardCandidate)
      keys (fun key _ t t1 hone ht => (unstakeOne_sublist hone).trans ht) h1
      (List.Sublist.refl _)
  have hsub : r.b.nextEpochShardCandidate.Sublist b.nextEpochShardCandidate := by
    rcases processUnstakeInstruction_ret_cases hret with ⟨e, _, hr⟩ |
      ⟨index, s, e, _, hfail, hr⟩ | ⟨index, s, _, hnext, hr⟩
    · subst hr
      exact List.Sublist.refl _
    · subst hr
      obtain ⟨pre, key, post, sa, _, hpre, hone⟩ := unstakeLoop_fail_cases hfail
      obtain ⟨_, _, hs⟩ := unstakeOne_fail_cases hone
      have hsa := hloop index pre sa hpre
      subst hs
      exact hsa
    · subst hr
      exact hloop index ins.PublicKeys s hnext
  exact ⟨hsub, fun hn => hsub.nodup hn, fun f hn => (hsub.map f).nodup hn⟩

/-- Claim C13, a run: candidate `A` is removed from `A`, `B`. -/
theorem unstake_candidates_sublist_witness :
    processUnstakeInstruction textDeps purgeState ⟨["A"]⟩ (envOf ["A", "B"] []) emptyChange
        = .ret purgeRun ∧
      purgeRun.b.nextEpochShardCandidate = ["B"] ∧
      purgeRun.b.nextEpochShardCandidate.Sublist purgeState.nextEpochShardCandidate :=
  ⟨rfl, rfl,
    (unstake_candidates_sublist textDeps purgeState ⟨["A"]⟩ (envOf ["A", "B"] [])
      emptyChange purgeRun rfl).1⟩

/-! ### Shard block validation: stages, atomicity, committee -/

/-- A loop over apps only appends its own event to the trace. -/
theorem forApps_trace {V B Tv Tc C E : Type}
    (stage : ShardApp V B Tv Tc E → World V B Tv Tc → Except E (World V B Tv Tc))
    (ev : Event C) (apps : List (ShardApp V B Tv Tc E)) (w : World V B Tv Tc)
    (t : List (Event C)) :
    ∃ n, (forApps stage ev apps w t).trace = t ++ List.replicate n ev := by
  induction apps generalizing w t with
  | nil => exact ⟨0, by simp [forApps, Flow.trace]⟩
  | cons app rest ih =>
    simp only [forApps]
    cases stage app w with
    | error e => exact ⟨1, by simp [Flow.trace]⟩
    | ok w1 =>
      obtain ⟨n, hn⟩ := ih w1 (t ++ [ev])
      exact ⟨n + 1, by rw [hn, List.replicate_succ]; simp⟩

/-- A loop over apps all of whose stage calls succeed goes on. -/
theorem forApps_ok {V B Tv Tc C E : Type}
    (stage : ShardApp V B Tv Tc E → World V B Tv Tc → Except E (World V B Tv Tc))
    (ev : Event C) (apps : List (ShardApp V B Tv Tc E))
    (hok : ∀ a ∈ apps, ∀ w, ∃ w1, stage a w = .ok w1) (w : World V B Tv Tc)
    (t : List (Event C)) :
    ∃ w1 t1, forApps stage ev apps w t = .go w1 t1 := by
  induction apps generalizing w t with
  | nil => exact ⟨w, t, rfl⟩
  | cons app rest ih =>
    obtain ⟨w1, hw1⟩ := hok app (List.mem_cons_self _ _) w
    simp only [forApps, hw1]
    exact ih (fun a ha => hok a (List.mem_cons_of_mem _ ha)) w1 _

/-- The function returns a view exactly when it returns no error. -/
theorem ValidateBlockAndCreateNewView_ret {V B C Tv Tc E : Type}
    (ops : ViewOps V B C Tv Tc E) (validateApp createApp : List (ShardApp V B Tv Tc E))
    (s : V) (block : B) (isPreSign : Bool) (v : Option V) (e : Option E)
    (h : (ValidateBlockAndCreateNewView ops validateApp createApp s block isPreSign).out =
      .ret (v, e)) :
    (v = none ∧ e ≠ none) ∨ (v ≠ none ∧ e = none) := by
  simp only [ValidateBlockAndCreateNewView] at h
  split at h
  · injection h with h
    injection h with h1 h2
    subst h1 h2
    exact Or.inl ⟨rfl, by simp⟩
  · exact absurd h (by simp)
  · injection h with h
    injection h with h1 h2
    subst h1 h2
    exact Or.inr ⟨by simp, rfl⟩

/-- In pre-sign mode a block is turned down only by the error of a stage: when no stage of
any app fails, every block is accepted, whatever the create pipeline derived. -/
theorem preSign_accepts_when_stages_pass {V B C Tv Tc E : Type}
    (ops : ViewOps V B C Tv Tc E) (validateApp createApp : List (ShardApp V B Tv Tc E))
    (s : V) (block : B)
    (hpre : ∀ a ∈ validateApp, ∀ w, ∃ w1, a.preValidate w = .ok w1)
    (h1 : ∀ a ∈ createApp, ∀ w, ∃ w1, a.buildTxFromCrossShard w = .ok w1)
    (h2 : ∀ a ∈ createApp, ∀ w, ∃ w1, a.buildResponseTxFromTxWithMetadata w = .ok w1)
    (h3 : ∀ a ∈ createApp, ∀ w, ∃ w1, a.processBeaconInstruction w = .ok w1)
    (h4 : ∀ a ∈ createApp, ∀ w, ∃ w1, a.generateInstruction w = .ok w1)
    (h5 : ∀ a ∈ createApp, ∀ w, ∃ w1, a.updateNewViewFromBlock block w = .ok w1)
    (h6 : ∀ a ∈ createApp, ∀ w, ∃ w1, a.buildHeader w = .ok w1) :
    ∃ v, (ValidateBlockAndCreateNewView ops validateApp createApp s block true).out =
      .ret (some v, none) := by
  simp only [ValidateBlockAndCreateNewView, preSignBranch, if_true]
  obtain ⟨w0, t0, e0⟩ := forApps_ok (fun a => a.preValidate) (Event.preValidate : Event C)
    validateApp hpre
    ⟨{ NewValidateState ops s with
        newView := ops.withBlock (NewValidateState ops s).newView block
        isPreSign := true }, ops.NewCreateState s⟩ []
  rw [e0]
  simp only [Flow.andThen]
  obtain ⟨w1, t1, e1⟩ := forApps_ok (fun a => a.buildTxFromCrossShard)
    (Event.buildTxFromCrossShard : Event C) createApp h1 w0 t0
  rw [e1]
  simp only []
  obtain ⟨w2, t2, e2⟩ := forApps_ok (fun a => a.buildResponseTxFromTxWithMetadata)
    (Event.buildResponseTxFromTxWithMetadata : Event C) createApp h2 w1 t1
  rw [e2]
  simp only []
  obtain ⟨w3, t3, e3⟩ := forApps_ok (fun a => a.processBeaconInstruction)
    (Event.processBeaconInstruction : Event C) createApp h3 w2 t2
  rw [e3]
  simp only []
  obtain ⟨w4, t4, e4⟩ := forApps_ok (fun a => a.generateInstruction)
    (Event.generateInstruction : Event C) createApp h4 w3 t3
  rw [e4]
  simp only []
  obtain ⟨w5, t5, e5⟩ := forApps_ok (fun a => a.updateNewViewFromBlock block)
    (Event.updateNewViewFromBlock : Event C) createApp h5
    { w4 with createState := { w4.createState with newBlock := some (ops.bodyOnly block) } } t4
  rw [e5]
  simp only []
  obtain ⟨w6, t6, e6⟩ := forApps_ok (fun a => a.buildHeader)
    (Event.buildHeader : Event C) createApp h6 w5 t5
  rw [e6]
  exact ⟨_, rfl⟩

/-- Claim C14, the failing run: in pre-sign mode the create pipeline derives the content 7
and the proposed block has the content 2 (and likewise 3). Both blocks are accepted: a new
view comes back with a nil error, the derived content is still 7 in the create state and the
block built for the header check carries the proposed body. -/
theorem validate_presign_accepts_mismatch :
    (ValidateBlockAndCreateNewView contentOps [rebuildApp] [rebuildApp] 1 2 true).out =
        .ret (some 2, none) ∧
      (ValidateBlockAndCreateNewView contentOps [rebuildApp] [rebuildApp] 1 3 true).out =
        .ret (some 3, none) ∧
      preSignBranch contentOps [rebuildApp] 2
          (⟨⟨1, true, 1, ()⟩, ⟨1, none, 0⟩⟩ : World Nat Nat Unit Nat) ([] : List (Event Nat)) =
        .go ⟨⟨1, true, 2, ()⟩, ⟨2, some 2, 7⟩⟩
          [.buildTxFromCrossShard, .buildResponseTxFromTxWithMetadata,
            .processBeaconInstruction, .generateInstruction, .updateNewViewFromBlock,
            .buildHeader] :=
  ⟨rfl, rfl, rfl⟩

/-- Claim C15, the failing run: with `isPreSign = false`, two validate apps, a valid producer
signature and an invalid committee signature, the stage `ValidateCommitteeSig` returns an
error and the function panics instead of returning a nil view with that error. The producer
signature stage next to it does return its error and stops the run. -/
theorem validate_not_atomic_on_committee_sig :
    (ValidateBlockAndCreateNewView (numOps none (some "invalid committee signature"))
        [okApp, okApp] [okApp] 3 4 false).out = .panic ∧
      (ValidateBlockAndCreateNewView (numOps none (some "invalid committee signature"))
        [okApp, okApp] [okApp] 3 4 false).trace =
        [.preValidate, .preValidate, .ValidateProducerSig, .ValidateCommitteeSig 3] ∧
      (ValidateBlockAndCreateNewView (numOps (some "invalid producer signature") none)
        [okApp, okApp] [okApp] 3 4 false).out =
        .ret (none, some "invalid producer signature") ∧
      (ValidateBlockAndCreateNewView (numOps (some "invalid producer signature") none)
        [okApp, okApp] [okApp] 3 4 false).trace =
        [.preValidate, .preValidate, .ValidateProducerSig] :=
  ⟨rfl, rfl, rfl, rfl⟩

/-- The trace of the branch for `isPreSign = false`. -/
theorem signedBranch_trace {V B C Tv Tc E : Type} (ops : ViewOps V B C Tv Tc E)
    (createApp : List (ShardApp V B Tv Tc E)) (s : V) (block : B) (w : World V B Tv Tc)
    (t : List (Event C)) :
    (∃ e, signedBranch ops createApp s block w t = .stop (t ++ [.ValidateProducerSig]) e) ∨
    ∃ m, (signedBranch ops createApp s block w t).trace =
      t ++ [.ValidateProducerSig, .ValidateCommitteeSig (ops.GetCommittee s)] ++
        List.replicate m .updateNewViewFromBlock := by
  unfold signedBranch
  cases ops.ValidateProducerSig block with
  | some e => exact Or.inl ⟨e, rfl⟩
  | none =>
    right
    cases ops.ValidateCommitteeSig block (ops.GetCommittee s) with
    | some e => exact ⟨0, by simp [Flow.trace]⟩
    | none =>
      simp only []
      obtain ⟨m, hm⟩ := forApps_trace (fun a => a.updateNewViewFromBlock block)
        (Event.updateNewViewFromBlock : Event C) createApp
        { w with createState := { w.createState with newView := ops.CloneNewView s } }
        (t ++ [.ValidateProducerSig] ++ [.ValidateCommitteeSig (ops.GetCommittee s)])
      refine ⟨m, ?_⟩
      cases hf : forApps (fun a => a.updateNewViewFromBlock block)
        (Event.updateNewViewFromBlock : Event C) createApp
        { w with createState := { w.createState with newView := ops.CloneNewView s } }
        (t ++ [.ValidateProducerSig] ++ [.ValidateCommitteeSig (ops.GetCommittee s)]) with
      | stop t1 e1 => rw [hf] at hm; simpa [Flow.andThen, Flow.trace] using hm
      | crash t1 => rw [hf] at hm; simpa [Flow.andThen, Flow.trace] using hm
      | go w1 t1 => rw [hf] at hm; simpa [Flow.andThen, Flow.trace] using hm

/-- The branch for `isPreSign = false` reads `ValidateCommitteeSig` only at the block and the
committee of the receiver view. -/
theorem signedBranch_check_congr {V B C Tv Tc E : Type} (ops : ViewOps V B C Tv Tc E)
    (check : B → C → Option E) (createApp : List (ShardApp V B Tv Tc E)) (s : V) (block : B)
    (w : World V B Tv Tc) (t : List (Event C))
    (h : check block (ops.GetCommittee s) = ops.ValidateCommitteeSig block (ops.GetCommittee s)) :
    signedBranch { ops with ValidateCommitteeSig := check } createApp s block w t =
      signedBranch ops createApp s block w t := by
  simp only [signedBranch, h]

/-- The branch for `isPreSign = false` goes on only after both signature checks passed, the
committee one against the committee of the receiver view. -/
theorem signedBranch_go {V B C Tv Tc E : Type} (ops : ViewOps V B C Tv Tc E)
    (createApp : List (ShardApp V B Tv Tc E)) (s : V) (block : B) (w w1 : World V B Tv Tc)
    (t t1 : List (Event C)) (h : signedBranch ops createApp s block w t = .go w1 t1) :
    ops.ValidateProducerSig block = none ∧
      ops.ValidateCommitteeSig block (ops.GetCommittee s) = none := by
  unfold signedBranch at h
  cases hp : ops.ValidateProducerSig block with
  | some e => rw [hp] at h; cases h
  | none =>
    cases hc : ops.ValidateCommitteeSig block (ops.GetCommittee s) with
    | some e => rw [hp, hc] at h; cases h
    | none => exact ⟨rfl, rfl⟩

/-- When the committee signature does not verify against the committee of the receiver view,
the branch for `isPreSign = false` never reaches the apps of the create state. -/
theorem signedBranch_check_fails {V B C Tv Tc E : Type} (ops : ViewOps V B C Tv Tc E)
    (createApp createApp2 : List (ShardApp V B Tv Tc E)) (s : V) (block : B)
    (w : World V B Tv Tc) (t : List (Event C)) (e : E)
    (h : ops.ValidateCommitteeSig block (ops.GetCommittee s) = some e) :
    signedBranch ops createApp2 s block w t = signedBranch ops createApp s block w t := by
  unfold signedBranch
  cases ops.ValidateProducerSig block with
  | some e1 => rfl
  | none => simp only [h]

/-- Claim C16. With `isPreSign = false`:
(1) the stages run are the `preValidate` calls, then `ValidateProducerSig`, then
`ValidateCommitteeSig` on the committee `s.GetCommittee()` of the receiver view, then the
`updateNewViewFromBlock` calls, the run stopping at the first stage that fails;
(2) every accepted block passed the producer check and the committee check against the
committee of `s`;
(3) the whole result depends on `ValidateCommitteeSig` only through its answer at the block
and the committee of `s`: replacing the check by any other with the same answer there, whatever
it answers for other committees (that of the new view included), changes nothing;
(4) when the check against the committee of `s` fails, the result is the same whatever the
apps that build the new view are: the check is decided before `updateNewViewFromBlock`. -/
theorem validate_committee_of_receiver {V B C Tv Tc E : Type}
    (ops : ViewOps V B C Tv Tc E) (validateApp createApp : List (ShardApp V B Tv Tc E))
    (s : V) (block : B) :
    (∃ n m,
      ((ValidateBlockAndCreateNewView ops validateApp createApp s block false).trace =
          List.replicate n .preValidate ∨
        (ValidateBlockAndCreateNewView ops validateApp createApp s block false).trace =
          List.replicate n .preValidate ++ [.ValidateProducerSig] ∨
        (ValidateBlockAndCreateNewView ops validateApp createApp s block false).trace =
          List.replicate n .preValidate ++
            [.ValidateProducerSig, .ValidateCommitteeSig (ops.GetCommittee s)] ++
            List.replicate m .updateNewViewFromBlock) ∧
      (∀ v, (ValidateBlockAndCreateNewView ops validateApp createApp s block false).out =
          .ret (some v, none) →
        (ValidateBlockAndCreateNewView ops validateApp createApp s block false).trace =
          List.replicate n .preValidate ++
            [.ValidateProducerSig, .ValidateCommitteeSig (ops.GetCommittee s)] ++
            List.replicate m .updateNewViewFromBlock)) ∧
      (∀ v, (ValidateBlockAndCreateNewView ops validateApp createApp s block false).out =
          .ret (some v, none) →
        ops.ValidateProducerSig block = none ∧
          ops.ValidateCommitteeSig block (ops.GetCommittee s) = none) ∧
      (∀ check : B → C → Option E,
        check block (ops.GetCommittee s) =
          ops.ValidateCommitteeSig block (ops.GetCommittee s) →
        ValidateBlockAndCreateNewView { ops with ValidateCommitteeSig := check } validateApp
            createApp s block false =
          ValidateBlockAndCreateNewView ops validateApp createApp s block false) ∧
      (∀ (e : E) (createApp2 : List (ShardApp V B Tv Tc E)),
        ops.ValidateCommitteeSig block (ops.GetCommittee s) = some e →
        ValidateBlockAndCreateNewView ops validateApp createApp2 s block false =
          ValidateBlockAndCreateNewView ops validateApp createApp s block false) := by
  refine ⟨?_, ?_, ?_, ?_⟩
  · obtain ⟨n, hn⟩ := forApps_trace (fun a => a.preValidate) (Event.preValidate : Event C)
      validateApp
      ⟨{ NewValidateState ops s with
          newView := ops.withBlock (NewValidateState ops s).newView block
          isPreSign := false }, ops.NewCreateState s⟩ []
    simp only [ValidateBlockAndCreateNewView]
    cases hpre : forApps (fun a => a.preValidate) (Event.preValidate : Event C) validateApp
        ⟨{ NewValidateState ops s with
            newView := ops.withBlock (NewValidateState ops s).newView block
            isPreSign := false }, ops.NewCreateState s⟩ [] with
    | stop t e =>
      rw [hpre] at hn
      simp only [Flow.trace, List.nil_append] at hn
      refine ⟨n, 0, Or.inl ?_, fun v hv => ?_⟩
      · simpa [Flow.andThen] using hn
      · simp [Flow.andThen] at hv
    | crash t => exact absurd hpre (forApps_no_crash _ _ _ _ _ _)
    | go w t =>
      rw [hpre] at hn
      simp only [Flow.trace, List.nil_append] at hn
      subst hn
      simp only [Flow.andThen, Bool.false_eq_true, if_false]
      rcases signedBranch_trace ops createApp s block w (List.replicate n .preValidate) with
        ⟨e, he⟩ | ⟨m, hm⟩
      · rw [he]
        exact ⟨n, 0, Or.inr (Or.inl rfl), fun v hv => by simp at hv⟩
      · refine ⟨n, m, Or.inr (Or.inr ?_), fun v _ => ?_⟩
        · cases hf : signedBranch ops createApp s block w (List.replicate n .preValidate) with
          | stop t1 e1 => rw [hf] at hm; simpa [Flow.trace] using hm
          | crash t1 => rw [hf] at hm; simpa [Flow.trace] using hm
          | go w1 t1 => rw [hf] at hm; simpa [Flow.trace] using hm
        · cases hf : signedBranch ops createApp s block w (List.replicate n .preValidate) with
          | stop t1 e1 => rw [hf] at hm; simpa [Flow.trace] using hm
          | crash t1 => rw [hf] at hm; simpa [Flow.trace] using hm
          | go w1 t1 => rw [hf] at hm; simpa [Flow.trace] using hm
  · intro v hv
    simp only [ValidateBlockAndCreateNewView] at hv
    cases hpre : forApps (fun a => a.preValidate) (Event.preValidate : Event C) validateApp
        ⟨{ NewValidateState ops s with
            newView := ops.withBlock (NewValidateState ops s).newView block
            isPreSign := false }, ops.NewCreateState s⟩ [] with
    | stop t e => rw [hpre] at hv; simp [Flow.andThen] at hv
    | crash t => exact absurd hpre (forApps_no_crash _ _ _ _ _ _)
    | go w t =>
      rw [hpre] at hv
      simp only [Flow.andThen, Bool.false_eq_true, if_false] at hv
      cases hf : signedBranch ops createApp s block w t with
      | stop t1 e1 => rw [hf] at hv; simp at hv
      | crash t1 => rw [hf] at hv; simp at hv
      | go w1 t1 => exact signedBranch_go ops createApp s block w w1 t t1 hf
  · intro check hcheck
    simp only [ValidateBlockAndCreateNewView, NewValidateState, Bool.false_eq_true, if_false,
      signedBranch_check_congr ops check createApp s block _ _ hcheck]
  · intro e createApp2 he
    simp only [ValidateBlockAndCreateNewView, Bool.false_eq_true, if_false,
      signedBranch_check_fails ops createApp createApp2 s block _ _ e he]

/-- Claim C16, two runs on the view 3 and the block 4, whose new view is 4. When the
committee signature verifies against the committee of view 3 only, the block is accepted;
when it verifies against the committee of the new view 4 only, the run does not accept it
(it panics at the committee check). -/
theorem validate_committee_of_receiver_witness :
    (ValidateBlockAndCreateNewView (committeeOps 3) [okApp] [okApp] 3 4 false).out =
        .ret (some 4, none) ∧
      (ValidateBlockAndCreateNewView (committeeOps 4) [okApp] [okApp] 3 4 false).out =
        .panic ∧
      ((committeeOps 3).ValidateProducerSig 4 = none ∧
        (committeeOps 3).ValidateCommitteeSig 4 ((committeeOps 3).GetCommittee 3) = none) :=
  ⟨rfl, rfl,
    (validate_committee_of_receiver (committeeOps 3) [okApp] [okApp] 3 4).2.1 4 rfl⟩

/-! ### Staking metadata: committee lists and receiver checks -/

/-- One filtering step on a list that is empty or holds the one staker `x`. -/
theorem GetValidStaker_one (Q : Prop) [Decidable Q] (l : List String) (x : String) :
    GetValidStaker l (if Q then [x] else []) = if Q ∧ x ∉ l then [x] else [] := by
  by_cases hQ : Q
  · by_cases hx : x ∈ l
    · simp [GetValidStaker, hQ, hx]
    · simp [GetValidStaker, hQ, hx]
  · simp [GetValidStaker, hQ]

/-- The filtering steps over the lists of a map, on a list that is empty or holds the one
staker `x`. -/
theorem foldl_GetValidStaker_one (entries : List (Nat × List String)) (Q : Prop)
    [Decidable Q] (x : String) :
    entries.foldl (fun acc e => GetValidStaker e.2 acc) (if Q then [x] else []) =
      if Q ∧ ∀ e ∈ entries, x ∉ e.2 then [x] else [] := by
  induction entries generalizing Q with
  | nil => simp
  | cons e rest ih =>
    rw [List.foldl_cons, GetValidStaker_one, ih]
    have hiff : ((Q ∧ x ∉ e.2) ∧ ∀ e1 ∈ rest, x ∉ e1.2) ↔
        (Q ∧ ∀ e1 ∈ e :: rest, x ∉ e1.2) := by
      constructor
      · intro ⟨⟨hQ, hx⟩, hr⟩
        refine ⟨hQ, fun e1 he1 => ?_⟩
        rcases List.mem_cons.1 he1 with h | h
        · rw [h]
          exact hx
        · exact hr e1 h
      · intro ⟨hQ, hall⟩
        exact ⟨⟨hQ, hall e (List.mem_cons_self _ _)⟩,
          fun e1 he1 => hall e1 (List.mem_cons_of_mem _ he1)⟩
    exact if_congr hiff rfl rfl

/-- Claim C17. With `GetValidStaker` returning the stakers not in the list, for a staking
metadata whose candidate payment address deserialises, `ValidateTxWithBlockChain` returns
`(true, nil)` exactly when the base58check text of the candidate public key is in none of
the eight lists of `GetAllCommitteeValidatorCandidate`, and `(false, err)` otherwise. -/
theorem staking_valid_iff_unlisted (c : StakingConsts) (Encode : List Nat → String)
    (m : StakingMetadata) (all : AllCommitteeValidatorCandidate) (w : KeyWallet)
    (hdec : c.Base58CheckDeserialize m.CandidatePaymentAddress = (some w, none)) :
    (ValidateTxWithBlockChain c Encode m all = (true, none) ↔
      ((∀ e ∈ all.SC, Encode w.Pk ∉ e.2) ∧ (∀ e ∈ all.SPV, Encode w.Pk ∉ e.2) ∧
        Encode w.Pk ∉ all.BC ∧ Encode w.Pk ∉ all.BPV ∧ Encode w.Pk ∉ all.CBWFCR ∧
        Encode w.Pk ∉ all.CBWFNR ∧ Encode w.Pk ∉ all.CSWFCR ∧ Encode w.Pk ∉ all.CSWFNR)) ∧
    (¬ ((∀ e ∈ all.SC, Encode w.Pk ∉ e.2) ∧ (∀ e ∈ all.SPV, Encode w.Pk ∉ e.2) ∧
        Encode w.Pk ∉ all.BC ∧ Encode w.Pk ∉ all.BPV ∧ Encode w.Pk ∉ all.CBWFCR ∧
        Encode w.Pk ∉ all.CBWFNR ∧ Encode w.Pk ∉ all.CSWFCR ∧ Encode w.Pk ∉ all.CSWFNR) →
      ∃ e, ValidateTxWithBlockChain c Encode m all = (false, some e)) := by
  have hstart : [Encode w.Pk] = if True then [Encode w.Pk] else [] := by simp
  have key : ValidateTxWithBlockChain c Encode m all =
      if (((((((True ∧ ∀ e ∈ all.SC, Encode w.Pk ∉ e.2) ∧
        ∀ e ∈ all.SPV, Encode w.Pk ∉ e.2) ∧ Encode w.Pk ∉ all.BC) ∧
        Encode w.Pk ∉ all.BPV) ∧ Encode w.Pk ∉ all.CBWFCR) ∧ Encode w.Pk ∉ all.CBWFNR) ∧
        Encode w.Pk ∉ all.CSWFCR) ∧ Encode w.Pk ∉ all.CSWFNR
      then (true, none)
      else (false, some "invalid Staker, This pubkey may staked already") := by
    simp only [ValidateTxWithBlockChain, hdec]
    rw [hstart, foldl_GetValidStaker_one, foldl_GetValidStaker_one, GetValidStaker_one,
      GetValidStaker_one, GetValidStaker_one, GetValidStaker_one, GetValidStaker_one,
      GetValidStaker_one]
    by_cases hP : (((((((True ∧ ∀ e ∈ all.SC, Encode w.Pk ∉ e.2) ∧
        ∀ e ∈ all.SPV, Encode w.Pk ∉ e.2) ∧ Encode w.Pk ∉ all.BC) ∧
        Encode w.Pk ∉ all.BPV) ∧ Encode w.Pk ∉ all.CBWFCR) ∧ Encode w.Pk ∉ all.CBWFNR) ∧
        Encode w.Pk ∉ all.CSWFCR) ∧ Encode w.Pk ∉ all.CSWFNR
    · rw [if_pos hP, if_pos hP]
      simp
    · rw [if_neg hP, if_neg hP]
      simp
  rw [key]
  constructor
  · constructor
    · intro h
      split_ifs at h with hP
      · obtain ⟨⟨⟨⟨⟨⟨⟨⟨_, h1⟩, h2⟩, h3⟩, h4⟩, h5⟩, h6⟩, h7⟩, h8⟩ := hP
        exact ⟨h1, h2, h3, h4, h5, h6, h7, h8⟩
      · simp at h
    · intro ⟨h1, h2, h3, h4, h5, h6, h7, h8⟩
      rw [if_pos ⟨⟨⟨⟨⟨⟨⟨⟨trivial, h1⟩, h2⟩, h3⟩, h4⟩, h5⟩, h6⟩, h7⟩, h8⟩]
  · intro hn
    refine ⟨_, if_neg ?_⟩
    intro ⟨⟨⟨⟨⟨⟨⟨⟨_, h1⟩, h2⟩, h3⟩, h4⟩, h5⟩, h6⟩, h7⟩, h8⟩
    exact hn ⟨h1, h2, h3, h4, h5, h6, h7, h8⟩

/-- Claim C17, a run: the candidate key is in none of the lists. -/
theorem staking_valid_iff_unlisted_witness :
    sampleConsts.Base58CheckDeserialize (sampleMeta 63).CandidatePaymentAddress =
        (some ⟨List.replicate 33 0⟩, none) ∧
      ValidateTxWithBlockChain sampleConsts sampleEncode (sampleMeta 63) freshLists =
        (true, none) ∧
      ∃ e, ValidateTxWithBlockChain sampleConsts sampleEncode (sampleMeta 63)
        { freshLists with BPV := ["candKey"] } = (false, some e) :=
  have h1 := staking_valid_iff_unlisted sampleConsts sampleEncode (sampleMeta 63) freshLists
    ⟨List.replicate 33 0⟩ rfl
  have h2 := staking_valid_iff_unlisted sampleConsts sampleEncode (sampleMeta 63)
    { freshLists with BPV := ["candKey"] } ⟨List.replicate 33 0⟩ rfl
  ⟨rfl, h1.1.2 (by decide), h2.2 (by decide)⟩

/-- Claim C18. Whenever `ValidateSanityData` returns `(true, true, nil)` the transaction is
not a privacy transaction, it has a unique receiver, and the receiver's public key is the
public key of the wallet decoded from `common.BurningAddress`. A privacy transaction, a
transaction without a unique receiver, and a transaction whose receiver is not the key of the
burning address all get `(false, false, err)` with a non-nil error. -/
theorem sanity_success_needs_burning_receiver (c : StakingConsts) (m : StakingMetadata)
    (bcr : BlockchainRetriever) (txr : Transaction) :
    (ValidateSanityData c m bcr txr = .ret (true, true, none) →
      txr.IsPrivacy = false ∧ txr.GetUniqueReceiver.1 = true ∧
      ∃ w, (c.Base58CheckDeserialize c.BurningAddress).1 = some w ∧
        txr.GetUniqueReceiver.2.1 = w.Pk) ∧
    (txr.IsPrivacy = true →
      ∃ e, ValidateSanityData c m bcr txr = .ret (false, false, some e)) ∧
    (txr.GetUniqueReceiver.1 = false →
      ∃ e, ValidateSanityData c m bcr txr = .ret (false, false, some e)) ∧
    (∀ w, (c.Base58CheckDeserialize c.BurningAddress).1 = some w →
      txr.GetUniqueReceiver.2.1 ≠ w.Pk →
      ∃ e, ValidateSanityData c m bcr txr = .ret (false, false, some e)) := by
  refine ⟨?_, ?_, ?_, ?_⟩
  · intro h
    unfold ValidateSanityData at h
    by_cases hp : txr.IsPrivacy = true
    · rw [if_pos hp] at h
      simp at h
    · rw [if_neg hp] at h
      simp only [] at h
      by_cases ho : (!txr.GetUniqueReceiver.1) = true
      · rw [if_pos ho] at h
        simp at h
      · rw [if_neg ho] at h
        cases hb : (c.Base58CheckDeserialize c.BurningAddress).1 with
        | none =>
          rw [hb] at h
          simp at h
        | some w =>
          rw [hb] at h
          simp only [] at h
          by_cases hk : txr.GetUniqueReceiver.2.1 ≠ w.Pk
          · rw [if_pos hk] at h
            simp at h
          · refine ⟨by simpa using hp, by simpa using ho, w, rfl, ?_⟩
            simpa using hk
  · intro hp
    exact ⟨"staking Transaction Is No Privacy Transaction",
      by simp [ValidateSanityData, hp]⟩
  · intro ho
    by_cases hp : txr.IsPrivacy = true
    · exact ⟨"staking Transaction Is No Privacy Transaction",
        by simp [ValidateSanityData, hp]⟩
    · exact ⟨"staking Transaction Should Have 1 Output Amount crossponding to 1 Receiver",
        by simp [ValidateSanityData, hp, ho]⟩
  · intro w hb hk
    by_cases hp : txr.IsPrivacy = true
    · exact ⟨"staking Transaction Is No Privacy Transaction",
        by simp [ValidateSanityData, hp]⟩
    · by_cases ho : txr.GetUniqueReceiver.1 = true
      · exact ⟨"receiver Should be Burning Address",
          by simp [ValidateSanityData, hp, ho, hb, hk]⟩
      · have ho1 : txr.GetUniqueReceiver.1 = false := by simpa using ho
        exact ⟨"staking Transaction Should Have 1 Output Amount crossponding to 1 Receiver",
          by simp [ValidateSanityData, hp, ho1]⟩

/-! ### Quorum and proposal handling (modelled from the specification) -/

/-- Selecting more committee members does not lower the selected weight. -/
theorem sum_filter_mono (l : List (String × Nat)) (p q : String × Nat → Bool)
    (hpq : ∀ m, p m = true → q m = true) :
    ((l.filter p).map (fun m => m.2)).sum ≤ ((l.filter q).map (fun m => m.2)).sum := by
  induction l with
  | nil => simp
  | cons m rest ih =>
    by_cases hp : p m = true
    · have hq := hpq m hp
      simp only [List.filter_cons_of_pos hp, List.filter_cons_of_pos hq, List.map_cons,
        List.sum_cons]
      omega
    · by_cases hq : q m = true
      · simp only [List.filter_cons_of_neg hp, List.filter_cons_of_pos hq, List.map_cons,
          List.sum_cons]
        omega
      · simp only [List.filter_cons_of_neg hp, List.filter_cons_of_neg hq]
        exact ih

/-- Receiving a share changes neither the committee nor its total weight, and does not lower
the weight of the vote set. -/
theorem addShare_weights (a : VoteAggregator) (voter share : String) :
    (a.addShare voter share).totalWeight = a.totalWeight ∧
    a.voteWeight ≤ (a.addShare voter share).voteWeight := by
  have hmono : a.voteWeight ≤
      ({ a with shares := a.shares ++ [(voter, share)] } : VoteAggregator).voteWeight := by
    unfold VoteAggregator.voteWeight
    apply sum_filter_mono
    intro m hm
    simp only [List.map_append, List.mem_append, decide_eq_true_eq] at hm ⊢
    exact Or.inl hm
  unfold VoteAggregator.addShare
  by_cases hv : voter ∈ a.shares.map (fun s => s.1)
  · rw [if_pos hv]
    exact ⟨rfl, Nat.le_refl _⟩
  · rw [if_neg hv]
    simp only []
    split_ifs
    · exact ⟨rfl, hmono⟩
    · exact ⟨rfl, hmono⟩

/-- A quorum is not lost by receiving a share. -/
theorem addShare_keeps_quorum (a : VoteAggregator) (voter share : String)
    (h : a.HasQuorum = true) : (a.addShare voter share).HasQuorum = true := by
  obtain ⟨h1, h2⟩ := addShare_weights a voter share
  unfold VoteAggregator.HasQuorum at h ⊢
  simp only [decide_eq_true_eq] at h ⊢
  rw [h1]
  omega

/-- A block marked finalized has a quorum: this is kept by every event. -/
theorem runVoteEvents_invariant (evs : List VoteEvent) (info : ProposeBlockInfo)
    (h : info.finalized = true → info.votes.HasQuorum = true) :
    (runVoteEvents info evs).finalized = true →
      (runVoteEvents info evs).votes.HasQuorum = true := by
  induction evs generalizing info with
  | nil => exact h
  | cons ev rest ih =>
    cases ev with
    | vote voter share =>
      simp only [runVoteEvents]
      apply ih
      unfold handleVoteMsg
      split_ifs
      · intro hf
        exact addShare_keeps_quorum _ _ _ (h hf)
      · exact h
    | check =>
      simp only [runVoteEvents]
      apply ih
      unfold processIfBlockGetEnoughVote
      split_ifs with hq
      · intro _
        exact hq
      · exact h

/-- Claim C19. `HasQuorum` is false for every vote set whose weight is at most 2/3 of the
total committee weight and true for every vote set whose weight is strictly greater than 2/3
of it; and a block that was not finalized and is reported finalized after any sequence of
votes and quorum checks has a vote set with quorum. -/
theorem quorum_two_thirds :
    (∀ a : VoteAggregator, (a.voteWeight : ℚ) ≤ 2 / 3 * (a.totalWeight : ℚ) →
      a.HasQuorum = false) ∧
    (∀ a : VoteAggregator, 2 / 3 * (a.totalWeight : ℚ) < (a.voteWeight : ℚ) →
      a.HasQuorum = true) ∧
    (∀ (info : ProposeBlockInfo) (evs : List VoteEvent), info.finalized = false →
      (runVoteEvents info evs).finalized = true →
      (runVoteEvents info evs).votes.HasQuorum = true) := by
  refine ⟨fun a h => ?_, fun a h => ?_, fun info evs h0 => ?_⟩
  · have h1 : (3 * a.voteWeight : ℚ) ≤ 2 * a.totalWeight := by linarith
    have h2 : 3 * a.voteWeight ≤ 2 * a.totalWeight := by exact_mod_cast h1
    unfold VoteAggregator.HasQuorum
    simp only [decide_eq_false_iff_not]
    omega
  · have h1 : (2 * a.totalWeight : ℚ) < 3 * a.voteWeight := by linarith
    have h2 : 2 * a.totalWeight < 3 * a.voteWeight := by exact_mod_cast h1
    unfold VoteAggregator.HasQuorum
    simp only [decide_eq_true_eq]
    exact h2
  · exact runVoteEvents_invariant evs info (fun hf => by rw [h0] at hf; simp at hf)

/-- Claim C19, runs on a committee of four members of weight 1: two votes (weight 2 of 4)
give no quorum and no finalization, three votes (weight 3 of 4) give both, and a repeated
vote or a vote from outside the committee does not count. -/
theorem quorum_two_thirds_runs :
    (runVoteEvents fourVoters [.vote "a" "sa", .vote "b" "sb", .check]).finalized = false ∧
      (runVoteEvents fourVoters
        [.vote "a" "sa", .vote "b" "sb", .vote "b" "sx", .vote "z" "sz", .check]).finalized
        = false ∧
      (runVoteEvents fourVoters
        [.vote "a" "sa", .vote "b" "sb", .vote "c" "sc", .check]).finalized = true ∧
      (runVoteEvents fourVoters
        [.vote "a" "sa", .vote "b" "sb", .vote "c" "sc", .check]).votes.HasQuorum = true :=
  ⟨by decide, by decide, by decide,
    quorum_two_thirds.2.2 fourVoters [.vote "a" "sa", .vote "b" "sb", .vote "c" "sc", .check]
      rfl (by decide)⟩

/-- Claim C20. For every actor state and every propose message that carries no block,
whatever its `PeerID` and `TimeSlot`, `handleProposeMsg` returns (it does not panic) a
non-nil error, and leaves the actor as it was. -/
theorem propose_without_block_rejected (a : actorV2) (proposeMsg : BFTPropose)
    (hnil : proposeMsg.Block = none) :
    ∃ e, handleProposeMsg a proposeMsg = .ret (a, some e) := by
  unfold handleProposeMsg
  rw [hnil]
  exact ⟨_, rfl⟩

/-- Claim C20, the test case: the zero-valued actor and the message with `PeerID` empty,
`Block` nil and `TimeSlot` 19. -/
theorem propose_without_block_rejected_witness :
    (⟨"", none, 19⟩ : BFTPropose).Block = none ∧
      ∃ e, handleProposeMsg zeroActor ⟨"", none, 19⟩ = .ret (zeroActor, some e) :=
  ⟨rfl, propose_without_block_rejected zeroActor ⟨"", none, 19⟩ rfl⟩

/-! ## Properties of the committee lists -/

/-- Converting a key list succeeds when every key converts, and then the strings are exactly
the conversions of its keys. -/
theorem CommitteeKeyListToString_ok {K E : Type} (toBase58 : K → Except E String)
    (keys : List K) (hall : ∀ k ∈ keys, ∃ s, toBase58 k = .ok s) :
    ∃ ss, CommitteeKeyListToString toBase58 keys = .ok ss ∧
      ∀ s, s ∈ ss ↔ ∃ k ∈ keys, toBase58 k = .ok s := by
  induction keys with
  | nil => exact ⟨[], rfl, by simp⟩
  | cons k ks ih =>
    obtain ⟨s0, hs0⟩ := hall k (List.mem_cons_self _ _)
    obtain ⟨ss, hss, hmem⟩ := ih (fun k1 hk1 => hall k1 (List.mem_cons_of_mem _ hk1))
    refine ⟨s0 :: ss, by simp only [CommitteeKeyListToString, hs0, hss], fun s => ?_⟩
    constructor
    · intro h
      rcases List.mem_cons.1 h with h1 | h1
      · exact ⟨k, List.mem_cons_self _ _, by rw [h1]; exact hs0⟩
      · obtain ⟨k1, hk1, hk1s⟩ := (hmem s).1 h1
        exact ⟨k1, List.mem_cons_of_mem _ hk1, hk1s⟩
    · intro ⟨k1, hk1, hk1s⟩
      rcases List.mem_cons.1 hk1 with h1 | h1
      · rw [h1, hs0] at hk1s
        injection hk1s with h2
        rw [← h2]
        exact List.mem_cons_self _ _
      · exact List.mem_cons_of_mem _ ((hmem s).2 ⟨k1, h1, hk1s⟩)

/-- Appending the lists of a map succeeds when every key converts, and then adds exactly the
conversions of the keys of its entries. -/
theorem appendCommittees_ok {K E : Type} (toBase58 : K → Except E String)
    (entries : List (Nat × List K)) (validators : List String)
    (hall : ∀ e ∈ entries, ∀ k ∈ e.2, ∃ s, toBase58 k = .ok s) :
    ∃ vs, appendCommittees toBase58 entries validators = .ok vs ∧
      ∀ s, s ∈ vs ↔ s ∈ validators ∨ ∃ e ∈ entries, ∃ k ∈ e.2, toBase58 k = .ok s := by
  induction entries generalizing validators with
  | nil => exact ⟨validators, rfl, by simp⟩
  | cons e rest ih =>
    obtain ⟨ss, hss, hmem⟩ := CommitteeKeyListToString_ok toBase58 e.2
      (hall e (List.mem_cons_self _ _))
    obtain ⟨vs, hvs, hvmem⟩ := ih (validators ++ ss)
      (fun e1 he1 => hall e1 (List.mem_cons_of_mem _ he1))
    refine ⟨vs, by simp only [appendCommittees, hss, hvs], fun s => ?_⟩
    rw [hvmem, List.mem_append, hmem]
    constructor
    · rintro ((h | ⟨k, hk, hks⟩) | ⟨e1, he1, k, hk, hks⟩)
      · exact Or.inl h
      · exact Or.inr ⟨e, List.mem_cons_self _ _, k, hk, hks⟩
      · exact Or.inr ⟨e1, List.mem_cons_of_mem _ he1, k, hk, hks⟩
    · rintro (h | ⟨e1, he1, k, hk, hks⟩)
      · exact Or.inl (Or.inl h)
      · rcases List.mem_cons.1 he1 with h1 | h1
        · subst h1
          exact Or.inl (Or.inr ⟨k, hk, hks⟩)
        · exact Or.inr ⟨e1, h1, k, hk, hks⟩

/-- Claim C25 (amended). When every key of the lists read by `getValidators` converts to a
string, `getValidators` returns a list, and a string is in it if and only if it is the
conversion of a key of some shard committee, some shard substitute list, the beacon
committee, the beacon substitute list, the current-epoch beacon candidates or the
current-epoch shard candidates. -/
theorem getValidators_members {K H E DB : Type} (d : Deps K E DB)
    (b : BeaconCommitteeStateV1 K H)
    (h1 : ∀ e ∈ b.shardCommittee, ∀ k ∈ e.2, ∃ s, d.ToBase58 k = .ok s)
    (h2 : ∀ e ∈ b.shardSubstitute, ∀ k ∈ e.2, ∃ s, d.ToBase58 k = .ok s)
    (h3 : ∀ k ∈ b.beaconCommittee, ∃ s, d.ToBase58 k = .ok s)
    (h4 : ∀ k ∈ b.beaconSubstitute, ∃ s, d.ToBase58 k = .ok s)
    (h5 : ∀ k ∈ b.currentEpochBeaconCandidate, ∃ s, d.ToBase58 k = .ok s)
    (h6 : ∀ k ∈ b.currentEpochShardCandidate, ∃ s, d.ToBase58 k = .ok s) :
    ∃ validators, getValidators d b = .ok validators ∧
      ∀ s, s ∈ validators ↔
        ((∃ e ∈ b.shardCommittee, ∃ k ∈ e.2, d.ToBase58 k = .ok s) ∨
          (∃ e ∈ b.shardSubstitute, ∃ k ∈ e.2, d.ToBase58 k = .ok s) ∨
          (∃ k ∈ b.beaconCommittee, d.ToBase58 k = .ok s) ∨
          (∃ k ∈ b.beaconSubstitute, d.ToBase58 k = .ok s) ∨
          (∃ k ∈ b.currentEpochBeaconCandidate, d.ToBase58 k = .ok s) ∨
          (∃ k ∈ b.currentEpochShardCandidate, d.ToBase58 k = .ok s)) := by
  obtain ⟨v1, e1, m1⟩ := appendCommittees_ok d.ToBase58 b.shardCommittee [] h1
  obtain ⟨v2, e2, m2⟩ := appendCommittees_ok d.ToBase58 b.shardSubstitute v1 h2
  obtain ⟨s3, e3, m3⟩ := CommitteeKeyListToString_ok d.ToBase58 b.beaconCommittee h3
  obtain ⟨s4, e4, m4⟩ := CommitteeKeyListToString_ok d.ToBase58 b.beaconSubstitute h4
  obtain ⟨s5, e5, m5⟩ :=
    CommitteeKeyListToString_ok d.ToBase58 b.currentEpochBeaconCandidate h5
  obtain ⟨s6, e6, m6⟩ :=
    CommitteeKeyListToString_ok d.ToBase58 b.currentEpochShardCandidate h6
  refine ⟨(((v2 ++ s3) ++ s4) ++ s5) ++ s6,
    by simp only [getValidators, e1, e2, e3, e4, e5, e6], fun s => ?_⟩
  simp only [List.mem_append, m2, m1, m3, m4, m5, m6, List.not_mem_nil, false_or, or_assoc]

/-- Claim C25, a run: one key in each of a shard committee and the current-epoch shard
candidates. -/
theorem getValidators_members_witness :
    ∃ validators,
      getValidators textDeps
        { stateOf [] mapEmpty with
          shardCommittee := [(0, ["S"])], currentEpochShardCandidate := ["K"] } =
        .ok validators ∧
      ("K" ∈ validators ↔
        ((∃ e ∈ [((0 : Nat), ["S"])], ∃ k ∈ e.2, textDeps.ToBase58 k = .ok "K") ∨
          (∃ e ∈ ([] : List (Nat × List String)), ∃ k ∈ e.2, textDeps.ToBase58 k = .ok "K") ∨
          (∃ k ∈ ([] : List String), textDeps.ToBase58 k = .ok "K") ∨
          (∃ k ∈ ([] : List String), textDeps.ToBase58 k = .ok "K") ∨
          (∃ k ∈ ([] : List String), textDeps.ToBase58 k = .ok "K") ∨
          (∃ k ∈ ["K"], textDeps.ToBase58 k = .ok "K"))) := by
  have hS : ∀ e ∈ [((0 : Nat), ["S"])], ∀ k ∈ e.2, ∃ s, textDeps.ToBase58 k = .ok s := by
    intro e he k hk
    rw [List.mem_singleton.1 he] at hk
    rw [List.mem_singleton.1 hk]
    exact ⟨"S", rfl⟩
  have hK : ∀ k ∈ ["K"], ∃ s, textDeps.ToBase58 k = .ok s := by
    intro k hk
    rw [List.mem_singleton.1 hk]
    exact ⟨"K", rfl⟩
  obtain ⟨vs, hvs, hm⟩ := getValidators_members textDeps
    { stateOf [] mapEmpty with
      shardCommittee := [(0, ["S"])], currentEpochShardCandidate := ["K"] }
    hS (fun e he => absurd he (List.not_mem_nil _)) (fun k hk => absurd hk (List.not_mem_nil _))
    (fun k hk => absurd hk (List.not_mem_nil _)) (fun k hk => absurd hk (List.not_mem_nil _))
    hK
  exact ⟨vs, hvs, hm "K"⟩

/-- Claim C25, as stated, fails: the key `K` is a current-epoch shard candidate and is in no
committee and no substitute list, yet `getValidators` returns it. -/
theorem getValidators_lists_candidates :
    getValidators textDeps
        { stateOf [] mapEmpty with currentEpochShardCandidate := ["K"] } = .ok ["K"] ∧
      ({ stateOf [] mapEmpty with currentEpochShardCandidate := ["K"] } :
        BeaconCommitteeStateV1 String Nat).shardCommittee = [] ∧
      ({ stateOf [] mapEmpty with currentEpochShardCandidate := ["K"] } :
        BeaconCommitteeStateV1 String Nat).shardSubstitute = [] ∧
      ({ stateOf [] mapEmpty with currentEpochShardCandidate := ["K"] } :
        BeaconCommitteeStateV1 String Nat).beaconCommittee = [] ∧
      ({ stateOf [] mapEmpty with currentEpochShardCandidate := ["K"] } :
        BeaconCommitteeStateV1 String Nat).beaconSubstitute = [] :=
  ⟨rfl, rfl, rfl, rfl, rfl⟩

/-- Claim C26, the failing run: shard candidates `A`, `C`; the target `B` is a next-epoch
beacon candidate, listed in `env.subtituteCandidates` (as `getSubtituteCandidates` lists it)
and absent from the shard candidate list. The call returns no error and the shard candidate
list is `C`: the key `A`, which the instruction does not name, was removed, because the
index map has no entry for `B` and the lookup at line 74 yields position 0. -/
theorem unstake_removes_unnamed_key :
    getSubtituteCandidates textDeps
        { stateOf ["A", "C"] mapEmpty with nextEpochBeaconCandidate := ["B"] } =
        .ok ["B", "A", "C"] ∧
      processUnstakeInstruction textDeps
        { stateOf ["A", "C"] mapEmpty with nextEpochBeaconCandidate := ["B"] } ⟨["B"]⟩
        (envOf ["B", "A", "C"] []) emptyChange = .ret beaconCandidateRun ∧
      beaconCandidateRun.err = none ∧
      beaconCandidateRun.b.nextEpochShardCandidate = ["C"] ∧ "A" ∉ ["B"] :=
  ⟨rfl, rfl, rfl, rfl, by decide⟩

/-! ## Properties of the transaction code -/

/-- Claim C21, the failing input: the record built by `Tx.Hash` never reads `Fee`. Changing
the fee of any transaction leaves the record and the hash as they were; the transactions
`emptyTx` with fee 7 and `emptyTx` (fee 0) differ in `Fee` only and have the same record. -/
theorem tx_hash_ignores_fee (deps : TxDeps) :
    (∀ (tx : Tx) (fee : Nat),
        Tx.record deps { tx with Fee := fee } = Tx.record deps tx ∧
        Tx.Hash deps { tx with Fee := fee } = Tx.Hash deps tx) ∧
      ({ emptyTx with Fee := 7 } : Tx).Fee ≠ emptyTx.Fee ∧
      Tx.record deps { emptyTx with Fee := 7 } = Tx.record deps emptyTx :=
  ⟨fun _ _ => ⟨rfl, rfl⟩, by decide, rfl⟩

/-- Claim C22, the failing input: `ValidateTransaction` never reads the signature or the
signing key. It returns true for `emptyTx`, which has neither a signature nor a signing key
and which `VerifySign` rejects with an error. -/
theorem validate_accepts_unsigned :
    (∀ (tx : Tx) (jsSig jsPubKey : Option (List Nat)),
        ValidateTransaction { tx with JSSig := jsSig, JSPubKey := jsPubKey } =
          ValidateTransaction tx) ∧
      ValidateTransaction emptyTx = true ∧
      emptyTx.JSSig = none ∧ emptyTx.JSPubKey = none ∧
      (∀ keySpare sigSpare, VerifySign sampleTxDeps emptyTx keySpare sigSpare =
        .ret (false, some "Input transaction must be an signed one!")) :=
  ⟨fun _ _ _ => rfl, rfl, rfl, rfl, fun _ _ => rfl⟩

/-- Claim C23, the failing input: one note of value 5 whose commitment is in the list, a
payment of 3, and the provided anchor of 32 zero bytes, while `BuildWitnessPath` returns the
root `[9]`. `CreateTx` returns a transaction and no error; its single description carries the
anchor `[9]`. The variable `latestAnchor` starts as an empty, non-nil slice, so the test at
line 218 fails in the first pass and the comparison with `rt` is not made. -/
theorem createTx_skips_anchor_check :
    ∃ tx, CreateTx sampleTxDeps 10 sampleSenderKey [payOf 3] (some zeroAnchor) [usableOf 5]
          [[5, 7]] = some (.ret (some tx, none)) ∧
      tx.Descs.map (fun desc => desc.Anchor) = [some [9]] ∧
      (∀ inputs, sampleTxDeps.BuildWitnessPath inputs [[5, 7]] =
        .ok (inputs.map (fun _ => [1]), some [9])) ∧
      ([9] : List Nat) ≠ zeroAnchor :=
  ⟨_, rfl, rfl, fun _ => rfl, by decide⟩

/-- Claim C24, the failing input: the public key (1, 2). Its serialisation is the two bytes
1, 2, not 64 bytes, and the decoding of `VerifySign` panics on it (the slice `[0:32]` is out
of range) whenever the capacity of the array is below 32, as it is for an array of two
appended bytes. The key (2^247, 2^255), both coordinates below 2^256, gives 63 bytes: decoding
them panics when the capacity is 63, and with one spare zero byte (capacity 64) it returns
the key (2^255 + 128, 0), not the key that was serialised. -/
theorem pubkey_bytes_not_64 :
    PubKeyToByteArray ⟨1, 2⟩ = [1, 2] ∧
      (PubKeyToByteArray ⟨1, 2⟩).length ≠ 64 ∧
      (∀ spare : List Nat, spare.length < 30 →
        decodePubKey (PubKeyToByteArray ⟨1, 2⟩) spare = .panic) ∧
      (PubKeyToByteArray ⟨2 ^ 247, 2 ^ 255⟩).length = 63 ∧
      decodePubKey (PubKeyToByteArray ⟨2 ^ 247, 2 ^ 255⟩) [] = .panic ∧
      decodePubKey (PubKeyToByteArray ⟨2 ^ 247, 2 ^ 255⟩) [0] = .ret ⟨2 ^ 255 + 128, 0⟩ := by
  have h : PubKeyToByteArray ⟨1, 2⟩ = [1, 2] := by
    simp [PubKeyToByteArray, BigIntBytes]
  have h63 : PubKeyToByteArray ⟨2 ^ 247, 2 ^ 255⟩ =
      128 :: List.replicate 30 0 ++ 128 :: List.replicate 31 0 := by
    norm_num [PubKeyToByteArray, BigIntBytes, List.replicate]
  refine ⟨h, ?_, ?_, ?_, ?_, ?_⟩
  · rw [h]; decide
  · intro spare hspare
    rw [h]
    have hlt : ¬ (32 ≤ ([1, 2] : List Nat).length + spare.length) := by
      simp only [List.length_cons, List.length_nil]
      omega
    simp only [decodePubKey, sliceRange, if_neg hlt]
  · rw [h63]; simp
  · rw [h63]; rfl
  · rw [h63]
    norm_num [decodePubKey, sliceRange, BigIntSetBytes, List.replicate, Nat.ofDigits]

/-! ### The record hashed by `Tx.Hash` -/

/-- Every byte of the decimal text of a natural number is at least 48, the digit 0. -/
theorem natAscii_ge (n x : Nat) (h : x ∈ natAscii n) : 48 ≤ x := by
  unfold natAscii at h
  split at h
  · rw [List.mem_singleton.1 h]
  · obtain ⟨d, _, hd⟩ := List.mem_map.1 h
    omega

/-- The decimal text determines the natural number. -/
theorem natAscii_injective (n m : Nat) (h : natAscii n = natAscii m) : n = m := by
  have hmap : ∀ k : Nat, k ≠ 0 → natAscii k = [48] → False := by
    intro k hk he
    simp only [natAscii, if_neg hk] at he
    have h1 : (Nat.digits 10 k).reverse = [0] := by
      have : ((Nat.digits 10 k).reverse.map (fun d => d + 48)) = [0].map (fun d => d + 48) := he
      exact List.map_injective_iff.2 (fun a b hab => by simpa using hab) this
    have h2 : Nat.digits 10 k = [0] := by
      have := congrArg List.reverse h1
      simpa using this
    have h3 := Nat.ofDigits_digits 10 k
    rw [h2] at h3
    simp at h3
    exact hk h3.symm
  by_cases hn : n = 0
  · by_cases hm : m = 0
    · rw [hn, hm]
    · exfalso
      apply hmap m hm
      rw [← h, hn]
      rfl
  · by_cases hm : m = 0
    · exfalso
      apply hmap n hn
      rw [h, hm]
      rfl
    · simp only [natAscii, if_neg hn, if_neg hm] at h
      have h1 : (Nat.digits 10 n).reverse = (Nat.digits 10 m).reverse :=
        List.map_injective_iff.2 (fun a b hab => by simpa using hab) h
      exact Nat.digits.injective 10 (List.reverse_injective h1)

/-- The text written by `strconv.Itoa` determines the integer. -/
theorem Itoa_injective (i j : Int) (h : Itoa i = Itoa j) : i = j := by
  unfold Itoa at h
  by_cases hi : i < 0
  · by_cases hj : j < 0
    · simp only [if_pos hi, if_pos hj] at h
      have := natAscii_injective _ _ (List.cons_injective h)
      omega
    · simp only [if_pos hi, if_neg hj] at h
      have := natAscii_ge j.natAbs 45 (by rw [← h]; exact List.mem_cons_self _ _)
      omega
  · by_cases hj : j < 0
    · simp only [if_neg hi, if_pos hj] at h
      have := natAscii_ge i.natAbs 45 (by rw [h]; exact List.mem_cons_self _ _)
      omega
    · simp only [if_neg hi, if_neg hj] at h
      have := natAscii_injective _ _ h
      omega

/-- Claim C27 (amended). Two transactions with the same record and the same description
strings that agree on four of the five components `Version`, `Type`, `LockTime`, the bytes of
`JSPubKey` and the bytes of `JSSig` agree on the fifth too: a change of one of these
components alone always changes the record. -/
theorem record_single_component (deps : TxDeps) (a b : Tx)
    (hrec : a.record deps = b.record deps)
    (hdescs : a.Descs.map deps.descToString = b.Descs.map deps.descToString) :
    (a.TxType = b.TxType → a.LockTime = b.LockTime →
        bytesOf a.JSPubKey = bytesOf b.JSPubKey → bytesOf a.JSSig = bytesOf b.JSSig →
        a.Version = b.Version) ∧
      (a.Version = b.Version → a.LockTime = b.LockTime →
        bytesOf a.JSPubKey = bytesOf b.JSPubKey → bytesOf a.JSSig = bytesOf b.JSSig →
        a.TxType = b.TxType) ∧
      (a.Version = b.Version → a.TxType = b.TxType →
        bytesOf a.JSPubKey = bytesOf b.JSPubKey → bytesOf a.JSSig = bytesOf b.JSSig →
        a.LockTime = b.LockTime) ∧
      (a.Version = b.Version → a.TxType = b.TxType → a.LockTime = b.LockTime →
        bytesOf a.JSSig = bytesOf b.JSSig → bytesOf a.JSPubKey = bytesOf b.JSPubKey) ∧
      (a.Version = b.Version → a.TxType = b.TxType → a.LockTime = b.LockTime →
        bytesOf a.JSPubKey = bytesOf b.JSPubKey → bytesOf a.JSSig = bytesOf b.JSSig) := by
  have hlen : a.Descs.length = b.Descs.length := by
    have := congrArg List.length hdescs
    simpa only [List.length_map] using this
  unfold Tx.record at hrec
  rw [hdescs, hlen] at hrec
  refine ⟨fun hT hL hK hS => ?_, fun hV hL hK hS => ?_, fun hV hT hK hS => ?_,
    fun hV hT hL hS => ?_, fun hV hT hL hK => ?_⟩
  · rw [hT, hL, hK, hS] at hrec
    exact Itoa_injective _ _ (List.append_cancel_right (List.append_cancel_right
      (List.append_cancel_right (List.append_cancel_right (List.append_cancel_right
        (List.append_cancel_right hrec))))))
  · rw [hV, hL, hK, hS] at hrec
    exact List.append_cancel_left (List.append_cancel_right (List.append_cancel_right
      (List.append_cancel_right (List.append_cancel_right (List.append_cancel_right hrec)))))
  · rw [hV, hT, hK, hS] at hrec
    exact Itoa_injective _ _ (List.append_cancel_left (List.append_cancel_right
      (List.append_cancel_right (List.append_cancel_right (List.append_cancel_right hrec)))))
  · rw [hV, hT, hL, hS] at hrec
    exact List.append_cancel_left (List.append_cancel_right hrec)
  · rw [hV, hT, hL, hK] at hrec
    exact List.append_cancel_left hrec

/-- Claim C27, a run: `emptyTx` with fee 7 and `emptyTx` have the same record and the same
(empty) description strings, so agreement on four of the components gives the fifth. -/
theorem record_single_component_witness :
    ({ emptyTx with Fee := 7 } : Tx) ≠ emptyTx ∧
      Tx.record sampleTxDeps { emptyTx with Fee := 7 } = Tx.record sampleTxDeps emptyTx ∧
      (({ emptyTx with Fee := 7 } : Tx).TxType = emptyTx.TxType →
        ({ emptyTx with Fee := 7 } : Tx).LockTime = emptyTx.LockTime →
        bytesOf ({ emptyTx with Fee := 7 } : Tx).JSPubKey = bytesOf emptyTx.JSPubKey →
        bytesOf ({ emptyTx with Fee := 7 } : Tx).JSSig = bytesOf emptyTx.JSSig →
        ({ emptyTx with Fee := 7 } : Tx).Version = emptyTx.Version) :=
  ⟨by decide, rfl,
    (record_single_component sampleTxDeps { emptyTx with Fee := 7 } emptyTx rfl rfl).1⟩

/-- The record joins `JSPubKey` and `JSSig` without a separator: moving a byte from the end of
one to the start of the other leaves the record, and so the hash, as it was, whatever
`DoubleHashH` and `descToString` are. -/
theorem record_joins_key_and_signature (deps : TxDeps) :
    Tx.record deps { emptyTx with JSPubKey := some [1, 2], JSSig := some [3] } =
        Tx.record deps { emptyTx with JSPubKey := some [1], JSSig := some [2, 3] } ∧
      Tx.Hash deps { emptyTx with JSPubKey := some [1, 2], JSSig := some [3] } =
        Tx.Hash deps { emptyTx with JSPubKey := some [1], JSSig := some [2, 3] } := by
  have h : Tx.record deps { emptyTx with JSPubKey := some [1, 2], JSSig := some [3] } =
      Tx.record deps { emptyTx with JSPubKey := some [1], JSSig := some [2, 3] } := by
    simp [Tx.record, bytesOf, emptyTx]
  exact ⟨h, congrArg deps.DoubleHashH h⟩

/-- Claim C27, as stated, fails: the record joins its fields without separators. The
transaction with `JSPubKey` 1, 2 and `JSSig` 3 and the transaction with `JSPubKey` 1 and
`JSSig` 2, 3 differ in both fields and have the same record, hence the same hash. -/
theorem record_not_injective :
    ({ emptyTx with JSPubKey := some [1, 2], JSSig := some [3] } : Tx).JSPubKey ≠
        ({ emptyTx with JSPubKey := some [1], JSSig := some [2, 3] } : Tx).JSPubKey ∧
      ({ emptyTx with JSPubKey := some [1, 2], JSSig := some [3] } : Tx).JSSig ≠
        ({ emptyTx with JSPubKey := some [1], JSSig := some [2, 3] } : Tx).JSSig ∧
      Tx.record sampleTxDeps { emptyTx with JSPubKey := some [1, 2], JSSig := some [3] } =
        Tx.record sampleTxDeps { emptyTx with JSPubKey := some [1], JSSig := some [2, 3] } ∧
      Tx.Hash sampleTxDeps { emptyTx with JSPubKey := some [1, 2], JSSig := some [3] } =
        Tx.Hash sampleTxDeps { emptyTx with JSPubKey := some [1], JSSig := some [2, 3] } :=
  ⟨by decide, by decide, (record_joins_key_and_signature sampleTxDeps).1,
    (record_joins_key_and_signature sampleTxDeps).2⟩

/-! ### Value conservation in one pass of `CreateTx` -/

/-- The loop choosing inputs keeps `inputValue` equal to the `uint64` sum of the values of
the chosen notes, and chooses at most `slots` more inputs. -/
theorem chooseInputs_spec (senderKey : List Nat) :
    ∀ (slots : Nat) (inputNotes : List Note) (inputs : List JSInput) (inputValue : Nat),
      inputValue = (inputs.map (fun i => i.InputNote.Value)).sum % uint64Mod →
      (chooseInputs senderKey slots inputNotes inputs inputValue).2.2 =
          ((chooseInputs senderKey slots inputNotes inputs inputValue).2.1.map
            (fun i => i.InputNote.Value)).sum % uint64Mod ∧
        (chooseInputs senderKey slots inputNotes inputs inputValue).2.1.length ≤
          inputs.length + slots
  | 0, _, _, _, h => ⟨h, Nat.le_refl _⟩
  | slots + 1, inputNotes, inputs, inputValue, h => by
    cases hlast : inputNotes.getLast? with
    | none =>
      simp only [chooseInputs, hlast]
      exact ⟨h, by omega⟩
    | some note =>
      simp only [chooseInputs, hlast]
      have ih := chooseInputs_spec senderKey slots inputNotes.dropLast
        (inputs ++ [{ WitnessPath := [], Key := senderKey, InputNote := note }])
        (addU64 inputValue note.Value)
        (by simp [addU64, h, List.sum_append, Nat.mod_add_mod])
      refine ⟨ih.1, ?_⟩
      have h2 := ih.2
      simp only [List.length_append, List.length_singleton] at h2
      omega

/-- The commitment check leaves the values of the input notes as they were. -/
theorem checkCommitments_values (deps : TxDeps) (commitments : List (List Nat)) :
    ∀ (inputs checked : List JSInput),
      checkCommitments deps commitments inputs = .ok checked →
      checked.map (fun i => i.InputNote.Value) = inputs.map (fun i => i.InputNote.Value)
  | [], checked, h => by
    simp only [checkCommitments] at h
    injection h with h
    rw [← h]
  | input :: rest, checked, h => by
    simp only [checkCommitments] at h
    split at h
    · cases hrest : checkCommitments deps commitments rest with
      | error e => rw [hrest] at h; cases h
      | ok rest1 =>
        rw [hrest] at h
        injection h with h
        rw [← h]
        simp only [List.map_cons, checkCommitments_values deps commitments rest rest1 hrest]
    · cases h

/-- Writing witness paths leaves the values of the input notes as they were. -/
theorem writePaths_values :
    ∀ (inputs : List JSInput) (paths : List (List Nat)),
      (writePaths inputs paths).map (fun i => i.InputNote.Value) =
        inputs.map (fun i => i.InputNote.Value)
  | [], _ => by simp [writePaths]
  | _ :: _, [] => by simp [writePaths]
  | i :: is, p :: ps => by
    simp only [writePaths, List.map_cons, writePaths_values is ps]

/-- The value of a note built by `noteOf`. -/
theorem noteOf_Value (value : Nat) (apk : List Nat) : (noteOf value apk).Value = value := rfl

/-- The loop choosing outputs keeps the sum of the output values and `inputValue` constant,
and adds at most `slots` outputs. -/
theorem chooseOutputs_spec :
    ∀ (slots : Nat) (paymentInfo : List PaymentInfo) (outputs : List JSOutput)
      (inputValue : Nat),
      ((chooseOutputs slots paymentInfo outputs inputValue).2.1.map
            (fun o => o.OutputNote.Value)).sum +
          (chooseOutputs slots paymentInfo outputs inputValue).2.2 =
          (outputs.map (fun o => o.OutputNote.Value)).sum + inputValue ∧
        (chooseOutputs slots paymentInfo outputs inputValue).2.1.length ≤
          outputs.length + slots
  | 0, _, _, _ => ⟨rfl, Nat.le_refl _⟩
  | slots + 1, paymentInfo, outputs, inputValue => by
    cases hlast : paymentInfo.getLast? with
    | none => simp [chooseOutputs, hlast]
    | some p =>
      simp only [chooseOutputs, hlast]
      by_cases h0 : inputValue = 0
      · simp [h0]
      · simp only [h0, if_false]
        by_cases hle : p.Amount ≤ inputValue
        · simp only [hle, if_true]
          have ih := chooseOutputs_spec slots paymentInfo.dropLast
            (outputs ++ [{ EncKey := p.PaymentAddress.Pkenc
                           OutputNote := noteOf p.Amount p.PaymentAddress.Apk }])
            (inputValue - p.Amount)
          simp only [List.map_append, List.sum_append, List.length_append, List.map_cons,
            List.map_nil, List.sum_cons, List.sum_nil, List.length_singleton, noteOf_Value] at ih
          exact ⟨by omega, by omega⟩
        · simp only [hle, if_false]
          have ih := chooseOutputs_spec slots
            (paymentInfo.dropLast ++ [{ p with Amount := p.Amount - inputValue }])
            (outputs ++ [{ EncKey := p.PaymentAddress.Pkenc
                           OutputNote := noteOf inputValue p.PaymentAddress.Apk }])
            0
          simp only [List.map_append, List.sum_append, List.length_append, List.map_cons,
            List.map_nil, List.sum_cons, List.sum_nil, List.length_singleton, noteOf_Value] at ih
          exact ⟨by omega, by omega⟩

/-- The block after the output loop puts all that is left of `inputValue` into one more
output, and adds at most one output. -/
theorem lastOutput_spec (sender : PaymentAddress) (paymentInfo : List PaymentInfo)
    (outputs : List JSOutput) (inputValue : Nat) :
    ((lastOutput sender paymentInfo outputs inputValue).outputs.map
          (fun o => o.OutputNote.Value)).sum =
        (outputs.map (fun o => o.OutputNote.Value)).sum + inputValue ∧
      (lastOutput sender paymentInfo outputs inputValue).outputs.length ≤ outputs.length + 1 := by
  unfold lastOutput
  by_cases h0 : inputValue = 0
  · simp only [h0, if_true]
    exact ⟨rfl, by omega⟩
  · simp only [h0, if_false]
    cases hlast : paymentInfo.getLast? with
    | none => simp [noteOf]
    | some p =>
      by_cases he : p.Amount = inputValue
      · simp [he, noteOf]
      · simp [he, noteOf]

/-- Writing the proof data into the outputs keeps their number. -/
theorem writeProved_length :
    ∀ (outputs : List JSOutput) (notes : List (List Nat × List Nat × List Nat)),
      (writeProved outputs notes).length = outputs.length
  | [], _ => by simp [writeProved]
  | _ :: _, [] => by simp [writeProved]
  | o :: os, (rho, r, cm) :: ns => by
    simp only [writeProved, List.length_cons, writeProved_length os ns]

/-- The method `buildJSDescAndEncrypt` returns only for exactly two inputs and at least two
outputs. -/
theorem buildJSDescAndEncrypt_lengths (deps : TxDeps) (tx tx1 : Tx) (inputs : List JSInput)
    (outputs : List JSOutput) (proof : List Nat) (rt : Option (List Nat)) (reward : Nat)
    (hSig seed : List Nat)
    (h : buildJSDescAndEncrypt deps tx inputs outputs proof rt reward hSig seed = .ret tx1) :
    inputs.length = 2 ∧ 2 ≤ outputs.length := by
  unfold buildJSDescAndEncrypt at h
  split at h
  · simp
  · cases h

/-- A description is built only from exactly two inputs and at least two outputs. -/
theorem BuildNewJSDesc_lengths (deps : TxDeps) (tx tx1 : Tx) (inputs : List JSInput)
    (outputs outputs1 : List JSOutput) (rt : Option (List Nat)) (reward : Nat)
    (h : BuildNewJSDesc deps tx inputs outputs rt reward = .ret (.ok (tx1, outputs1))) :
    inputs.length = 2 ∧ 2 ≤ outputs.length := by
  unfold BuildNewJSDesc at h
  cases hp : deps.Prove inputs outputs tx.JSPubKey rt reward with
  | error e => rw [hp] at h; cases h
  | ok pr =>
    rw [hp] at h
    simp only at h
    cases hb : buildJSDescAndEncrypt deps tx inputs (writeProved outputs pr.notes) pr.proof rt
        reward pr.hSig pr.seed with
    | panic => rw [hb] at h; cases h
    | ret tx2 =>
      have hl := buildJSDescAndEncrypt_lengths deps tx tx2 inputs _ _ _ _ _ _ hb
      rw [writeProved_length] at hl
      exact hl

/-- A successful selection is `selectOutputs` applied to the chosen inputs, after the
commitment check and with the witness paths written. -/
theorem passSelection_shape (deps : TxDeps) (senderKey : List Nat) (rt : Option (List Nat))
    (st : CreateState) (sel : Selection) (anchor : Option (List Nat))
    (h : passSelection deps senderKey rt st = .ret (.ok (sel, anchor))) :
    ∃ checked paths,
      checkCommitments deps st.commitments
          (chooseInputs senderKey deps.NumDescInputs (deps.sortSliceNotes st.inputNotes) [] 0).2.1 =
        .ok checked ∧
      sel = selectOutputs deps senderKey
        (chooseInputs senderKey deps.NumDescInputs (deps.sortSliceNotes st.inputNotes) [] 0).1
        (deps.sortSlicePayments st.paymentInfo) (writePaths checked paths)
        (dummyInputs deps senderKey
          (chooseInputs senderKey deps.NumDescInputs (deps.sortSliceNotes st.inputNotes) [] 0).2.1)
        (chooseInputs senderKey deps.NumDescInputs (deps.sortSliceNotes st.inputNotes) []
          0).2.2 := by
  unfold passSelection at h
  simp only at h
  cases hc : checkCommitments deps st.commitments
      (chooseInputs senderKey deps.NumDescInputs (deps.sortSliceNotes st.inputNotes) [] 0).2.1 with
  | error e => rw [hc] at h; cases h
  | ok checked =>
    rw [hc] at h
    simp only at h
    cases hb : deps.BuildWitnessPath checked st.commitments with
    | error e => rw [hb] at h; cases h
    | ok res =>
      obtain ⟨paths, newRt⟩ := res
      rw [hb] at h
      simp only at h
      refine ⟨checked, paths, rfl, ?_⟩
      split at h
      · cases h
      · cases h
      · injection h with h
        injection h with h
        injection h with h1 h2
        exact h1.symm

/-- What a successful selection is made of: exactly `NumDescInputs` inputs, dummies of value
0 among them; exactly `NumDescOutputs` outputs when that is positive and at most one
otherwise; and outputs worth what the chosen notes are worth when their sum fits `uint64`. -/
theorem passSelection_spec (deps : TxDeps) (senderKey : List Nat) (rt : Option (List Nat))
    (st : CreateState) (sel : Selection) (anchor : Option (List Nat))
    (h : passSelection deps senderKey rt st = .ret (.ok (sel, anchor))) :
    sel.inputs.length = deps.NumDescInputs ∧
      (1 ≤ deps.NumDescOutputs → sel.outputs.length = deps.NumDescOutputs) ∧
      (deps.NumDescOutputs = 0 → sel.outputs.length ≤ 1) ∧
      (sel.inputs.map (fun i => i.InputNote.Value)).sum =
        (sel.inputsToBuildWitness.map (fun i => i.InputNote.Value)).sum ∧
      ((sel.inputsToBuildWitness.map (fun i => i.InputNote.Value)).sum < uint64Mod →
        (sel.outputs.map (fun o => o.OutputNote.Value)).sum =
          (sel.inputsToBuildWitness.map (fun i => i.InputNote.Value)).sum) := by
  obtain ⟨checked, paths, hc, hsel⟩ := passSelection_shape deps senderKey rt st sel anchor h
  have hin := chooseInputs_spec senderKey deps.NumDescInputs
    (deps.sortSliceNotes st.inputNotes) [] 0 rfl
  have hval := checkCommitments_values deps st.commitments _ checked hc
  have hwp := writePaths_values checked paths
  have hout := chooseOutputs_spec (deps.NumDescOutputs - 1)
    (deps.sortSlicePayments st.paymentInfo) []
    (chooseInputs senderKey deps.NumDescInputs (deps.sortSliceNotes st.inputNotes) [] 0).2.2
  have hlast := lastOutput_spec (deps.senderPublicKey senderKey)
    (chooseOutputs (deps.NumDescOutputs - 1) (deps.sortSlicePayments st.paymentInfo) []
      (chooseInputs senderKey deps.NumDescInputs (deps.sortSliceNotes st.inputNotes) [] 0).2.2).1
    (chooseOutputs (deps.NumDescOutputs - 1) (deps.sortSlicePayments st.paymentInfo) []
      (chooseInputs senderKey deps.NumDescInputs (deps.sortSliceNotes st.inputNotes) [] 0).2.2).2.1
    (chooseOutputs (deps.NumDescOutputs - 1) (deps.sortSlicePayments st.paymentInfo) []
      (chooseInputs senderKey deps.NumDescInputs (deps.sortSliceNotes st.inputNotes) [] 0).2.2).2.2
  have hlen : (writePaths checked paths).length =
      (chooseInputs senderKey deps.NumDescInputs (deps.sortSliceNotes st.inputNotes) []
        0).2.1.length := by
    have := congrArg List.length (hwp.trans hval)
    simpa only [List.length_map] using this
  have hdin : ((dummyInputs deps senderKey
      (chooseInputs senderKey deps.NumDescInputs (deps.sortSliceNotes st.inputNotes) [] 0).2.1).map
      (fun i => i.InputNote.Value)).sum = 0 := by
    simp [dummyInputs, createDummyNote]
  have hdout : ∀ outs : List JSOutput,
      ((dummyOutputs deps outs).map (fun o => o.OutputNote.Value)).sum = 0 := by
    intro outs
    simp [dummyOutputs, CreateRandomJSOutput, createDummyNote]
  subst hsel
  simp only [selectOutputs, List.length_append, List.map_append, List.sum_append, hdin,
    hdout, Nat.add_zero, hlen, hwp, hval]
  simp only [List.length_nil, List.map_nil, List.sum_nil, Nat.zero_add] at hin hout
  simp only [dummyInputs, dummyOutputs, List.length_replicate]
  refine ⟨by omega, fun h1 => by omega, fun h0 => by omega, trivial, fun hsum => ?_⟩
  rw [Nat.mod_eq_of_lt hsum] at hin
  omega

/-- Writing the proof data into the outputs keeps the values of their notes and their
transmission keys. -/
theorem writeProved_values :
    ∀ (outputs : List JSOutput) (notes : List (List Nat × List Nat × List Nat)),
      (writeProved outputs notes).map (fun o => o.OutputNote.Value) =
        outputs.map (fun o => o.OutputNote.Value)
  | [], _ => by simp [writeProved]
  | _ :: _, [] => by simp [writeProved]
  | o :: os, (rho, r, cm) :: ns => by
    simp only [writeProved, List.map_cons, writeProved_values os ns]

/-- What `buildJSDescAndEncrypt` appends when it returns: one description, with the
nullifiers of both inputs and the commitments and encrypted notes of the first two outputs. -/
theorem buildJSDescAndEncrypt_desc (deps : TxDeps) (tx tx1 : Tx) (inputs : List JSInput)
    (outputs : List JSOutput) (proof : List Nat) (rt : Option (List Nat)) (reward : Nat)
    (hSig seed : List Nat)
    (h : buildJSDescAndEncrypt deps tx inputs outputs proof rt reward hSig seed = .ret tx1) :
    ∃ desc, tx1.Descs = tx.Descs ++ [desc] ∧
      desc.Anchor = rt ∧ desc.Reward = reward ∧
      desc.Nullifiers = inputs.map (fun i => i.InputNote.Nf) ∧
      desc.Commitments = (outputs.take 2).map (fun o => o.OutputNote.Cm) ∧
      desc.EncryptedData =
        deps.EncryptNote ((outputs.take 2).map (fun o => o.OutputNote))
          ((outputs.take 2).map (fun o => o.EncKey)) deps.GenEphemeralKey.2
          deps.GenEphemeralKey.1 hSig := by
  unfold buildJSDescAndEncrypt at h
  split at h
  · injection h with h
    rw [← h]
    exact ⟨_, rfl, rfl, rfl, rfl, rfl, rfl⟩
  · cases h

/-- What `BuildNewJSDesc` did when it returns no error: `client.Prove` succeeded, its data
was written into the outputs, and `buildJSDescAndEncrypt` returned the new transaction. -/
theorem BuildNewJSDesc_ok (deps : TxDeps) (tx tx1 : Tx) (inputs : List JSInput)
    (outputs outputs1 : List JSOutput) (rt : Option (List Nat)) (reward : Nat)
    (h : BuildNewJSDesc deps tx inputs outputs rt reward = .ret (.ok (tx1, outputs1))) :
    ∃ pr, deps.Prove inputs outputs tx.JSPubKey rt reward = .ok pr ∧
      outputs1 = writeProved outputs pr.notes ∧
      buildJSDescAndEncrypt deps tx inputs (writeProved outputs pr.notes) pr.proof rt reward
        pr.hSig pr.seed = .ret tx1 := by
  unfold BuildNewJSDesc at h
  cases hp : deps.Prove inputs outputs tx.JSPubKey rt reward with
  | error e => rw [hp] at h; cases h
  | ok pr =>
    rw [hp] at h
    simp only at h
    cases hb : buildJSDescAndEncrypt deps tx inputs (writeProved outputs pr.notes) pr.proof rt
        reward pr.hSig pr.seed with
    | panic => rw [hb] at h; cases h
    | ret tx2 =>
      rw [hb] at h
      simp only at h
      injection h with h
      injection h with h
      injection h with h1 h2
      exact ⟨pr, rfl, h2.symm, by rw [← h1]; exact hb⟩

/-- A pass of the loop body that does not stop `CreateTx` made a selection and built a
description from the inputs and outputs of that selection. -/
theorem createTxStep_builds (deps : TxDeps) (senderKey : List Nat) (rt : Option (List Nat))
    (st st1 : CreateState) (h : createTxStep deps senderKey rt st = .ret (.ok st1)) :
    ∃ sel anchor outputs1,
      passSelection deps senderKey rt st = .ret (.ok (sel, anchor)) ∧
      BuildNewJSDesc deps st.tx sel.inputs sel.outputs anchor 0 =
        .ret (.ok (st1.tx, outputs1)) := by
  unfold createTxStep at h
  cases hp : passSelection deps senderKey rt st with
  | panic => rw [hp] at h; cases h
  | ret r =>
    cases r with
    | error e => rw [hp] at h; cases h
    | ok res =>
      obtain ⟨sel, anchor⟩ := res
      rw [hp] at h
      simp only at h
      cases hb : BuildNewJSDesc deps st.tx sel.inputs sel.outputs anchor 0 with
      | panic => rw [hb] at h; cases h
      | ret r2 =>
        cases r2 with
        | error e => rw [hb] at h; cases h
        | ok built =>
          obtain ⟨tx, outputs⟩ := built
          rw [hb] at h
          simp only at h
          injection h with h
          injection h with h
          refine ⟨sel, anchor, outputs, rfl, ?_⟩
          rw [← h]
          exact hb

/-- Claim C28. `NumDescOutputs` is a constant declared outside the embedded sources, and
`buildJSDescAndEncrypt` puts two outputs into a description; the claim is proved for the value
2. Every pass of the loop of `CreateTx` that goes on appends exactly one description to the
transaction. That description holds the nullifiers of all the inputs selected by the pass,
`NumDescInputs` of them, and the commitments and the encrypted notes of all its outputs,
`NumDescOutputs` of them, as `client.Prove` left them (it keeps their values). The values of
the inputs sum to the values of the chosen notes, dummy notes having value 0, and when the
chosen values sum to less than 2^64, the values of the notes placed as outputs (payments,
change note, dummies of value 0) sum to the same. -/
theorem createTx_desc_conserves_value (deps : TxDeps) (senderKey : List Nat)
    (rt : Option (List Nat)) (st st1 : CreateState)
    (hstep : createTxStep deps senderKey rt st = .ret (.ok st1))
    (hout : deps.NumDescOutputs = 2) :
    ∃ sel anchor pr desc,
      passSelection deps senderKey rt st = .ret (.ok (sel, anchor)) ∧
      deps.Prove sel.inputs sel.outputs st.tx.JSPubKey anchor 0 = .ok pr ∧
      st1.tx.Descs = st.tx.Descs ++ [desc] ∧
      desc.Nullifiers = sel.inputs.map (fun i => i.InputNote.Nf) ∧
      desc.Commitments =
        (writeProved sel.outputs pr.notes).map (fun o => o.OutputNote.Cm) ∧
      desc.EncryptedData =
        deps.EncryptNote ((writeProved sel.outputs pr.notes).map (fun o => o.OutputNote))
          ((writeProved sel.outputs pr.notes).map (fun o => o.EncKey))
          deps.GenEphemeralKey.2 deps.GenEphemeralKey.1 pr.hSig ∧
      desc.Nullifiers.length = deps.NumDescInputs ∧
      desc.Commitments.length = deps.NumDescOutputs ∧
      (writeProved sel.outputs pr.notes).map (fun o => o.OutputNote.Value) =
        sel.outputs.map (fun o => o.OutputNote.Value) ∧
      (sel.inputs.map (fun i => i.InputNote.Value)).sum =
        (sel.inputsToBuildWitness.map (fun i => i.InputNote.Value)).sum ∧
      ((sel.inputsToBuildWitness.map (fun i => i.InputNote.Value)).sum < uint64Mod →
        ((writeProved sel.outputs pr.notes).map (fun o => o.OutputNote.Value)).sum =
          (sel.inputsToBuildWitness.map (fun i => i.InputNote.Value)).sum) := by
  obtain ⟨sel, anchor, outputs1, hsel, hbuild⟩ :=
    createTxStep_builds deps senderKey rt st st1 hstep
  obtain ⟨hin, hpos, _, hsum, hcons⟩ := passSelection_spec deps senderKey rt st sel anchor hsel
  obtain ⟨pr, hprove, _, hdesc⟩ :=
    BuildNewJSDesc_ok deps st.tx st1.tx sel.inputs sel.outputs outputs1 anchor 0 hbuild
  obtain ⟨desc, hdescs, _, _, hnf, hcm, henc⟩ :=
    buildJSDescAndEncrypt_desc deps st.tx st1.tx sel.inputs _ _ _ _ _ _ hdesc
  have hlen : sel.outputs.length = 2 := by
    rw [hpos (by omega), hout]
  have htake : (writeProved sel.outputs pr.notes).take 2 = writeProved sel.outputs pr.notes :=
    List.take_of_length_le (by rw [writeProved_length, hlen])
  rw [htake] at hcm henc
  have hval := writeProved_values sel.outputs pr.notes
  refine ⟨sel, anchor, pr, desc, hsel, hprove, hdescs, hnf, hcm, henc, ?_, ?_, hval, hsum,
    fun h => ?_⟩
  · rw [hnf, List.length_map, hin]
  · rw [hcm, List.length_map, writeProved_length, hlen, hout]
  · rw [hval]
    exact hcons h

/-- Claim C28, a run: from one note of value 5 and a payment of 3 the pass selects the
inputs 5 and a dummy 0, and the outputs 3 and the change 2; the transaction gets one
description, with two nullifiers and the commitments of the notes of value 3 and 2. -/
theorem createTx_desc_conserves_value_witness :
    createTxStep sampleTxDeps sampleSenderKey (some zeroAnchor) samplePassState =
        .ret (.ok samplePassNext) ∧
      sampleTxDeps.NumDescOutputs = 2 ∧
      passSelection sampleTxDeps sampleSenderKey (some zeroAnchor) samplePassState =
        .ret (.ok (samplePassSelection, some [9])) ∧
      samplePassSelection.inputs.map (fun i => i.InputNote.Value) = [5, 0] ∧
      samplePassSelection.outputs.map (fun o => o.OutputNote.Value) = [3, 2] ∧
      samplePassNext.tx.Descs.map (fun d => d.Commitments) = [[[3, 7], [2, 7]]] ∧
      samplePassNext.tx.Descs.map (fun d => d.Nullifiers.length) = [2] ∧
      (∃ sel anchor pr desc,
        passSelection sampleTxDeps sampleSenderKey (some zeroAnchor) samplePassState =
          .ret (.ok (sel, anchor)) ∧
        sampleTxDeps.Prove sel.inputs sel.outputs samplePassState.tx.JSPubKey anchor 0 =
          .ok pr ∧
        samplePassNext.tx.Descs = samplePassState.tx.Descs ++ [desc] ∧
        desc.Nullifiers = sel.inputs.map (fun i => i.InputNote.Nf) ∧
        desc.Commitments =
          (writeProved sel.outputs pr.notes).map (fun o => o.OutputNote.Cm) ∧
        desc.EncryptedData =
          sampleTxDeps.EncryptNote
            ((writeProved sel.outputs pr.notes).map (fun o => o.OutputNote))
            ((writeProved sel.outputs pr.notes).map (fun o => o.EncKey))
            sampleTxDeps.GenEphemeralKey.2 sampleTxDeps.GenEphemeralKey.1 pr.hSig ∧
        desc.Nullifiers.length = sampleTxDeps.NumDescInputs ∧
        desc.Commitments.length = sampleTxDeps.NumDescOutputs ∧
        (writeProved sel.outputs pr.notes).map (fun o => o.OutputNote.Value) =
          sel.outputs.map (fun o => o.OutputNote.Value) ∧
        (sel.inputs.map (fun i => i.InputNote.Value)).sum =
          (sel.inputsToBuildWitness.map (fun i => i.InputNote.Value)).sum ∧
        ((sel.inputsToBuildWitness.map (fun i => i.InputNote.Value)).sum < uint64Mod →
          ((writeProved sel.outputs pr.notes).map (fun o => o.OutputNote.Value)).sum =
            (sel.inputsToBuildWitness.map (fun i => i.InputNote.Value)).sum)) :=
  ⟨rfl, rfl, rfl, rfl, rfl, rfl, rfl,
    createTx_desc_conserves_value sampleTxDeps sampleSenderKey (some zeroAnchor)
      samplePassState samplePassNext rfl rfl⟩

/-! ### Termination of `CreateTx` -/

/-- With no input notes and the single payment of amount 0, a pass of the loop body of
`CreateTx` leaves the notes and the payment as they were, so the loop condition holds after
any number of passes. -/
theorem createTxLoop_zero_payment (senderKey : List Nat) (rt : Option (List Nat)) :
    ∀ (fuel : Nat) (c : List (List Nat)) (a : List Nat) (tx : Tx),
      createTxLoop sampleTxDeps senderKey rt fuel ⟨[], [payOf 0], c, some a, tx⟩ = none
  | 0, _, _, _ => rfl
  | fuel + 1, c, _, _ =>
    createTxLoop_zero_payment senderKey rt fuel (c ++ [[0, 7], [0, 7]]) [9] _

/-- When the value check passes and the loop is still running after `fuel` passes, `CreateTx`
has not returned. -/
theorem CreateTx_of_loop_running (deps : TxDeps) (fuel : Nat) (senderKey : List Nat)
    (paymentInfo : List PaymentInfo) (rt : Option (List Nat)) (usableTx : List Tx)
    (commitments : List (List Nat)) (tx : Tx)
    (hvalue : ¬ (((usableTx.map
          (fun tx => (tx.Descs.map (fun desc => desc.note)).flatten)).flatten).foldl
        (fun sum note => addU64 sum note.Value) 0 <
      paymentInfo.foldl (fun value p => addU64 value p.Amount) 0))
    (htx : NewTxTemplate deps = .ret tx)
    (hloop : createTxLoop deps senderKey rt fuel
        ⟨(usableTx.map (fun tx => (tx.Descs.map (fun desc => desc.note)).flatten)).flatten,
          paymentInfo, commitments, some [], tx⟩ = none) :
    CreateTx deps fuel senderKey paymentInfo rt usableTx commitments = none := by
  simp only [CreateTx, if_neg hvalue, htx, hloop]

/-- Claim C29, the failing input: no usable notes and one payment of amount 0, with any
sender key, anchor and commitments. The value check passes (0 is not less than 0),
`BuildWitnessPath` and `BuildNewJSDesc` succeed, and the loop is still running after any
number of passes: no pass consumes the payment, because the output loop and the change block
both require `inputValue > 0`. -/
theorem createTx_zero_payment_never_ends (fuel : Nat) (senderKey : List Nat)
    (rt : Option (List Nat)) (commitments : List (List Nat)) :
    CreateTx sampleTxDeps fuel senderKey [payOf 0] rt [] commitments = none :=
  CreateTx_of_loop_running sampleTxDeps fuel senderKey [payOf 0] rt [] commitments _
    (by decide) rfl (createTxLoop_zero_payment senderKey rt fuel commitments [] _)

end Incognito
